import Mathlib

/-!
Verification of the RT-Model-Card core engines against their specification.

This file gives a shallow embedding of the repository's core Python modules:

* app/core/collections.py   (ordered-document builder)
* app/core/date_utils.py    (date normalizer)
* app/services/state_store.py        (hydrate engine)
* app/services/serialization.py      (flatten engine)
* app/services/evaluations_extractor.py
* app/services/validation.py         (validation engine)

Python data is modelled by the inductive type Value (strings, ints, bools,
None, date objects, lists, dicts).  The Streamlit session state
(st.session_state) is modelled as an insertion-ordered association list
Store with Python-dict update semantics (updating an existing key keeps its
position, new keys are appended).  Code that can raise is modelled with an
explicit error type PyErr; code that cannot raise is a total function.
-/

set_option autoImplicit false

namespace MC

/-- A Python datetime.date value: a year, month and day.  Validity (as
enforced by the datetime.date constructor) is the separate predicate
dateValid. -/
structure PyDate where
  year : Nat
  month : Nat
  day : Nat
deriving DecidableEq, Repr

/-- Leap-year rule used by the Gregorian calendar (and Python's datetime). -/
def isLeap (y : Nat) : Bool :=
  y % 4 == 0 && (y % 100 != 0 || y % 400 == 0)

/-- Number of days of a month, as validated by datetime.date. -/
def daysInMonth (y m : Nat) : Nat :=
  if m == 2 then (if isLeap y then 29 else 28)
  else if m == 4 || m == 6 || m == 9 || m == 11 then 30
  else 31

/-- Constraints enforced by the Python datetime.date constructor
(MINYEAR = 1, MAXYEAR = 9999). -/
def dateValid (y m d : Nat) : Bool :=
  1 ≤ y && y ≤ 9999 && 1 ≤ m && m ≤ 12 && 1 ≤ d && d ≤ daysInMonth y m

/-- A Python runtime value as stored in st.session_state or in a parsed
JSON document: strings, ints, bools, None, datetime.date objects, lists
and (insertion-ordered) dicts. -/
inductive Value where
  | vstr : String → Value
  | vint : Int → Value
  | vbool : Bool → Value
  | vnone : Value
  | vdate : PyDate → Value
  | vlist : List Value → Value
  | vdict : List (String × Value) → Value
deriving Repr

/-- Python truthiness of a Value ("if value:"). -/
def truthy : Value → Bool
  | .vstr s => !(s == "")
  | .vint n => !(n == 0)
  | .vbool b => b
  | .vnone => false
  | .vdate _ => true
  | .vlist l => !l.isEmpty
  | .vdict l => !l.isEmpty

/-- Python "a or b" on values: a if a is truthy, else b. -/
def orV (a b : Value) : Value := if truthy a then a else b

/-- The flat answer store: st.session_state, an insertion-ordered map from
string keys to values.  Keys are unique in a real Python dict; theorems
that need uniqueness state it as a Nodup hypothesis. -/
abbrev Store := List (String × Value)

/-- Python dict assignment d[k] = v: update the first binding of k in
place, otherwise append the new binding at the end. -/
def setKey : Store → String → Value → Store
  | [], k, v => [(k, v)]
  | (k', v') :: rest, k, v =>
      if k' = k then (k', v) :: rest else (k', v') :: setKey rest k v

/-- Python dict lookup returning an Option (first binding wins). -/
def lookupS : Store → String → Option Value
  | [], _ => none
  | (k', v') :: rest, k => if k' = k then some v' else lookupS rest k

/-- Python "k in d". -/
def containsKey (s : Store) (k : String) : Bool :=
  (lookupS s k).isSome

/-- Python d.get(k, default). -/
def getD (s : Store) (k : String) (d : Value) : Value :=
  (lookupS s k).getD d

/-- The keys of a store, in order. -/
def keysOf (s : Store) : List String := s.map Prod.fst

/-- Errors a Python exception can signal in the embedded code. -/
inductive PyErr where
  | keyError (k : String)
  | typeError
  | attributeError
deriving DecidableEq, Repr

/-- Python iteration "for x in v": lists yield their elements, dicts yield
their keys (as strings), strings yield their characters (as 1-character
strings); other values raise TypeError. -/
def iterVals : Value → Except PyErr (List Value)
  | .vlist l => .ok l
  | .vdict l => .ok (l.map (fun kv => .vstr kv.1))
  | .vstr s => .ok (s.toList.map (fun c => .vstr (String.mk [c])))
  | _ => .error .typeError

/-- Python subscription v[k] with a string key: dicts look the key up
(KeyError when absent); every other value raises TypeError. -/
def subscr (v : Value) (k : String) : Except PyErr Value :=
  match v with
  | .vdict l =>
      match l.find? (fun kv => kv.1 == k) with
      | some kv => .ok kv.2
      | none => .error (.keyError k)
  | _ => .error .typeError

/-- Python str() of a value as used inside f-strings.  Exact for strings,
ints, bools, None and dates; containers get a simplified rendering (the
engines only ever format scalars into keys — container formatting is
reachable only from documents that are not well formed, and no theorem
below depends on its exact text). -/
def pyStr : Value → String
  | .vstr s => s
  | .vint n => toString n
  | .vbool true => "True"
  | .vbool false => "False"
  | .vnone => "None"
  | .vdate d =>
      let p2 := fun (n : Nat) => if n < 10 then "0" ++ toString n else toString n
      toString d.year ++ "-" ++ p2 d.month ++ "-" ++ p2 d.day
  | .vlist _ => "[...]"
  | .vdict _ => "{...}"

/-- Whether the first list is a prefix of the second. -/
def startsWithL : List Char → List Char → Bool
  | [], _ => true
  | _ :: _, [] => false
  | p :: ps, c :: cs => p == c && startsWithL ps cs

/-- Python s.startswith(p). -/
def startsWithS (s p : String) : Bool := startsWithL p.data s.data

/-- Python s.endswith(p). -/
def endsWithS (s p : String) : Bool :=
  startsWithL p.data.reverse s.data.reverse

/-- Whether pat occurs as a contiguous sublist. -/
def containsSubL (pat : List Char) : List Char → Bool
  | [] => startsWithL pat []
  | c :: rest => startsWithL pat (c :: rest) || containsSubL pat rest

/-- Python "needle in haystack" on strings (substring containment). -/
def strContains (s pat : String) : Bool := containsSubL pat.data s.data

/-- Replacement of every non-overlapping occurrence of pat, left to right
(fuel-structured so it computes in the kernel; fuel length+1 suffices for
a nonempty pattern). -/
def replaceAux (pat rep : List Char) : Nat → List Char → List Char
  | 0, s => s
  | _ + 1, [] => []
  | fuel + 1, c :: rest =>
      if startsWithL pat (c :: rest) then
        rep ++ replaceAux pat rep fuel ((c :: rest).drop pat.length)
      else c :: replaceAux pat rep fuel rest

/-- Python s.replace(a, b).  The source only ever replaces nonempty
patterns (" ", "-", "/"); an empty pattern returns s unchanged here. -/
def pyReplace (s a b : String) : String :=
  if a.data = [] then s
  else String.mk (replaceAux a.data b.data (s.data.length + 1) s.data)

/-- The whitespace characters Python str.strip removes (ASCII range). -/
def isPySpace (c : Char) : Bool :=
  c == ' ' || c == '\t' || c == '\n' || c == '\r'
    || c.toNat == 11 || c.toNat == 12

/-- Python s.strip(). -/
def pyStrip (s : String) : String :=
  String.mk (((s.data.dropWhile isPySpace).reverse.dropWhile
    isPySpace).reverse)

/-- Python s.lower() restricted to ASCII letters (all schema/task names
and keys in this development are ASCII). -/
def lowerChar (c : Char) : Char :=
  if 65 ≤ c.toNat && c.toNat ≤ 90 then Char.ofNat (c.toNat + 32) else c

/-- Python s.lower(). -/
def pyLower (s : String) : String := String.mk (s.data.map lowerChar)

/-- Cleaning of a modality label: strip, spaces to underscores, lowercase
(source: entry["modality"].strip().replace(" ", "_").lower()). -/
def cleanLabel (s : String) : String :=
  pyLower (pyReplace (pyStrip s) " " "_")

end MC

namespace MC

/-! ## app/core/date_utils.py and the date normalizer -/

/-- A decimal digit as a character (only applied to n < 10). -/
def digitChar (n : Nat) : Char :=
  match n with
  | 0 => '0' | 1 => '1' | 2 => '2' | 3 => '3' | 4 => '4'
  | 5 => '5' | 6 => '6' | 7 => '7' | 8 => '8' | _ => '9'

/-- Decimal rendering of a natural number, no padding (fuel-structured so
that it computes in the kernel; fuel n+1 always suffices). -/
def natDigitsAux : Nat → Nat → List Char
  | 0, _ => []
  | fuel + 1, n =>
      if n < 10 then [digitChar n]
      else natDigitsAux fuel (n / 10) ++ [digitChar (n % 10)]

/-- Decimal rendering of a natural number (printf %d). -/
def natDigits (n : Nat) : List Char := natDigitsAux (n + 1) n

/-- strftime %m / %d: zero-padded to two digits. -/
def pad2 (n : Nat) : List Char :=
  if n < 10 then ['0', digitChar n] else natDigits n

/-- Model of CPython date.strftime("%Y%m%d") as implemented by glibc on
Linux (the platform this Streamlit app runs on): %m and %d are zero-padded
to two digits, while %Y prints the year as a plain decimal number WITHOUT
zero padding, so years below 1000 yield fewer than four digits. -/
def strftimeYmd (d : PyDate) : String :=
  String.mk (natDigits d.year ++ pad2 d.month ++ pad2 d.day)

/-- Whether a codepoint outside ASCII is accepted by Python str.isdigit.
Python accepts every Unicode decimal digit and every character with
Numeric_Type=Digit; this model lists the ASCII-superscript digits and a
representative set of non-ASCII decimal-digit blocks (Arabic-Indic,
Extended Arabic-Indic, Devanagari, fullwidth), which is all the
development's theorems touch.  All listed codepoints are ≥ 0xB2, so the
model is exact on ASCII strings. -/
def nonAsciiDigitCp (n : Nat) : Bool :=
  decide (n = 0xB9 ∨ n = 0xB2 ∨ n = 0xB3
    ∨ (0x660 ≤ n ∧ n ≤ 0x669) ∨ (0x6F0 ≤ n ∧ n ≤ 0x6F9)
    ∨ (0x966 ≤ n ∧ n ≤ 0x96F) ∨ (0xFF10 ≤ n ∧ n ≤ 0xFF19))

/-- Python str.isdigit on a single character. -/
def pyIsDigitChar (c : Char) : Bool :=
  (48 ≤ c.toNat && c.toNat ≤ 57) || nonAsciiDigitCp c.toNat

/-- Python s.isdigit(): nonempty and every character is a digit. -/
def pyIsdigit (s : String) : Bool :=
  !s.toList.isEmpty && s.toList.all pyIsDigitChar

/-- is_yyyymmdd on a string: len(s) == 8 and s.isdigit()
(source: app/core/date_utils.py). -/
def is_yyyymmddStr (s : String) : Bool :=
  s.length == 8 && pyIsdigit s

/-- is_yyyymmdd(s: object): isinstance(s, str) and len(s) == 8 and
s.isdigit() (source: app/core/date_utils.py lines 12-21). -/
def is_yyyymmdd : Value → Bool
  | .vstr s => is_yyyymmddStr s
  | _ => false

/-- An ASCII decimal digit (regex \d of CPython strptime; \d also matches
non-ASCII Unicode decimal digits, which never reach to_date in the claims
below — their inputs are strftime output or already-normalized ASCII). -/
def isAsciiDigit (c : Char) : Bool := 48 ≤ c.toNat && c.toNat ≤ 57

/-- Numeric value of an ASCII digit character. -/
def dval (c : Char) : Nat := c.toNat - 48

/-- All matches of the %m regex alternation (1[0-2]|0[1-9]|[1-9]) at the
head of the input, in alternation (backtracking-priority) order, each with
the remaining input. -/
def monthCands : List Char → List (Nat × List Char)
  | c1 :: c2 :: rest =>
      (if c1 = '1' && (c2 = '0' || c2 = '1' || c2 = '2')
        then [(10 + dval c2, rest)] else [])
      ++ (if c1 = '0' && (49 ≤ c2.toNat && c2.toNat ≤ 57)
        then [(dval c2, rest)] else [])
      ++ (if 49 ≤ c1.toNat && c1.toNat ≤ 57
        then [(dval c1, c2 :: rest)] else [])
  | [c1] =>
      if 49 ≤ c1.toNat && c1.toNat ≤ 57 then [(dval c1, [])] else []
  | [] => []

/-- First match of the %d regex alternation (3[01]|[12]\d|0[1-9]|[1-9]) at
the head of the input.  %d is the last directive, so plain first-match
semantics (no further backtracking) is exact. -/
def dayMatch : List Char → Option (Nat × List Char)
  | c1 :: c2 :: rest =>
      if c1 = '3' && (c2 = '0' || c2 = '1') then some (30 + dval c2, rest)
      else if (c1 = '1' || c1 = '2') && isAsciiDigit c2 then
        some (10 * dval c1 + dval c2, rest)
      else if c1 = '0' && (49 ≤ c2.toNat && c2.toNat ≤ 57) then
        some (dval c2, rest)
      else if 49 ≤ c1.toNat && c1.toNat ≤ 57 then some (dval c1, c2 :: rest)
      else none
  | [c1] =>
      if 49 ≤ c1.toNat && c1.toNat ≤ 57 then some (dval c1, []) else none
  | [] => none

/-- Backtracking across the month alternatives: the first month candidate
whose remaining input also matches a day wins (CPython compiles the whole
format to one regex; the match has no end anchor). -/
def firstMD : List (Nat × List Char) → Option (Nat × Nat × List Char)
  | [] => none
  | (m, rest) :: more =>
      match dayMatch rest with
      | some (d, rest2) => some (m, d, rest2)
      | none => firstMD more

/-- CPython time.strptime(s, "%Y%m%d") on the character list of s: %Y is
exactly four digits (regex \d\d\d\d), then %m, then %d; after a
successful regex match, strptime raises if unconverted data remains (no
re-matching). -/
def strptimeYmdL : List Char → Option (Nat × Nat × Nat)
  | c1 :: c2 :: c3 :: c4 :: rest =>
      if isAsciiDigit c1 && isAsciiDigit c2 && isAsciiDigit c3
          && isAsciiDigit c4 then
        match firstMD (monthCands rest) with
        | some (m, d, leftover) =>
            if leftover.isEmpty then
              some (((dval c1 * 10 + dval c2) * 10 + dval c3) * 10 + dval c4,
                m, d)
            else none
        | none => none
      else none
  | _ => none

/-- CPython time.strptime(s, "%Y%m%d"). -/
def strptimeYmd (s : String) : Option (Nat × Nat × Nat) :=
  strptimeYmdL s.toList

/-- to_date(s): datetime.strptime(s, "%Y%m%d").date(), None on ValueError
or TypeError; the datetime.date construction validates ranges (year 1-9999,
month, day-in-month) and is what rejects e.g. Feb 30
(source: app/core/date_utils.py lines 24-40). -/
def to_date (s : String) : Option PyDate :=
  match strptimeYmd s with
  | some (y, m, d) => if dateValid y m d then some ⟨y, m, d⟩ else none
  | none => none

/-- _normalize_to_yyyymmdd(value): strings have "-" and "/" stripped and
must then pass is_yyyymmdd; datetime and date objects are rendered with
strftime("%Y%m%d") (both Python branches call the same strftime, so one
vdate case models both); everything else gives None
(source: app/services/state_store.py lines 35-52). -/
def normalizeToYyyymmdd : Value → Option String
  | .vstr v =>
      let s := pyReplace (pyReplace (pyStrip v) "-" "") "/" ""
      if is_yyyymmddStr s then some s else none
  | .vdate d => some (strftimeYmd d)
  | _ => none

/-! ## app/core/collections.py (ordered-document builder) -/

/-- The OrderedDict constructor applied to a list of pairs: Python dict
semantics keep the FIRST position and the LAST value of a duplicated key. -/
def odFrom (l : List (String × Value)) : List (String × Value) :=
  l.foldl (fun acc kv => setKey acc kv.1 kv.2) []

/-- insert_after(odict, new_key, new_value, after_key)
(source: app/core/collections.py lines 11-39): empty mappings get the
singleton; otherwise the pair is emitted after every occurrence of
after_key and the result is rebuilt as an OrderedDict. -/
def insert_after (odict : List (String × Value)) (new_key : String)
    (new_value : Value) (after_key : String) : List (String × Value) :=
  if odict.isEmpty then [(new_key, new_value)]
  else
    odFrom (odict.flatMap (fun kv =>
      kv :: if kv.1 = after_key then [(new_key, new_value)] else []))

/-- insert_dict_after(base_dict, insert_dict, after_key)
(source: app/core/collections.py lines 42-64): NO empty-base special case;
the insertions are spliced after every occurrence of after_key. -/
def insert_dict_after (base_dict : List (String × Value))
    (ins : List (String × Value)) (after_key : String) :
    List (String × Value) :=
  odFrom (base_dict.flatMap (fun kv =>
    kv :: if kv.1 = after_key then ins else []))

end MC

namespace MC

/-! ## Basic lemmas about dict-semantics association lists -/

theorem setKey_not_mem {s : Store} {k : String} (v : Value)
    (h : ¬ k ∈ keysOf s) : setKey s k v = s ++ [(k, v)] := by
  induction s with
  | nil => rfl
  | cons hd tl ih =>
      simp only [keysOf, List.map_cons, List.mem_cons] at h
      push_neg at h
      simp only [setKey, List.cons_append]
      rw [if_neg (fun e => h.1 e.symm), ih]
      intro hm
      exact h.2 (by simpa [keysOf] using hm)

theorem odFrom_loop (l acc : List (String × Value))
    (h : ((keysOf acc) ++ (keysOf l)).Nodup) :
    l.foldl (fun a kv => setKey a kv.1 kv.2) acc = acc ++ l := by
  induction l generalizing acc with
  | nil => simp
  | cons hd tl ih =>
      simp only [List.foldl_cons]
      have hnot : ¬ hd.1 ∈ keysOf acc := by
        intro hm
        exact (List.disjoint_of_nodup_append h) hm (by simp [keysOf])
      rw [setKey_not_mem hd.2 hnot, ih (acc ++ [(hd.1, hd.2)])]
      · simp
      · have : keysOf acc ++ keysOf (hd :: tl)
            = (keysOf (acc ++ [(hd.1, hd.2)])) ++ keysOf tl := by
          simp [keysOf]
        rw [← this]
        exact h

theorem odFrom_nodup {l : List (String × Value)} (h : (keysOf l).Nodup) :
    odFrom l = l := by
  have := odFrom_loop l [] (by simpa [keysOf] using h)
  simpa [odFrom] using this

theorem flatMap_no_anchor {ak : String} {ins : List (String × Value)}
    (l : List (String × Value)) (h : ¬ ak ∈ keysOf l) :
    (l.flatMap (fun kv =>
      kv :: if kv.1 = ak then ins else [])) = l := by
  induction l with
  | nil => rfl
  | cons hd tl ih =>
      simp only [keysOf, List.map_cons, List.mem_cons] at h
      push_neg at h
      simp only [List.flatMap_cons]
      rw [if_neg (fun e => h.1 e.symm), ih (by simpa [keysOf] using h.2)]
      simp

/-! ## Claim C4: insertManyAfter on an empty base -/

/-- C4 counterexample: on an empty base, insert_dict_after drops the
insertions and returns an empty mapping, while insert_after returns the
singleton; the two do NOT have the same semantics on an empty base, so the
claim as stated is false. -/
theorem C4_counterexample :
    insert_dict_after [] [("x", Value.vint 1)] "a" = [] ∧
    insert_after [] "x" (Value.vint 1) "a" = [("x", Value.vint 1)] :=
  ⟨rfl, rfl⟩

/-- C4 amended: insert_dict_after applied to an EMPTY base returns the
empty mapping for every insertions and anchor (the inserted pairs are
dropped; only insert_after has the empty-base singleton special case); on a
base that does contain the anchor — the only way callers use it — it
splices the insertions, in their own order, immediately after the anchor
entry. -/
theorem C4_amended :
    (∀ (ins : List (String × Value)) (ak : String),
        insert_dict_after [] ins ak = []) ∧
    (∀ (pre suf ins : List (String × Value)) (ak : String) (v : Value),
        (keysOf (pre ++ (ak, v) :: (ins ++ suf))).Nodup →
        insert_dict_after (pre ++ (ak, v) :: suf) ins ak
          = pre ++ (ak, v) :: (ins ++ suf)) := by
  constructor
  · intro ins ak
    rfl
  · intro pre suf ins ak v h
    have hkeys : keysOf (pre ++ (ak, v) :: (ins ++ suf))
        = keysOf pre ++ ak :: (keysOf ins ++ keysOf suf) := by
      simp [keysOf]
    rw [hkeys] at h
    have hpre : ¬ ak ∈ keysOf pre := by
      intro hm
      exact (List.disjoint_of_nodup_append h) hm (by simp)
    have h2 : (ak :: (keysOf ins ++ keysOf suf)).Nodup :=
      (List.nodup_append.mp h).2.1
    have hsuf : ¬ ak ∈ keysOf suf := by
      have := (List.nodup_cons.mp h2).1
      intro hm
      exact this (by simp [hm])
    unfold insert_dict_after
    have e : (pre ++ (ak, v) :: suf).flatMap
          (fun kv => kv :: if kv.1 = ak then ins else [])
        = pre ++ (ak, v) :: (ins ++ suf) := by
      rw [List.flatMap_append, flatMap_no_anchor pre hpre]
      simp only [List.flatMap_cons]
      rw [flatMap_no_anchor suf hsuf]
      simp
    rw [e]
    apply odFrom_nodup
    rw [hkeys]
    exact h

/-- C4 witness: the amended theorem applied at concrete inputs. -/
theorem C4_amended_witness :
    insert_dict_after
        [("a", Value.vint 1), ("b", Value.vint 2), ("c", Value.vint 3)]
        [("x", Value.vint 9)] "b"
      = [("a", Value.vint 1), ("b", Value.vint 2), ("x", Value.vint 9),
          ("c", Value.vint 3)] := by
  have := C4_amended.2 [("a", Value.vint 1)] [("c", Value.vint 3)]
    [("x", Value.vint 9)] "b" (Value.vint 2) (by decide)
  simpa using this

end MC

namespace MC

/-! ## Claim C6: the canonical-date predicate -/

theorem nonAsciiDigitCp_ascii {n : Nat} (h : n < 128) :
    nonAsciiDigitCp n = false := by
  simp only [nonAsciiDigitCp, decide_eq_false_iff_not]
  omega

/-- C6 counterexample: Python str.isdigit also accepts non-ASCII digit
characters, e.g. the superscript two U+00B2, so is_yyyymmdd returns True
on the 8-character string "2024011²" even though its last character is not
an ASCII digit; the claimed "exactly 8 ASCII digits" characterisation is
therefore false. -/
theorem C6_counterexample :
    is_yyyymmdd (.vstr "2024011²") = true ∧
    ¬ (∀ c ∈ "2024011²".toList, 48 ≤ c.toNat ∧ c.toNat ≤ 57) := by
  constructor
  · decide
  · decide

/-- C6 amended: is_yyyymmdd(v) is True iff v is a string of exactly 8
characters each of which Python's str.isdigit accepts (all ASCII digits
qualify, and so do some non-ASCII digit characters such as superscripts);
restricted to strings of ASCII characters this is exactly "8 ASCII
digits", and every non-string value yields False. -/
theorem C6_amended (v : Value) :
    ((∀ s, v ≠ .vstr s) → is_yyyymmdd v = false) ∧
    (∀ s, v = .vstr s → (∀ c ∈ s.toList, c.toNat < 128) →
      (is_yyyymmdd v = true ↔
        s.length = 8 ∧ ∀ c ∈ s.toList, 48 ≤ c.toNat ∧ c.toNat ≤ 57)) := by
  constructor
  · intro hns
    cases v with
    | vstr s => exact absurd rfl (hns s)
    | vint n => rfl
    | vbool b => rfl
    | vnone => rfl
    | vdate d => rfl
    | vlist l => rfl
    | vdict l => rfl
  · intro s hv hascii
    subst hv
    constructor
    · intro h
      simp only [is_yyyymmdd, is_yyyymmddStr, pyIsdigit, Bool.and_eq_true,
        beq_iff_eq, List.all_eq_true] at h
      obtain ⟨hlen, _, hall⟩ := h
      refine ⟨hlen, fun c hc => ?_⟩
      have hd := hall c hc
      have hlt := hascii c hc
      simp only [pyIsDigitChar, nonAsciiDigitCp_ascii hlt, Bool.or_false,
        Bool.and_eq_true, decide_eq_true_eq] at hd
      exact hd
    · rintro ⟨hlen, hall⟩
      have hne : s.toList.isEmpty = false := by
        have h8 : s.toList.length = 8 := by
          rw [show s.toList.length = s.length from rfl, hlen]
        cases hl : s.toList with
        | nil => rw [hl] at h8; simp at h8
        | cons a l => rfl
      simp only [is_yyyymmdd, is_yyyymmddStr, pyIsdigit, Bool.and_eq_true,
        beq_iff_eq, List.all_eq_true, hne, Bool.not_false]
      refine ⟨hlen, trivial, fun c hc => ?_⟩
      have hd := hall c hc
      simp only [pyIsDigitChar, Bool.or_eq_true, Bool.and_eq_true,
        decide_eq_true_eq]
      exact Or.inl ⟨by omega, by omega⟩

/-- C6 witness: the amended theorem applied at concrete inputs. -/
theorem C6_witness :
    is_yyyymmdd (.vstr "20240115") = true ∧
    is_yyyymmdd (.vint 20240115) = false := by
  constructor
  · exact ((C6_amended (.vstr "20240115")).2 "20240115" rfl (by decide)).mpr
      ⟨by decide, by decide⟩
  · exact (C6_amended (.vint 20240115)).1 (fun s h => Value.noConfusion h)

end MC

namespace MC

/-! ## Claim C7: the date left-inverse pair -/

theorem digitChar_toNat {n : Nat} (h : n ≤ 9) : (digitChar n).toNat = 48 + n := by
  interval_cases n <;> rfl

theorem dval_digitChar {n : Nat} (h : n ≤ 9) : dval (digitChar n) = n := by
  interval_cases n <;> rfl

theorem isAsciiDigit_digitChar {n : Nat} (h : n ≤ 9) :
    isAsciiDigit (digitChar n) = true := by
  interval_cases n <;> rfl

theorem natDigitsAux_fuel :
    ∀ (f1 f2 n : Nat), n < f1 → n < f2 →
      natDigitsAux f1 n = natDigitsAux f2 n := by
  intro f1
  induction f1 with
  | zero => intro f2 n h1 _; omega
  | succ f ih =>
      intro f2 n h1 h2
      cases f2 with
      | zero => omega
      | succ g =>
          simp only [natDigitsAux]
          by_cases hlt : n < 10
          · simp [hlt]
          · have hn : 0 < n := by omega
            have hdiv : n / 10 < n := Nat.div_lt_self hn (by omega)
            simp only [hlt, if_false]
            rw [ih g (n / 10) (by omega) (by omega)]

theorem natDigits_lt10 {n : Nat} (h : n < 10) : natDigits n = [digitChar n] := by
  simp [natDigits, natDigitsAux, h]

theorem natDigitsAux_succ (fuel n : Nat) :
    natDigitsAux (fuel + 1) n =
      if n < 10 then [digitChar n]
      else natDigitsAux fuel (n / 10) ++ [digitChar (n % 10)] := rfl

theorem natDigits_ge10 {n : Nat} (h : 10 ≤ n) :
    natDigits n = natDigits (n / 10) ++ [digitChar (n % 10)] := by
  have hdiv : n / 10 < n := Nat.div_lt_self (by omega) (by omega)
  show natDigitsAux (n + 1) n
      = natDigitsAux (n / 10 + 1) (n / 10) ++ [digitChar (n % 10)]
  rw [natDigitsAux_succ, if_neg (Nat.not_lt.mpr h),
    natDigitsAux_fuel n (n / 10 + 1) (n / 10) hdiv (Nat.lt_succ_self _)]

theorem natDigits4 {y : Nat} (h1 : 1000 ≤ y) (h2 : y ≤ 9999) :
    natDigits y = [digitChar (y / 1000), digitChar (y / 100 % 10),
      digitChar (y / 10 % 10), digitChar (y % 10)] := by
  have e1 : y / 10 / 10 = y / 100 := by omega
  have e2 : y / 100 / 10 = y / 1000 := by omega
  rw [natDigits_ge10 (by omega : 10 ≤ y),
    natDigits_ge10 (by omega : 10 ≤ y / 10), e1,
    natDigits_ge10 (by omega : 10 ≤ y / 100), e2,
    natDigits_lt10 (by omega : y / 1000 < 10)]
  simp

theorem pad2_le9 {n : Nat} (h : n ≤ 9) : pad2 n = ['0', digitChar n] := by
  simp [pad2, Nat.lt_succ_of_le h, show n < 10 by omega]

theorem pad2_ge10 {n : Nat} (h1 : 10 ≤ n) (h2 : n ≤ 99) :
    pad2 n = [digitChar (n / 10), digitChar (n % 10)] := by
  simp only [pad2, Nat.not_lt.mpr h1, if_false]
  rw [natDigits_ge10 h1, natDigits_lt10 (by omega : n / 10 < 10)]
  rfl

theorem dayMatch_pad2 {d : Nat} (h1 : 1 ≤ d) (h2 : d ≤ 31) :
    dayMatch (pad2 d) = some (d, []) := by
  interval_cases d <;> decide

theorem monthCands_parse {m d : Nat} (hm1 : 1 ≤ m) (hm2 : m ≤ 12)
    (hd1 : 1 ≤ d) (hd2 : d ≤ 31) :
    firstMD (monthCands (pad2 m ++ pad2 d)) = some (m, d, []) := by
  interval_cases m <;> interval_cases d <;> decide

theorem daysInMonth_le31 (y m : Nat) : daysInMonth y m ≤ 31 := by
  unfold daysInMonth
  split_ifs <;> omega

/-- C7 counterexample: for the valid calendar date 0999-01-01, glibc
strftime("%Y%m%d") yields the 7-character string "9990101" (no zero
padding of %Y below 1000), and strptime("%Y%m%d") re-parses that string as
year 9990, month 10, day 1 — so parse∘toCanonical is NOT the identity on
every valid calendar date. -/
theorem C7_counterexample :
    dateValid 999 1 1 = true ∧
    normalizeToYyyymmdd (.vdate ⟨999, 1, 1⟩) = some "9990101" ∧
    to_date "9990101" = some ⟨9990, 10, 1⟩ ∧
    to_date "9990101" ≠ some ⟨999, 1, 1⟩ := by
  refine ⟨by decide, by decide, by decide, by decide⟩

/-- C7 amended: for every valid calendar date whose year has four digits
(year ≥ 1000 — every date a user of this application will enter),
converting with _normalize_to_yyyymmdd (strftime "%Y%m%d") and re-parsing
with to_date (strptime "%Y%m%d" plus date validation) returns the original
date. -/
theorem C7_amended (d : PyDate)
    (h : dateValid d.year d.month d.day = true) (hy : 1000 ≤ d.year) :
    to_date ((normalizeToYyyymmdd (.vdate d)).getD "") = some d := by
  obtain ⟨y, m, dd⟩ := d
  simp only at h hy
  have hb : 1 ≤ y ∧ y ≤ 9999 ∧ 1 ≤ m ∧ m ≤ 12 ∧ 1 ≤ dd
      ∧ dd ≤ daysInMonth y m := by
    have := h
    simp only [dateValid, Bool.and_eq_true, decide_eq_true_eq] at this
    tauto
  have hdd31 : dd ≤ 31 := le_trans hb.2.2.2.2.2 (daysInMonth_le31 y m)
  have hnorm : (normalizeToYyyymmdd (.vdate ⟨y, m, dd⟩)).getD ""
      = strftimeYmd ⟨y, m, dd⟩ := rfl
  rw [hnorm]
  have hlist : (strftimeYmd ⟨y, m, dd⟩).toList
      = digitChar (y / 1000) :: digitChar (y / 100 % 10) ::
        digitChar (y / 10 % 10) :: digitChar (y % 10) ::
        (pad2 m ++ pad2 dd) := by
    show natDigits y ++ pad2 m ++ pad2 dd = _
    rw [natDigits4 hy hb.2.1]
    simp
  unfold to_date strptimeYmd
  rw [hlist]
  simp only [strptimeYmdL,
    isAsciiDigit_digitChar (by omega : y / 1000 ≤ 9),
    isAsciiDigit_digitChar (by omega : y / 100 % 10 ≤ 9),
    isAsciiDigit_digitChar (by omega : y / 10 % 10 ≤ 9),
    isAsciiDigit_digitChar (by omega : y % 10 ≤ 9),
    Bool.and_self, if_true,
    monthCands_parse hb.2.2.1 hb.2.2.2.1 hb.2.2.2.2.1 hdd31,
    List.isEmpty_nil]
  rw [dval_digitChar (by omega : y / 1000 ≤ 9),
    dval_digitChar (by omega : y / 100 % 10 ≤ 9),
    dval_digitChar (by omega : y / 10 % 10 ≤ 9),
    dval_digitChar (by omega : y % 10 ≤ 9)]
  have hy4 : ((y / 1000 * 10 + y / 100 % 10) * 10 + y / 10 % 10) * 10 + y % 10
      = y := by omega
  rw [hy4, h]
  rfl

/-- C7 witness: the amended theorem applied at a concrete date. -/
theorem C7_witness :
    to_date ((normalizeToYyyymmdd (.vdate ⟨2024, 1, 15⟩)).getD "")
      = some ⟨2024, 1, 15⟩ :=
  C7_amended ⟨2024, 1, 15⟩ (by decide) (by decide)

end MC

namespace MC

/-!
## app/services/state_store.py: the hydrate engine

populate_session_state_from_json only ever WRITES st.session_state, except
for the seed-once guards of date fields, which test key membership.  Its
semantics is therefore captured by compiling the document to the list of
session-state writes in program order (a write trace) and interpreting
that trace against a store: plain writes, the adjacent plain/underscore
pair of writes used for inputs/outputs fields, and the guarded
base/widget/raw triple used for date seeding.  An uncaught Python
exception cuts the trace at the raising statement and is reported.
-/

/-- One session-state write action of the hydrate engine. -/
inductive Wr where
  /-- st.session_state[k] = v -/
  | w (k : String) (v : Value)
  /-- the adjacent pair st.session_state[k] = v;
  st.session_state["_" + k] = v (inputs/outputs fields) -/
  | pairW (k : String) (v : Value)
  /-- the guarded date-seeding block:
  if base not in state and base + "_widget" not in state:
  state[base] = vb; state[base + "_widget"] = vw;
  state["_" + base + "_widget"] = vw -/
  | seed (base : String) (vb vw : Value)
deriving Repr

/-- Interpret one write action against a store. -/
def applyOne (s : Store) : Wr → Store
  | .w k v => setKey s k v
  | .pairW k v => setKey (setKey s k v) ("_" ++ k) v
  | .seed b vb vw =>
      if containsKey s b || containsKey s (b ++ "_widget") then s
      else
        setKey (setKey (setKey s b vb) (b ++ "_widget") vw)
          ("_" ++ (b ++ "_widget")) vw

/-- Interpret a write trace left to right. -/
def applyWrs (s : Store) (l : List Wr) : Store := l.foldl applyOne s

/-- A compiled trace: the writes issued before returning or raising, and
the uncaught exception if one was raised. -/
abbrev CRes := List Wr × Option PyErr

/-- The comprehension [entry["name"] for entry in content]: all names, or
the first KeyError/TypeError. -/
def namesOf : List Value → Except PyErr (List Value)
  | [] => .ok []
  | e :: rest =>
      match subscr e "name" with
      | .error err => .error err
      | .ok v =>
          match namesOf rest with
          | .error err => .error err
          | .ok vs => .ok (v :: vs)

/-- The "_list" shadow write that accompanies a list-valued field
(st.session_state[full_key + "_list"] = v when isinstance(v, list)). -/
def listShadowOnly (fullKey : String) (v : Value) : List Wr :=
  match v with
  | .vlist l => [Wr.w (fullKey ++ "_list") (.vlist l)]
  | _ => []

/-- A plain field write followed by its "_list" shadow when the value is a
list (the pattern shared by the training_data, technical_specifications
and generic-section field loops of the source). -/
def plusListShadow (fullKey : String) (v : Value) : List Wr :=
  Wr.w fullKey v :: listShadowOnly fullKey v

/-- Whether a value is a Python str. -/
def isVStr : Value → Bool
  | .vstr _ => true
  | _ => false

/-- The write pairs of one inputs/outputs entry: every field except
entry/source goes to the derived key and to the same key prefixed with an
underscore. -/
def ioFieldWrites (P clean : String) (srcV : Value)
    (items : List (String × Value)) : List Wr :=
  items.flatMap (fun kv =>
    if kv.1 = "entry" || kv.1 = "source" then []
    else
      [Wr.pairW (P ++ clean ++ "_" ++ pyStr srcV ++ "_" ++ kv.1) kv.2])

/-- One inputs/outputs entry during hydration, scoped by the key stem P
("training_data_" for the training scope, the evaluation prefix for an
evaluation scope): clean the modality label, read the source, then write
every field except entry/source under the derived key AND under the same
key prefixed with an underscore.  The training scope builds the key with
an f-string (fstr = true: any source value is rendered with str()); the
evaluation scope concatenates with +, which raises TypeError on a
non-string source at the first non-entry/source field
(source: app/services/state_store.py lines 83-96 and 111-132). -/
def compileIo (fstr : Bool) (P : String) (io : Value) : CRes :=
  match subscr io "entry" with
  | .error e => ([], some e)
  | .ok ev =>
      match ev with
      | .vstr entry =>
          let clean := cleanLabel entry
          match subscr io "source" with
          | .error e => ([], some e)
          | .ok srcV =>
              match io with
              | .vdict items =>
                  if fstr || isVStr srcV
                      || items.all (fun kv =>
                          kv.1 = "entry" || kv.1 = "source") then
                    (ioFieldWrites P clean srcV items, none)
                  else ([], some .typeError)
              | _ => ([], some .attributeError)
      | _ => ([], some .attributeError)

/-- The loop over a list of inputs/outputs entries (stops at the first
exception, keeping the writes already made). -/
def compileIos (fstr : Bool) (P : String) : List Value → CRes
  | [] => ([], none)
  | io :: rest =>
      match compileIo fstr P io with
      | (ws, some e) => (ws, some e)
      | (ws, none) =>
          let r := compileIos fstr P rest
          (ws ++ r.1, r.2)

/-- The training_data section of the hydrate engine
(source: app/services/state_store.py lines 71-96): every field is copied
to "training_data_" + k (lists also to the "_list" shadow), then the
inputs_outputs_technical_specifications entries are expanded. -/
def trainingFieldWrites (items : List (String × Value)) : List Wr :=
  items.flatMap (fun kv => plusListShadow ("training_data_" ++ kv.1) kv.2)

def compileTraining (content : Value) : CRes :=
  match content with
  | .vdict items =>
      let ios := match lookupS items "inputs_outputs_technical_specifications"
        with
        | some v => v
        | none => .vlist []
      match iterVals ios with
      | .error e => (trainingFieldWrites items, some e)
      | .ok l =>
          let r := compileIos true "training_data_" l
          (trainingFieldWrites items ++ r.1, r.2)
  | _ => ([], some .attributeError)

/-- The per-metric writes of one metric-group list (after the name
comprehension has succeeded): each metric's fields other than "name" are
written under "evaluation_{slug}.{metricName}_{field}" (note the dot)
(source: app/services/state_store.py lines 140-149). -/
def compileMetrics (name : String) (metrics : List Value) : List Wr :=
  metrics.flatMap (fun metric =>
    match metric with
    | .vdict items =>
        let mname := match lookupS items "name" with
          | some v => v
          | none => .vnone
        let mp := "evaluation_" ++ name ++ "." ++ pyStr mname
        items.flatMap (fun kv =>
          if kv.1 = "name" then []
          else [Wr.w (mp ++ "_" ++ kv.1) kv.2])
    | _ => [])

/-- One field of one evaluation entry during hydration
(source: app/services/state_store.py lines 109-188), with the source's
branch order: inputs/outputs expansion, metric-group lists (list values
whose key starts with "type_"), date-named fields (seed-once), 8-digit
string values (seed-once), and the plain write. -/
def compileEvalField (name pfx : String) (key : String) (value : Value) :
    CRes :=
  if key = "inputs_outputs_technical_specifications" then
    match iterVals value with
    | .error e => ([], some e)
    | .ok l => compileIos false pfx l
  else if (match value with | .vlist _ => true | _ => false)
      && startsWithS key "type_" then
    match value with
    | .vlist ms =>
        match namesOf ms with
        | .error e => ([], some e)
        | .ok mnames =>
            (Wr.w (pfx ++ key ++ "_list") (.vlist mnames) ::
              Wr.w (pfx ++ key) (.vlist mnames) ::
              compileMetrics name ms, none)
    | _ => ([], none)
  else if strContains (pyLower key) "date" then
    let norm := normalizeToYyyymmdd value
    match norm with
    | some s =>
        if !(s == "") && is_yyyymmddStr s then
          ([Wr.seed (pfx ++ key) (.vstr s)
            (match to_date s with
              | some dt => .vdate dt
              | none => .vnone)], none)
        else ([Wr.seed (pfx ++ key) .vnone .vnone], none)
    | none => ([Wr.seed (pfx ++ key) .vnone .vnone], none)
  else if (match value with
      | .vstr s => is_yyyymmddStr s
      | _ => false) then
    match value with
    | .vstr s =>
        ([Wr.seed (pfx ++ key)
          (match to_date s with
            | some _ => .vstr s
            | none => .vnone)
          (match to_date s with
            | some dt => .vdate dt
            | none => .vnone)], none)
    | _ => ([], none)
  else ([Wr.w (pfx ++ key) value], none)

/-- The loop over one evaluation entry's fields. -/
def compileEvalFieldsGo (name pfx : String) :
    List (String × Value) → CRes
  | [] => ([], none)
  | (k, v) :: rest =>
      match compileEvalField name pfx k v with
      | (ws, some e) => (ws, some e)
      | (ws, none) =>
          let r := compileEvalFieldsGo name pfx rest
          (ws ++ r.1, r.2)

/-- One evaluation entry: slugify the name (spaces to underscores;
AttributeError on a non-string name) and hydrate the fields
(source: app/services/state_store.py lines 105-188). -/
def compileEvalEntry (entry : Value) : CRes :=
  match subscr entry "name" with
  | .error e => ([], some e)
  | .ok nv =>
      match nv with
      | .vstr rawName =>
          let name := pyReplace rawName " " "_"
          let pfx := "evaluation_" ++ name ++ "_"
          match entry with
          | .vdict items => compileEvalFieldsGo name pfx items
          | _ => ([], some .typeError)
      | _ => ([], some .attributeError)

/-- The loop over the evaluation entries. -/
def compileEvalEntries : List Value → CRes
  | [] => ([], none)
  | e :: rest =>
      match compileEvalEntry e with
      | (ws, some err) => (ws, some err)
      | (ws, none) =>
          let r := compileEvalEntries rest
          (ws ++ r.1, r.2)

/-- The evaluations section of the hydrate engine
(source: app/services/state_store.py lines 101-188): the name
comprehension runs first (so a malformed entry raises BEFORE any write of
this section), then evaluation_forms is registered, then each entry is
hydrated. -/
def compileEvaluations (content : Value) : CRes :=
  match iterVals content with
  | .error e => ([], some e)
  | .ok entries =>
      match namesOf entries with
      | .error e => ([], some e)
      | .ok names =>
          let r := compileEvalEntries entries
          (Wr.w "evaluation_forms" (.vlist names) :: r.1, r.2)

/-- One learning-architecture instance: each field is written under the
indexed key (source: app/services/state_store.py lines 200-204). -/
def compileArch (i : Nat) (arch : Value) : CRes :=
  match arch with
  | .vdict items =>
      (items.map (fun kv =>
        Wr.w ("learning_architecture_" ++ toString i ++ "_" ++ kv.1) kv.2),
        none)
  | _ => ([], some .attributeError)

/-- The enumerate loop over learning architectures. -/
def compileArchs (i : Nat) : List Value → CRes
  | [] => ([], none)
  | a :: rest =>
      match compileArch i a with
      | (ws, some e) => (ws, some e)
      | (ws, none) =>
          let r := compileArchs (i + 1) rest
          (ws ++ r.1, r.2)

/-- One field of the technical_specifications section
(source: app/services/state_store.py lines 194-217). -/
def compileTechField (k : String) (v : Value) : CRes :=
  if k = "learning_architectures" && (match v with
      | .vlist _ => true | _ => false) then
    match v with
    | .vlist archs =>
        let formsDict := Value.vdict ((List.range archs.length).map
          (fun i => ("Learning Architecture " ++ toString (i + 1),
            Value.vdict [])))
        let r := compileArchs 0 archs
        (Wr.w "learning_architecture_forms" formsDict :: r.1, r.2)
    | _ => ([], none)
  else if k = "hw_and_sw" && (match v with
      | .vdict _ => true | _ => false) then
    match v with
    | .vdict hws =>
        (hws.map (fun kv => Wr.w ("hw_and_sw_" ++ kv.1) kv.2), none)
    | _ => ([], none)
  else (plusListShadow ("technical_specifications_" ++ k) v, none)

/-- The loop over technical_specifications fields. -/
def compileTechGo : List (String × Value) → CRes
  | [] => ([], none)
  | (k, v) :: rest =>
      match compileTechField k v with
      | (ws, some e) => (ws, some e)
      | (ws, none) =>
          let r := compileTechGo rest
          (ws ++ r.1, r.2)

/-- The technical_specifications section of the hydrate engine. -/
def compileTechSpecs (content : Value) : CRes :=
  match content with
  | .vdict items => compileTechGo items
  | _ => ([], some .attributeError)

/-- One field of a generic dictionary section
(source: app/services/state_store.py lines 222-243): keys ending in
creation_date go through the seed-once guard and set_safe_date_field
(which nulls the stored string when the parse fails), every list value
additionally gets a "_list" shadow, and other values are written plainly. -/
def compileGenericField (sec : String) (k : String) (v : Value) : List Wr :=
  let fullKey := sec ++ "_" ++ k
  if endsWithS k "creation_date" then
    let norm := normalizeToYyyymmdd v
    let parsed := match norm with
      | some s => if is_yyyymmddStr s then to_date s else none
      | none => none
    Wr.seed fullKey
        (match parsed, norm with
          | some _, some s => .vstr s
          | _, _ => .vnone)
        (match parsed with
          | some dt => .vdate dt
          | none => .vnone) ::
      listShadowOnly fullKey v
  else plusListShadow fullKey v

/-- Dispatch of one top-level section of the document
(source: app/services/state_store.py lines 67-243); non-dict values of
unrecognised sections are silently skipped. -/
def compileSection (sec : String) (content : Value) : CRes :=
  if sec = "training_data" then compileTraining content
  else if sec = "evaluations" then compileEvaluations content
  else if sec = "technical_specifications" then compileTechSpecs content
  else
    match content with
    | .vdict items =>
        (items.flatMap (fun kv => compileGenericField sec kv.1 kv.2), none)
    | _ => ([], none)

/-- The loop over the document's top-level sections. -/
def compileSectionsGo : List (String × Value) → CRes
  | [] => ([], none)
  | (sec, content) :: rest =>
      match compileSection sec content with
      | (ws, some e) => (ws, some e)
      | (ws, none) =>
          let r := compileSectionsGo rest
          (ws ++ r.1, r.2)

/-- The write trace and exception of
populate_session_state_from_json(data): the task pre-pass, then the
section loop (source: app/services/state_store.py lines 55-244). -/
def compileDoc (data : List (String × Value)) : CRes :=
  let taskW := match lookupS data "task" with
    | some v => [Wr.w "task" v]
    | none => []
  let r := compileSectionsGo data
  (taskW ++ r.1, r.2)

/-- populate_session_state_from_json(data) run against the store s: the
resulting store (writes up to an uncaught exception included, as Python
mutations persist) and the uncaught exception if any.  The source reads
the store only inside the seed-once guards; applyWrs evaluates those
guards against the store state current at their program point, exactly as
the source does. -/
def populate_session_state_from_json (s : Store)
    (data : List (String × Value)) : Store × Option PyErr :=
  let r := compileDoc data
  (applyWrs s r.1, r.2)

end MC

namespace MC

/-! ## Store lemmas -/

theorem keysOf_nil : keysOf [] = [] := rfl

theorem keysOf_cons (hd : String × Value) (tl : Store) :
    keysOf (hd :: tl) = hd.1 :: keysOf tl := rfl

theorem lookupS_setKey_self (s : Store) (k : String) (v : Value) :
    lookupS (setKey s k v) k = some v := by
  induction s with
  | nil => simp [setKey, lookupS]
  | cons hd tl ih =>
      by_cases h : hd.1 = k
      · subst h
        simp [setKey, lookupS]
      · simp only [setKey, if_neg h, lookupS, if_neg h, ih]

theorem lookupS_setKey_ne (s : Store) {k k' : String} (v : Value)
    (h : k' ≠ k) : lookupS (setKey s k v) k' = lookupS s k' := by
  induction s with
  | nil =>
      simp only [setKey, lookupS,
        if_neg (show ¬ k = k' from fun e => h e.symm)]
  | cons hd tl ih =>
      by_cases hh : hd.1 = k
      · have hne : ¬ hd.1 = k' := by
          rw [hh]; exact fun e => h e.symm
        simp only [setKey, if_pos hh, lookupS, if_neg hne]
      · by_cases hk' : hd.1 = k'
        · simp only [setKey, if_neg hh, lookupS, if_pos hk']
        · simp only [setKey, if_neg hh, lookupS, if_neg hk', ih]

theorem mem_keysOf_iff {s : Store} {k : String} :
    k ∈ keysOf s ↔ (lookupS s k).isSome := by
  induction s with
  | nil => simp [keysOf, lookupS]
  | cons hd tl ih =>
      rw [keysOf_cons, List.mem_cons]
      by_cases h : hd.1 = k
      · simp [lookupS, h]
      · rw [lookupS, if_neg h, ← ih]
        constructor
        · intro hm
          rcases hm with e | hm
          · exact absurd e.symm h
          · exact hm
        · intro hm
          exact Or.inr hm

theorem containsKey_iff_mem {s : Store} {k : String} :
    containsKey s k = true ↔ k ∈ keysOf s := by
  simp [containsKey, mem_keysOf_iff]

theorem keysOf_setKey_mem {s : Store} {k : String} (v : Value)
    (h : k ∈ keysOf s) : keysOf (setKey s k v) = keysOf s := by
  induction s with
  | nil => simp [keysOf] at h
  | cons hd tl ih =>
      rw [keysOf_cons, List.mem_cons] at h
      by_cases hh : hd.1 = k
      · simp only [setKey, if_pos hh, keysOf_cons]
      · have hm : k ∈ keysOf tl := by
          rcases h with e | hm
          · exact absurd e.symm hh
          · exact hm
        simp only [setKey, if_neg hh, keysOf_cons, ih hm]

theorem keysOf_setKey_not_mem {s : Store} {k : String} (v : Value)
    (h : ¬ k ∈ keysOf s) : keysOf (setKey s k v) = keysOf s ++ [k] := by
  rw [setKey_not_mem v h]
  simp [keysOf]

theorem mem_keysOf_setKey {s : Store} {k k' : String} (v : Value)
    (h : k' ∈ keysOf s) : k' ∈ keysOf (setKey s k v) := by
  by_cases hm : k ∈ keysOf s
  · rwa [keysOf_setKey_mem v hm]
  · rw [keysOf_setKey_not_mem v hm]
    exact List.mem_append_left _ h

theorem nodup_keysOf_setKey {s : Store} {k : String} (v : Value)
    (h : (keysOf s).Nodup) : (keysOf (setKey s k v)).Nodup := by
  by_cases hm : k ∈ keysOf s
  · rwa [keysOf_setKey_mem v hm]
  · rw [keysOf_setKey_not_mem v hm]
    simp [List.nodup_append, h, hm]

/-- Two stores with duplicate-free keys, the same key sequence and the
same lookups are equal. -/
theorem store_ext : ∀ {s t : Store}, (keysOf s).Nodup →
    keysOf s = keysOf t → (∀ k, lookupS s k = lookupS t k) → s = t := by
  intro s
  induction s with
  | nil =>
      intro t _ hk _
      cases t with
      | nil => rfl
      | cons hd tl => simp [keysOf] at hk
  | cons hd tl ih =>
      intro t hnd hk hl
      cases t with
      | nil => simp [keysOf] at hk
      | cons hd' tl' =>
          rw [keysOf_cons, keysOf_cons, List.cons.injEq] at hk
          have hfst : hd.1 = hd'.1 := hk.1
          have hv : hd.2 = hd'.2 := by
            have h0 := hl hd.1
            rw [lookupS, if_pos rfl, lookupS, if_pos hfst.symm] at h0
            exact Option.some.inj h0
          rw [keysOf_cons, List.nodup_cons] at hnd
          have htl : tl = tl' := by
            apply ih hnd.2 hk.2
            intro k
            by_cases hkk : hd.1 = k
            · have h1 : lookupS tl k = none := by
                cases hcase : lookupS tl k with
                | none => rfl
                | some v =>
                    have hm : k ∈ keysOf tl := mem_keysOf_iff.mpr
                      (by simp [hcase])
                    rw [← hkk] at hm
                    exact absurd hm hnd.1
              have h2 : lookupS tl' k = none := by
                cases hcase : lookupS tl' k with
                | none => rfl
                | some v =>
                    have hm : k ∈ keysOf tl' := mem_keysOf_iff.mpr
                      (by simp [hcase])
                    rw [← hk.2, ← hkk] at hm
                    exact absurd hm hnd.1
              rw [h1, h2]
            · have hkk' : ¬ hd'.1 = k := by
                rw [← hfst]; exact hkk
              have h0 := hl k
              rw [lookupS, if_neg hkk, lookupS, if_neg hkk'] at h0
              exact h0
          have : hd = hd' := Prod.ext hfst hv
          rw [this, htl]

end MC

namespace MC

/-! ## Write-trace machinery: idempotence of hydration

The hydrate engine reads the store only in its seed-once guards.  The key
facts proved here: in a SAFE trace (no unconditional write to a key with a
leading underscore except as the second write of a pairW, which is
structural), re-running the whole trace on its own output changes nothing:
every seed finds its base or widget key present and is skipped, and every
unconditional write re-writes the value it wrote last time. -/

/-- Whether a key starts with an underscore. -/
def undK (k : String) : Bool := k.data.head? == some '_'

/-- The value of the LAST unconditional write (w or pairW, counting the
underscore twin of a pairW) to key k in a trace, if any. -/
def lastUncondVal : List Wr → String → Option Value
  | [], _ => none
  | wr :: rest, k =>
      match lastUncondVal rest k with
      | some v => some v
      | none =>
          match wr with
          | .w k' v => if k' = k then some v else none
          | .pairW k' v =>
              if k' = k ∨ "_" ++ k' = k then some v else none
          | .seed _ _ _ => none

/-- No unconditional write targets an underscore-prefixed key (the
underscore twin of a pairW is accounted for structurally). -/
def SAFE (l : List Wr) : Bool :=
  l.all (fun wr =>
    match wr with
    | .w k _ => !undK k
    | .pairW k _ => !undK k
    | .seed _ _ _ => true)

theorem undK_underscore (k : String) : undK ("_" ++ k) = true := by
  show (("_" ++ k).data.head? == some '_') = true
  rw [String.data_append]
  rfl

theorem underscore_inj {a b : String} (h : "_" ++ a = "_" ++ b) : a = b := by
  cases a with
  | mk da =>
      cases b with
      | mk db =>
          have h2 : '_' :: da = '_' :: db := congrArg String.data h
          have h3 : da = db := (List.cons.injEq _ _ _ _).mp h2 |>.2
          rw [h3]

theorem underscore_ne (k : String) : "_" ++ k ≠ k := by
  intro e
  have h2 : '_' :: k.data = k.data := congrArg String.data e
  have h3 := congrArg List.length h2
  simp at h3

theorem ne_of_undK {a b : String} (ha : undK a = true) (hb : undK b = false) :
    a ≠ b := by
  intro e
  rw [e, hb] at ha
  exact Bool.noConfusion ha

theorem mem_keys_applyOne {s : Store} {k : String} (wr : Wr)
    (h : k ∈ keysOf s) : k ∈ keysOf (applyOne s wr) := by
  cases wr with
  | w k' v => exact mem_keysOf_setKey v h
  | pairW k' v => exact mem_keysOf_setKey _ (mem_keysOf_setKey _ h)
  | seed b vb vw =>
      by_cases hg : (containsKey s b || containsKey s (b ++ "_widget")) = true
      · simpa [applyOne, hg] using h
      · simp only [applyOne, hg, if_false]
        exact mem_keysOf_setKey _
          (mem_keysOf_setKey _ (mem_keysOf_setKey _ h))

theorem mem_keys_applyWrs {l : List Wr} :
    ∀ {s : Store} {k : String}, k ∈ keysOf s →
      k ∈ keysOf (applyWrs s l) := by
  induction l with
  | nil => intro s k h; exact h
  | cons wr rest ih =>
      intro s k h
      exact ih (mem_keys_applyOne wr h)

theorem nodup_keys_applyOne {s : Store} (wr : Wr)
    (h : (keysOf s).Nodup) : (keysOf (applyOne s wr)).Nodup := by
  cases wr with
  | w k' v => exact nodup_keysOf_setKey v h
  | pairW k' v => exact nodup_keysOf_setKey _ (nodup_keysOf_setKey _ h)
  | seed b vb vw =>
      by_cases hg : (containsKey s b || containsKey s (b ++ "_widget")) = true
      · simpa [applyOne, hg] using h
      · simp only [applyOne, hg, if_false]
        exact nodup_keysOf_setKey _
          (nodup_keysOf_setKey _ (nodup_keysOf_setKey _ h))

theorem nodup_keys_applyWrs {l : List Wr} :
    ∀ {s : Store}, (keysOf s).Nodup → (keysOf (applyWrs s l)).Nodup := by
  induction l with
  | nil => intro s h; exact h
  | cons wr rest ih => intro s h; exact ih (nodup_keys_applyOne wr h)

/-- Equation lemma for lastUncondVal on a cons cell. -/
theorem lastUncondVal_cons (wr : Wr) (rest : List Wr) (k : String) :
    lastUncondVal (wr :: rest) k =
      match lastUncondVal rest k with
      | some v => some v
      | none =>
          match wr with
          | .w k' v => if k' = k then some v else none
          | .pairW k' v =>
              if k' = k ∨ "_" ++ k' = k then some v else none
          | .seed _ _ _ => none := rfl

/-- A key that no remaining unconditional write targets, that is already
present, and whose underscore-stripped form is present when the key itself
is underscore-prefixed, keeps its value through the rest of the trace:
seeds cannot fire on it. -/
theorem lookup_frozen : ∀ (l : List Wr) (s : Store) (k : String),
    lastUncondVal l k = none →
    k ∈ keysOf s →
    (∀ k0, k = "_" ++ k0 → k0 ∈ keysOf s) →
    lookupS (applyWrs s l) k = lookupS s k := by
  intro l
  induction l with
  | nil => intro s k _ _ _; rfl
  | cons wr rest ih =>
      intro s k hnone hmem hund
      rw [lastUncondVal_cons] at hnone
      cases hr : lastUncondVal rest k with
      | some v => rw [hr] at hnone; exact Option.noConfusion hnone
      | none =>
      rw [hr] at hnone
      cases wr with
      | w k' v =>
          have hnone2 : (if k' = k then some v else none) = none := hnone
          have hne : k' ≠ k := by
            intro e
            rw [if_pos e] at hnone2
            exact Option.noConfusion hnone2
          show lookupS (applyWrs (setKey s k' v) rest) k = lookupS s k
          rw [ih (setKey s k' v) k hr (mem_keysOf_setKey v hmem)
            (fun k0 e => mem_keysOf_setKey v (hund k0 e)),
            lookupS_setKey_ne s v (fun e => hne e.symm)]
      | pairW k' v =>
          have hnone2 : (if k' = k ∨ "_" ++ k' = k then some v else none)
              = none := hnone
          have hne : ¬ (k' = k ∨ "_" ++ k' = k) := by
            intro e
            rw [if_pos e] at hnone2
            exact Option.noConfusion hnone2
          push_neg at hne
          show lookupS
            (applyWrs (setKey (setKey s k' v) ("_" ++ k') v) rest) k
            = lookupS s k
          rw [ih _ k hr
            (mem_keysOf_setKey _ (mem_keysOf_setKey _ hmem))
            (fun k0 e =>
              mem_keysOf_setKey _ (mem_keysOf_setKey _ (hund k0 e))),
            lookupS_setKey_ne _ _ (fun e => hne.2 e.symm),
            lookupS_setKey_ne _ _ (fun e => hne.1 e.symm)]
      | seed b vb vw =>
          show lookupS (applyWrs (applyOne s (.seed b vb vw)) rest) k
            = lookupS s k
          by_cases hg : (containsKey s b || containsKey s (b ++ "_widget"))
            = true
          · have happ : applyOne s (.seed b vb vw) = s := by
              simp [applyOne, hg]
            rw [happ]
            exact ih s k hr hmem hund
          · have happ : applyOne s (.seed b vb vw)
                = setKey (setKey (setKey s b vb) (b ++ "_widget") vw)
                  ("_" ++ (b ++ "_widget")) vw := by
              simp [applyOne, hg]
            rw [happ]
            have hb : ¬ b ∈ keysOf s := by
              intro hm
              exact hg (by simp [containsKey_iff_mem.mpr hm])
            have hw : ¬ (b ++ "_widget") ∈ keysOf s := by
              intro hm
              exact hg (by simp [containsKey_iff_mem.mpr hm])
            have hbk : b ≠ k := fun e => hb (e ▸ hmem)
            have hwk : b ++ "_widget" ≠ k := fun e => hw (e ▸ hmem)
            have hrk : "_" ++ (b ++ "_widget") ≠ k := by
              intro e
              exact hw (hund (b ++ "_widget") e.symm)
            rw [ih _ k hr
              (mem_keysOf_setKey _
                (mem_keysOf_setKey _ (mem_keysOf_setKey _ hmem)))
              (fun k0 e => mem_keysOf_setKey _
                (mem_keysOf_setKey _ (mem_keysOf_setKey _ (hund k0 e)))),
              lookupS_setKey_ne _ _ (fun e => hrk e.symm),
              lookupS_setKey_ne _ _ (fun e => hwk e.symm),
              lookupS_setKey_ne _ _ (fun e => hbk e.symm)]

/-- In a SAFE trace, the final store holds, at every unconditionally
written key, the value of the last unconditional write to it. -/
theorem applyWrs_lastVal : ∀ (l : List Wr) (s : Store) (k : String)
    (v : Value), SAFE l = true → lastUncondVal l k = some v →
    lookupS (applyWrs s l) k = some v := by
  intro l
  induction l with
  | nil => intro s k v _ h; exact Option.noConfusion h
  | cons wr rest ih =>
      intro s k v hS hval
      have hSt : SAFE rest = true := by
        rw [SAFE, List.all_cons, Bool.and_eq_true] at hS
        exact hS.2
      rw [lastUncondVal_cons] at hval
      cases hr : lastUncondVal rest k with
      | some v2 =>
          rw [hr] at hval
          have hval2 : some v2 = some v := hval
          have : v2 = v := Option.some.inj hval2
          subst this
          exact ih (applyOne s wr) k v2 hSt hr
      | none =>
          rw [hr] at hval
          cases wr with
          | seed b vb vw =>
              have hval2 : (none : Option Value) = some v := hval
              exact Option.noConfusion hval2
          | w k2 v2 =>
              have hSh : (!undK k2) = true := by
                rw [SAFE, List.all_cons, Bool.and_eq_true] at hS
                exact hS.1
              have hval2 : (if k2 = k then some v2 else none) = some v :=
                hval
              have hk : k2 = k ∧ v2 = v := by
                by_cases e : k2 = k
                · refine ⟨e, ?_⟩
                  rw [if_pos e] at hval2
                  exact Option.some.inj hval2
                · rw [if_neg e] at hval2
                  exact Option.noConfusion hval2
              obtain ⟨e, ev⟩ := hk
              subst e; subst ev
              show lookupS (applyWrs (setKey s k2 v2) rest) k2 = some v2
              rw [lookup_frozen rest (setKey s k2 v2) k2 hr
                (mem_keysOf_iff.mpr (by rw [lookupS_setKey_self]; rfl))
                (fun k0 e => by
                  rw [e, undK_underscore] at hSh
                  exact Bool.noConfusion hSh),
                lookupS_setKey_self]
          | pairW k2 v2 =>
              have hSh : (!undK k2) = true := by
                rw [SAFE, List.all_cons, Bool.and_eq_true] at hS
                exact hS.1
              have hval2 : (if k2 = k ∨ "_" ++ k2 = k then some v2
                  else none) = some v := hval
              have hcond : (k2 = k ∨ "_" ++ k2 = k) ∧ v2 = v := by
                by_cases e : k2 = k ∨ "_" ++ k2 = k
                · refine ⟨e, ?_⟩
                  rw [if_pos e] at hval2
                  exact Option.some.inj hval2
                · rw [if_neg e] at hval2
                  exact Option.noConfusion hval2
              obtain ⟨e, ev⟩ := hcond
              subst ev
              show lookupS
                (applyWrs (setKey (setKey s k2 v2) ("_" ++ k2) v2) rest) k
                = some v2
              rcases e with e | e
              · subst e
                rw [lookup_frozen rest _ k2 hr
                  (mem_keysOf_setKey _
                    (mem_keysOf_iff.mpr (by rw [lookupS_setKey_self]; rfl)))
                  (fun k0 e => by
                    rw [e, undK_underscore] at hSh
                    exact Bool.noConfusion hSh),
                  lookupS_setKey_ne _ _ (fun e => underscore_ne k2 e.symm),
                  lookupS_setKey_self]
              · subst e
                rw [lookup_frozen rest _ ("_" ++ k2) hr
                  (mem_keysOf_iff.mpr (by rw [lookupS_setKey_self]; rfl))
                  (fun k0 e =>
                    mem_keysOf_setKey _
                      ((underscore_inj e).symm ▸ mem_keysOf_iff.mpr
                        (by rw [lookupS_setKey_self]; rfl))),
                  lookupS_setKey_self]

/-- After a trace is applied, every seed occurring in it finds its base or
widget key present (it either fired, writing the base, or was skipped
because one of the two was already there). -/
theorem seeds_present : ∀ (l : List Wr) (s : Store) (b : String)
    (vb vw : Value), Wr.seed b vb vw ∈ l →
    (containsKey (applyWrs s l) b
      || containsKey (applyWrs s l) (b ++ "_widget")) = true := by
  intro l
  induction l with
  | nil => intro s b vb vw h; exact absurd h (List.not_mem_nil _)
  | cons wr rest ih =>
      intro s b vb vw hmem
      rcases List.mem_cons.mp hmem with e | hmem2
      · subst e
        show (containsKey (applyWrs (applyOne s (.seed b vb vw)) rest) b
          || containsKey (applyWrs (applyOne s (.seed b vb vw)) rest)
            (b ++ "_widget")) = true
        by_cases hg : (containsKey s b || containsKey s (b ++ "_widget"))
          = true
        · have happ : applyOne s (.seed b vb vw) = s := by
            simp [applyOne, hg]
          rw [happ]
          rcases Bool.or_eq_true_iff.mp hg with hc | hc
          · have hmm := @mem_keys_applyWrs rest s b
              (containsKey_iff_mem.mp hc)
            simp [containsKey_iff_mem.mpr hmm]
          · have hmm := @mem_keys_applyWrs rest s (b ++ "_widget")
              (containsKey_iff_mem.mp hc)
            simp [containsKey_iff_mem.mpr hmm]
        · have happ : applyOne s (.seed b vb vw)
              = setKey (setKey (setKey s b vb) (b ++ "_widget") vw)
                ("_" ++ (b ++ "_widget")) vw := by
            simp [applyOne, hg]
          rw [happ]
          have hb : b ∈ keysOf (setKey
              (setKey (setKey s b vb) (b ++ "_widget") vw)
              ("_" ++ (b ++ "_widget")) vw) :=
            mem_keysOf_setKey _ (mem_keysOf_setKey _
              (mem_keysOf_iff.mpr (by rw [lookupS_setKey_self]; rfl)))
          have hmm := @mem_keys_applyWrs rest _ b hb
          simp [containsKey_iff_mem.mpr hmm]
      · exact ih (applyOne s wr) b vb vw hmem2

end MC

namespace MC

/-- Main step of idempotence: running a SAFE trace on a store u that has
the same keys as the target store t, agrees with t wherever the trace has
no unconditional write, where t already holds the last-written values, and
where every seed finds its guard keys present, lands exactly on t. -/
theorem applyWrs_idem_aux : ∀ (l : List Wr) (t : Store), SAFE l = true →
    (keysOf t).Nodup →
    ∀ (u : Store), (keysOf u).Nodup → keysOf u = keysOf t →
    (∀ k, lastUncondVal l k = none → lookupS u k = lookupS t k) →
    (∀ k v, lastUncondVal l k = some v → lookupS t k = some v) →
    (∀ k v, lastUncondVal l k = some v → k ∈ keysOf u) →
    (∀ b vb vw, Wr.seed b vb vw ∈ l →
      (containsKey u b || containsKey u (b ++ "_widget")) = true) →
    applyWrs u l = t := by
  intro l
  induction l with
  | nil =>
      intro t _ _ u hndu hku hagree _ _ _
      exact store_ext hndu hku (fun k => hagree k rfl)
  | cons wr rest ih =>
      intro t hS hndt u hndu hku hagree htval humem hseeds
      have hSt : SAFE rest = true := by
        rw [SAFE, List.all_cons, Bool.and_eq_true] at hS
        exact hS.2
      cases wr with
      | w k v =>
          have hlv : ∃ vv, lastUncondVal (Wr.w k v :: rest) k = some vv := by
            rw [lastUncondVal_cons]
            cases hr : lastUncondVal rest k with
            | some v2 => exact ⟨v2, rfl⟩
            | none => exact ⟨v, by simp⟩
          obtain ⟨vv, hvv⟩ := hlv
          have hkmem : k ∈ keysOf u := humem k vv hvv
          have hkeys : keysOf (setKey u k v) = keysOf u :=
            keysOf_setKey_mem v hkmem
          show applyWrs (setKey u k v) rest = t
          apply ih t hSt hndt (setKey u k v)
            (nodup_keysOf_setKey v hndu) (by rw [hkeys, hku])
          · intro k2 hn2
            by_cases e : k2 = k
            · subst e
              have hl : lastUncondVal (Wr.w k2 v :: rest) k2 = some v := by
                rw [lastUncondVal_cons, hn2]
                simp
              rw [lookupS_setKey_self, htval k2 v hl]
            · rw [lookupS_setKey_ne u v e]
              apply hagree
              rw [lastUncondVal_cons, hn2]
              show (if k = k2 then some v else none) = none
              rw [if_neg (fun e2 => e e2.symm)]
          · intro k2 v2 h2
            apply htval
            rw [lastUncondVal_cons, h2]
          · intro k2 v2 h2
            apply mem_keysOf_setKey
            apply humem k2 v2
            rw [lastUncondVal_cons, h2]
          · intro b vb vw hm
            have := hseeds b vb vw (List.mem_cons_of_mem _ hm)
            rcases Bool.or_eq_true_iff.mp this with hc | hc
            · simp [containsKey_iff_mem.mpr
                (mem_keysOf_setKey _ (containsKey_iff_mem.mp hc))]
            · simp [containsKey_iff_mem.mpr
                (mem_keysOf_setKey _ (containsKey_iff_mem.mp hc))]
      | pairW k v =>
          have hlv1 : ∃ vv, lastUncondVal (Wr.pairW k v :: rest) k
              = some vv := by
            rw [lastUncondVal_cons]
            cases hr : lastUncondVal rest k with
            | some v2 => exact ⟨v2, rfl⟩
            | none => exact ⟨v, by simp⟩
          have hlv2 : ∃ vv, lastUncondVal (Wr.pairW k v :: rest) ("_" ++ k)
              = some vv := by
            rw [lastUncondVal_cons]
            cases hr : lastUncondVal rest ("_" ++ k) with
            | some v2 => exact ⟨v2, rfl⟩
            | none => exact ⟨v, by simp⟩
          obtain ⟨vv1, hvv1⟩ := hlv1
          obtain ⟨vv2, hvv2⟩ := hlv2
          have hk1 : k ∈ keysOf u := humem k vv1 hvv1
          have hk2 : "_" ++ k ∈ keysOf u := humem _ vv2 hvv2
          have hkeys : keysOf (setKey (setKey u k v) ("_" ++ k) v)
              = keysOf u := by
            rw [keysOf_setKey_mem _ (mem_keysOf_setKey _ hk2),
              keysOf_setKey_mem _ hk1]
          show applyWrs (setKey (setKey u k v) ("_" ++ k) v) rest = t
          apply ih t hSt hndt _
            (nodup_keysOf_setKey _ (nodup_keysOf_setKey _ hndu))
            (by rw [hkeys, hku])
          · intro k2 hn2
            by_cases e1 : k2 = "_" ++ k
            · subst e1
              have hl : lastUncondVal (Wr.pairW k v :: rest) ("_" ++ k)
                  = some v := by
                rw [lastUncondVal_cons, hn2]
                simp
              rw [lookupS_setKey_self, htval _ v hl]
            · by_cases e2 : k2 = k
              · subst e2
                have hl : lastUncondVal (Wr.pairW k2 v :: rest) k2
                    = some v := by
                  rw [lastUncondVal_cons, hn2]
                  simp
                rw [lookupS_setKey_ne _ _ e1, lookupS_setKey_self,
                  htval _ v hl]
              · rw [lookupS_setKey_ne _ _ e1, lookupS_setKey_ne _ _ e2]
                apply hagree
                rw [lastUncondVal_cons, hn2]
                show (if k = k2 ∨ "_" ++ k = k2 then some v else none)
                  = none
                rw [if_neg (show ¬ (k = k2 ∨ "_" ++ k = k2) from by
                  push_neg
                  exact ⟨fun e => e2 e.symm, fun e => e1 e.symm⟩)]
          · intro k2 v2 h2
            apply htval
            rw [lastUncondVal_cons, h2]
          · intro k2 v2 h2
            apply mem_keysOf_setKey
            apply mem_keysOf_setKey
            apply humem k2 v2
            rw [lastUncondVal_cons, h2]
          · intro b vb vw hm
            have := hseeds b vb vw (List.mem_cons_of_mem _ hm)
            rcases Bool.or_eq_true_iff.mp this with hc | hc
            · simp [containsKey_iff_mem.mpr (mem_keysOf_setKey _
                (mem_keysOf_setKey _ (containsKey_iff_mem.mp hc)))]
            · simp [containsKey_iff_mem.mpr (mem_keysOf_setKey _
                (mem_keysOf_setKey _ (containsKey_iff_mem.mp hc)))]
      | seed b vb vw =>
          have hg : (containsKey u b || containsKey u (b ++ "_widget"))
              = true := hseeds b vb vw (List.mem_cons_self _ _)
          have happ : applyOne u (.seed b vb vw) = u := by
            simp [applyOne, hg]
          show applyWrs (applyOne u (.seed b vb vw)) rest = t
          rw [happ]
          have hsame : ∀ k2, lastUncondVal (Wr.seed b vb vw :: rest) k2
              = lastUncondVal rest k2 := by
            intro k2
            rw [lastUncondVal_cons]
            cases lastUncondVal rest k2 <;> rfl
          apply ih t hSt hndt u hndu hku
          · intro k2 hn2
            exact hagree k2 (by rw [hsame, hn2])
          · intro k2 v2 h2
            exact htval k2 v2 (by rw [hsame, h2])
          · intro k2 v2 h2
            exact humem k2 v2 (by rw [hsame, h2])
          · intro b2 vb2 vw2 hm
            exact hseeds b2 vb2 vw2 (List.mem_cons_of_mem _ hm)

/-- Applying a SAFE trace twice is the same as applying it once. -/
theorem applyWrs_twice (s : Store) (l : List Wr) (hS : SAFE l = true)
    (hnd : (keysOf s).Nodup) :
    applyWrs (applyWrs s l) l = applyWrs s l := by
  apply applyWrs_idem_aux l (applyWrs s l) hS (nodup_keys_applyWrs hnd)
    (applyWrs s l) (nodup_keys_applyWrs hnd) rfl
  · intro k _
    rfl
  · intro k v h
    exact applyWrs_lastVal l s k v hS h
  · intro k v h
    exact mem_keysOf_iff.mpr (by rw [applyWrs_lastVal l s k v hS h]; rfl)
  · intro b vb vw h
    exact seeds_present l s b vb vw h

end MC

namespace MC

/-! ## SAFE-ness of the hydrate engine's write traces -/

/-- A usable key stem: nonempty and without a leading underscore. -/
def goodKey (p : String) : Prop := p.data ≠ [] ∧ undK p = false

theorem append_data_ne (p x : String) (hp : p.data ≠ []) :
    (p ++ x).data ≠ [] := by
  rw [String.data_append]
  intro e
  exact hp (List.append_eq_nil.mp e).1

theorem undK_append {p : String} (x : String) (h : p.data ≠ []) :
    undK (p ++ x) = undK p := by
  show ((p ++ x).data.head? == some '_') = (p.data.head? == some '_')
  rw [String.data_append]
  cases hp : p.data with
  | nil => exact absurd hp h
  | cons c cs => rfl

theorem goodKey_app {p : String} (x : String) (hp : goodKey p) :
    goodKey (p ++ x) :=
  ⟨append_data_ne p x hp.1, by rw [undK_append x hp.1]; exact hp.2⟩

theorem safe_append {a b : List Wr} (ha : SAFE a = true)
    (hb : SAFE b = true) : SAFE (a ++ b) = true := by
  rw [SAFE, List.all_append]
  rw [SAFE] at ha hb
  rw [ha, hb]
  rfl

end MC

namespace MC

theorem safe_listShadowOnly {fullKey : String} (v : Value)
    (h : goodKey fullKey) : SAFE (listShadowOnly fullKey v) = true := by
  cases v <;>
    simp [listShadowOnly, SAFE, (goodKey_app "_list" h).2]

theorem safe_plusListShadow {fullKey : String} (v : Value)
    (h : goodKey fullKey) : SAFE (plusListShadow fullKey v) = true := by
  have h2 := safe_listShadowOnly v h
  rw [plusListShadow, SAFE, List.all_cons]
  rw [SAFE] at h2
  simp [h.2, h2]

theorem safe_ioFieldWrites {P : String} (clean : String) (srcV : Value)
    (items : List (String × Value)) (hP : goodKey P) :
    SAFE (ioFieldWrites P clean srcV items) = true := by
  rw [ioFieldWrites, SAFE, List.all_eq_true]
  intro wr hw
  rcases List.mem_flatMap.mp hw with ⟨kv, _, hwkv⟩
  by_cases hks : kv.1 = "entry" || kv.1 = "source"
  · rw [if_pos hks] at hwkv
    exact absurd hwkv (List.not_mem_nil _)
  · rw [if_neg hks] at hwkv
    rcases List.mem_singleton.mp hwkv with rfl
    have hg := goodKey_app kv.1 (goodKey_app "_"
      (goodKey_app (pyStr srcV) (goodKey_app "_"
        (goodKey_app clean hP))))
    simp [hg.2]

theorem safe_compileIo (fstr : Bool) (P : String) (io : Value)
    (hP : goodKey P) : SAFE (compileIo fstr P io).1 = true := by
  unfold compileIo
  cases subscr io "entry" with
  | error e => rfl
  | ok ev =>
      cases ev with
      | vstr entry =>
          cases subscr io "source" with
          | error e => rfl
          | ok srcV =>
              cases io with
              | vdict items =>
                  show SAFE ((if (fstr || isVStr srcV
                      || items.all (fun kv =>
                          kv.1 = "entry" || kv.1 = "source")) = true then
                      (ioFieldWrites P (cleanLabel entry) srcV items,
                        (none : Option PyErr))
                    else ([], some PyErr.typeError)).1) = true
                  by_cases hc : (fstr || isVStr srcV
                      || items.all (fun kv =>
                          kv.1 = "entry" || kv.1 = "source")) = true
                  · rw [if_pos hc]
                    exact safe_ioFieldWrites (cleanLabel entry) srcV items hP
                  · rw [if_neg hc]
                    rfl
              | vstr s => rfl
              | vint n => rfl
              | vbool b => rfl
              | vnone => rfl
              | vdate d => rfl
              | vlist l => rfl
      | vint n => rfl
      | vbool b => rfl
      | vnone => rfl
      | vdate d => rfl
      | vlist l => rfl
      | vdict l => rfl

theorem safe_compileIos (fstr : Bool) (P : String) (l : List Value)
    (hP : goodKey P) : SAFE (compileIos fstr P l).1 = true := by
  induction l with
  | nil => rfl
  | cons io rest ih =>
      unfold compileIos
      cases hio : compileIo fstr P io with
      | mk ws err =>
          have hws : SAFE ws = true := by
            have h2 := safe_compileIo fstr P io hP
            rw [hio] at h2
            exact h2
          cases err with
          | some e => exact hws
          | none => exact safe_append hws ih

theorem safe_trainingFieldWrites (items : List (String × Value)) :
    SAFE (trainingFieldWrites items) = true := by
  rw [trainingFieldWrites, SAFE, List.all_eq_true]
  intro wr hw
  rcases List.mem_flatMap.mp hw with ⟨kv, _, hwkv⟩
  have h2 := @safe_plusListShadow ("training_data_" ++ kv.1) kv.2
    (goodKey_app kv.1 ⟨by decide, by decide⟩)
  rw [SAFE, List.all_eq_true] at h2
  exact h2 wr hwkv

theorem safe_compileTraining (content : Value) :
    SAFE (compileTraining content).1 = true := by
  cases content with
  | vdict items =>
      show SAFE ((match iterVals (match lookupS items
            "inputs_outputs_technical_specifications" with
          | some v => v
          | none => Value.vlist []) with
        | .error e => (trainingFieldWrites items, some e)
        | .ok l => (trainingFieldWrites items
            ++ (compileIos true "training_data_" l).1,
            (compileIos true "training_data_" l).2)).1) = true
      cases iterVals (match lookupS items
          "inputs_outputs_technical_specifications" with
        | some v => v
        | none => Value.vlist []) with
      | error e => exact safe_trainingFieldWrites items
      | ok l =>
          exact safe_append (safe_trainingFieldWrites items)
            (safe_compileIos true "training_data_" l ⟨by decide, by decide⟩)
  | vstr s => rfl
  | vint n => rfl
  | vbool b => rfl
  | vnone => rfl
  | vdate d => rfl
  | vlist l => rfl

theorem safe_compileMetrics (name : String) (ms : List Value) :
    SAFE (compileMetrics name ms) = true := by
  rw [compileMetrics, SAFE, List.all_eq_true]
  intro wr hw
  rcases List.mem_flatMap.mp hw with ⟨metric, _, hwm⟩
  cases metric with
  | vdict items =>
      rcases List.mem_flatMap.mp hwm with ⟨kv, _, hwkv⟩
      by_cases hks : kv.1 = "name"
      · rw [if_pos hks] at hwkv
        exact absurd hwkv (List.not_mem_nil _)
      · rw [if_neg hks] at hwkv
        rcases List.mem_singleton.mp hwkv with rfl
        have hg := goodKey_app kv.1 (goodKey_app "_"
          (goodKey_app (pyStr (match lookupS items "name" with
            | some v => v
            | none => .vnone)) (goodKey_app "."
            (goodKey_app name (⟨by decide, by decide⟩ :
              goodKey "evaluation_")))))
        simp [hg.2]
  | vstr s => exact absurd hwm (List.not_mem_nil _)
  | vint n => exact absurd hwm (List.not_mem_nil _)
  | vbool b => exact absurd hwm (List.not_mem_nil _)
  | vnone => exact absurd hwm (List.not_mem_nil _)
  | vdate d => exact absurd hwm (List.not_mem_nil _)
  | vlist l => exact absurd hwm (List.not_mem_nil _)

end MC

namespace MC

theorem safe_compileEvalField (name pfx : String) (key : String)
    (value : Value) (hpfx : goodKey pfx) :
    SAFE (compileEvalField name pfx key value).1 = true := by
  unfold compileEvalField
  by_cases h1 : key = "inputs_outputs_technical_specifications"
  · rw [if_pos h1]
    cases iterVals value with
    | error e => rfl
    | ok l => exact safe_compileIos false pfx l hpfx
  · rw [if_neg h1]
    by_cases h2 : ((match value with
        | Value.vlist _ => true
        | _ => false) && startsWithS key "type_") = true
    · rw [if_pos h2]
      cases value with
      | vlist ms =>
          show SAFE ((match namesOf ms with
            | .error e => (([] : List Wr), some e)
            | .ok mnames =>
                (Wr.w (pfx ++ key ++ "_list") (Value.vlist mnames) ::
                  Wr.w (pfx ++ key) (Value.vlist mnames) ::
                  compileMetrics name ms, none)).1) = true
          cases namesOf ms with
          | error e => rfl
          | ok mnames =>
              show SAFE (Wr.w (pfx ++ key ++ "_list") (.vlist mnames) ::
                Wr.w (pfx ++ key) (.vlist mnames) ::
                compileMetrics name ms) = true
              have hk1 := goodKey_app "_list" (goodKey_app key hpfx)
              have hk2 := goodKey_app key hpfx
              have hm := safe_compileMetrics name ms
              rw [SAFE, List.all_cons, List.all_cons]
              rw [SAFE] at hm
              simp [hk1.2, hk2.2, hm]
      | vstr s => simp at h2
      | vint n => simp at h2
      | vbool b => simp at h2
      | vnone => simp at h2
      | vdate d => simp at h2
      | vdict l => simp at h2
    · rw [if_neg h2]
      by_cases h3 : strContains (pyLower key) "date" = true
      · rw [if_pos h3]
        cases hn : normalizeToYyyymmdd value with
        | some s =>
            show SAFE ((if (!(s == "") && is_yyyymmddStr s) = true then
                ([Wr.seed (pfx ++ key) (Value.vstr s)
                  (match to_date s with
                    | some dt => Value.vdate dt
                    | none => Value.vnone)], (none : Option PyErr))
              else ([Wr.seed (pfx ++ key) Value.vnone Value.vnone],
                none)).1) = true
            by_cases h4 : (!(s == "") && is_yyyymmddStr s) = true
            · rw [if_pos h4]; rfl
            · rw [if_neg h4]; rfl
        | none => rfl
      · rw [if_neg h3]
        have hk := goodKey_app key hpfx
        cases value with
        | vstr s =>
            show SAFE ((if is_yyyymmddStr s = true then
                ([Wr.seed (pfx ++ key)
                  (match to_date s with
                    | some _ => Value.vstr s
                    | none => Value.vnone)
                  (match to_date s with
                    | some dt => Value.vdate dt
                    | none => Value.vnone)], (none : Option PyErr))
              else ([Wr.w (pfx ++ key) (Value.vstr s)], none)).1) = true
            by_cases h5 : is_yyyymmddStr s = true
            · rw [if_pos h5]; rfl
            · rw [if_neg h5]
              show SAFE [Wr.w (pfx ++ key) (Value.vstr s)] = true
              simp [SAFE, hk.2]
        | vint n =>
            show SAFE [Wr.w (pfx ++ key) (Value.vint n)] = true
            simp [SAFE, hk.2]
        | vbool b =>
            show SAFE [Wr.w (pfx ++ key) (Value.vbool b)] = true
            simp [SAFE, hk.2]
        | vnone =>
            show SAFE [Wr.w (pfx ++ key) Value.vnone] = true
            simp [SAFE, hk.2]
        | vdate d =>
            show SAFE [Wr.w (pfx ++ key) (Value.vdate d)] = true
            simp [SAFE, hk.2]
        | vlist l =>
            show SAFE [Wr.w (pfx ++ key) (Value.vlist l)] = true
            simp [SAFE, hk.2]
        | vdict l =>
            show SAFE [Wr.w (pfx ++ key) (Value.vdict l)] = true
            simp [SAFE, hk.2]

theorem safe_compileEvalFieldsGo (name pfx : String)
    (items : List (String × Value)) (hpfx : goodKey pfx) :
    SAFE (compileEvalFieldsGo name pfx items).1 = true := by
  induction items with
  | nil => rfl
  | cons kv rest ih =>
      unfold compileEvalFieldsGo
      cases hkv : compileEvalField name pfx kv.1 kv.2 with
      | mk ws err =>
          have hws : SAFE ws = true := by
            have h2 := safe_compileEvalField name pfx kv.1 kv.2 hpfx
            rw [hkv] at h2
            exact h2
          cases err with
          | some e => exact hws
          | none => exact safe_append hws ih

theorem safe_compileEvalEntry (entry : Value) :
    SAFE (compileEvalEntry entry).1 = true := by
  unfold compileEvalEntry
  cases subscr entry "name" with
  | error e => rfl
  | ok nv =>
      cases nv with
      | vstr rawName =>
          cases entry with
          | vdict items =>
              exact safe_compileEvalFieldsGo _ _ items
                (goodKey_app "_" (goodKey_app (pyReplace rawName " " "_")
                  (⟨by decide, by decide⟩ : goodKey "evaluation_")))
          | vstr s => rfl
          | vint n => rfl
          | vbool b => rfl
          | vnone => rfl
          | vdate d => rfl
          | vlist l => rfl
      | vint n => rfl
      | vbool b => rfl
      | vnone => rfl
      | vdate d => rfl
      | vlist l => rfl
      | vdict l => rfl

theorem safe_compileEvalEntries (entries : List Value) :
    SAFE (compileEvalEntries entries).1 = true := by
  induction entries with
  | nil => rfl
  | cons e rest ih =>
      unfold compileEvalEntries
      cases he : compileEvalEntry e with
      | mk ws err =>
          have hws : SAFE ws = true := by
            have h2 := safe_compileEvalEntry e
            rw [he] at h2
            exact h2
          cases err with
          | some e2 => exact hws
          | none => exact safe_append hws ih

theorem safe_compileEvaluations (content : Value) :
    SAFE (compileEvaluations content).1 = true := by
  unfold compileEvaluations
  cases iterVals content with
  | error e => rfl
  | ok entries =>
      show SAFE ((match namesOf entries with
        | .error e => (([] : List Wr), some e)
        | .ok names =>
            (Wr.w "evaluation_forms" (Value.vlist names)
              :: (compileEvalEntries entries).1,
              (compileEvalEntries entries).2)).1) = true
      cases namesOf entries with
      | error e => rfl
      | ok names =>
          show SAFE (Wr.w "evaluation_forms" (.vlist names) ::
            (compileEvalEntries entries).1) = true
          have h2 := safe_compileEvalEntries entries
          rw [SAFE, List.all_cons]
          rw [SAFE] at h2
          simp [h2]
          decide

theorem safe_compileArch (i : Nat) (arch : Value) :
    SAFE (compileArch i arch).1 = true := by
  cases arch with
  | vdict items =>
      show SAFE (items.map (fun kv =>
        Wr.w ("learning_architecture_" ++ toString i ++ "_" ++ kv.1) kv.2))
        = true
      rw [SAFE, List.all_eq_true]
      intro wr hw
      rcases List.mem_map.mp hw with ⟨kv, _, rfl⟩
      have hg := goodKey_app kv.1 (goodKey_app "_" (goodKey_app (toString i)
        (⟨by decide, by decide⟩ : goodKey "learning_architecture_")))
      simp [hg.2]
  | vstr s => rfl
  | vint n => rfl
  | vbool b => rfl
  | vnone => rfl
  | vdate d => rfl
  | vlist l => rfl

theorem safe_compileArchs (i : Nat) (archs : List Value) :
    SAFE (compileArchs i archs).1 = true := by
  induction archs generalizing i with
  | nil => rfl
  | cons a rest ih =>
      unfold compileArchs
      cases ha : compileArch i a with
      | mk ws err =>
          have hws : SAFE ws = true := by
            have h2 := safe_compileArch i a
            rw [ha] at h2
            exact h2
          cases err with
          | some e => exact hws
          | none => exact safe_append hws (ih (i + 1))

theorem safe_compileTechField (k : String) (v : Value) :
    SAFE (compileTechField k v).1 = true := by
  unfold compileTechField
  by_cases h1 : (k = "learning_architectures" && (match v with
      | Value.vlist _ => true
      | _ => false)) = true
  · rw [if_pos h1]
    cases v with
    | vlist archs =>
        show SAFE (Wr.w "learning_architecture_forms" _ ::
          (compileArchs 0 archs).1) = true
        have h2 := safe_compileArchs 0 archs
        rw [SAFE, List.all_cons]
        rw [SAFE] at h2
        simp [h2]
        decide
    | vstr s => simp at h1
    | vint n => simp at h1
    | vbool b => simp at h1
    | vnone => simp at h1
    | vdate d => simp at h1
    | vdict l => simp at h1
  · rw [if_neg h1]
    clear h1
    by_cases h2 : (k = "hw_and_sw" && (match v with
        | Value.vdict _ => true
        | _ => false)) = true
    · rw [if_pos h2]
      cases v with
      | vdict hws =>
          show SAFE (hws.map (fun kv =>
            Wr.w ("hw_and_sw_" ++ kv.1) kv.2)) = true
          rw [SAFE, List.all_eq_true]
          intro wr hw
          rcases List.mem_map.mp hw with ⟨kv, _, rfl⟩
          have hg := goodKey_app kv.1
            (⟨by decide, by decide⟩ : goodKey "hw_and_sw_")
          simp [hg.2]
      | vstr s => simp at h2
      | vint n => simp at h2
      | vbool b => simp at h2
      | vnone => simp at h2
      | vdate d => simp at h2
      | vlist l => simp at h2
    · rw [if_neg h2]
      exact safe_plusListShadow v
        (goodKey_app k (⟨by decide, by decide⟩ :
          goodKey "technical_specifications_"))

theorem safe_compileTechGo (items : List (String × Value)) :
    SAFE (compileTechGo items).1 = true := by
  induction items with
  | nil => rfl
  | cons kv rest ih =>
      unfold compileTechGo
      cases hkv : compileTechField kv.1 kv.2 with
      | mk ws err =>
          have hws : SAFE ws = true := by
            have h2 := safe_compileTechField kv.1 kv.2
            rw [hkv] at h2
            exact h2
          cases err with
          | some e => exact hws
          | none => exact safe_append hws ih

theorem safe_compileTechSpecs (content : Value) :
    SAFE (compileTechSpecs content).1 = true := by
  cases content with
  | vdict items => exact safe_compileTechGo items
  | vstr s => rfl
  | vint n => rfl
  | vbool b => rfl
  | vnone => rfl
  | vdate d => rfl
  | vlist l => rfl

theorem safe_compileGenericField (sec : String) (k : String) (v : Value)
    (hsec : goodKey sec) :
    SAFE (compileGenericField sec k v) = true := by
  unfold compileGenericField
  have hfk : goodKey (sec ++ "_" ++ k) :=
    goodKey_app k (goodKey_app "_" hsec)
  by_cases h1 : endsWithS k "creation_date" = true
  · rw [if_pos h1]
    have h2 := @safe_listShadowOnly (sec ++ "_" ++ k) v hfk
    rw [SAFE, List.all_cons]
    rw [SAFE] at h2
    simp [h2]
  · rw [if_neg h1]
    exact safe_plusListShadow v hfk

theorem safe_compileSection (sec : String) (content : Value)
    (hsec : goodKey sec) : SAFE (compileSection sec content).1 = true := by
  unfold compileSection
  by_cases h1 : sec = "training_data"
  · rw [if_pos h1]; exact safe_compileTraining content
  · rw [if_neg h1]
    by_cases h2 : sec = "evaluations"
    · rw [if_pos h2]; exact safe_compileEvaluations content
    · rw [if_neg h2]
      by_cases h3 : sec = "technical_specifications"
      · rw [if_pos h3]; exact safe_compileTechSpecs content
      · rw [if_neg h3]
        cases content with
        | vdict items =>
            show SAFE (items.flatMap (fun kv =>
              compileGenericField sec kv.1 kv.2)) = true
            rw [SAFE, List.all_eq_true]
            intro wr hw
            rcases List.mem_flatMap.mp hw with ⟨kv, _, hwkv⟩
            have h4 := safe_compileGenericField sec kv.1 kv.2 hsec
            rw [SAFE, List.all_eq_true] at h4
            exact h4 wr hwkv
        | vstr s => rfl
        | vint n => rfl
        | vbool b => rfl
        | vnone => rfl
        | vdate d => rfl
        | vlist l => rfl

theorem safe_compileSectionsGo (data : List (String × Value))
    (h : ∀ kv ∈ data, goodKey kv.1) :
    SAFE (compileSectionsGo data).1 = true := by
  induction data with
  | nil => rfl
  | cons kv rest ih =>
      unfold compileSectionsGo
      cases hkv : compileSection kv.1 kv.2 with
      | mk ws err =>
          have hws : SAFE ws = true := by
            have h2 := safe_compileSection kv.1 kv.2
              (h kv (List.mem_cons_self _ _))
            rw [hkv] at h2
            exact h2
          cases err with
          | some e => exact hws
          | none =>
              exact safe_append hws
                (ih (fun kv2 hm => h kv2 (List.mem_cons_of_mem _ hm)))

theorem safe_compileDoc (data : List (String × Value))
    (h : ∀ kv ∈ data, goodKey kv.1) :
    SAFE (compileDoc data).1 = true := by
  unfold compileDoc
  have htask : SAFE (match lookupS data "task" with
      | some v => [Wr.w "task" v]
      | none => []) = true := by
    cases lookupS data "task" with
    | some v => simp [SAFE]; decide
    | none => rfl
  exact safe_append htask (safe_compileSectionsGo data h)

end MC

namespace MC

/-! ## Decidable equality of values (for concrete witnesses) -/

mutual

def beqV : Value → Value → Bool
  | .vstr a, .vstr b => a == b
  | .vint a, .vint b => a == b
  | .vbool a, .vbool b => a == b
  | .vnone, .vnone => true
  | .vdate a, .vdate b => a == b
  | .vlist a, .vlist b => beqVL a b
  | .vdict a, .vdict b => beqVD a b
  | _, _ => false

def beqVL : List Value → List Value → Bool
  | [], [] => true
  | a :: as2, b :: bs => beqV a b && beqVL as2 bs
  | _, _ => false

def beqVD : List (String × Value) → List (String × Value) → Bool
  | [], [] => true
  | (ka, va) :: as2, (kb, vb) :: bs =>
      ka == kb && (beqV va vb && beqVD as2 bs)
  | _, _ => false

end

mutual

theorem beqV_iff : ∀ a b : Value, beqV a b = true ↔ a = b
  | .vstr a, .vstr b => by simp [beqV]
  | .vstr a, .vint b => by simp [beqV]
  | .vstr a, .vbool b => by simp [beqV]
  | .vstr a, .vnone => by simp [beqV]
  | .vstr a, .vdate b => by simp [beqV]
  | .vstr a, .vlist b => by simp [beqV]
  | .vstr a, .vdict b => by simp [beqV]
  | .vint a, .vstr b => by simp [beqV]
  | .vint a, .vint b => by simp [beqV]
  | .vint a, .vbool b => by simp [beqV]
  | .vint a, .vnone => by simp [beqV]
  | .vint a, .vdate b => by simp [beqV]
  | .vint a, .vlist b => by simp [beqV]
  | .vint a, .vdict b => by simp [beqV]
  | .vbool a, .vstr b => by simp [beqV]
  | .vbool a, .vint b => by simp [beqV]
  | .vbool a, .vbool b => by simp [beqV]
  | .vbool a, .vnone => by simp [beqV]
  | .vbool a, .vdate b => by simp [beqV]
  | .vbool a, .vlist b => by simp [beqV]
  | .vbool a, .vdict b => by simp [beqV]
  | .vnone, .vstr b => by simp [beqV]
  | .vnone, .vint b => by simp [beqV]
  | .vnone, .vbool b => by simp [beqV]
  | .vnone, .vnone => by simp [beqV]
  | .vnone, .vdate b => by simp [beqV]
  | .vnone, .vlist b => by simp [beqV]
  | .vnone, .vdict b => by simp [beqV]
  | .vdate a, .vstr b => by simp [beqV]
  | .vdate a, .vint b => by simp [beqV]
  | .vdate a, .vbool b => by simp [beqV]
  | .vdate a, .vnone => by simp [beqV]
  | .vdate a, .vdate b => by simp [beqV]
  | .vdate a, .vlist b => by simp [beqV]
  | .vdate a, .vdict b => by simp [beqV]
  | .vlist a, .vstr b => by simp [beqV]
  | .vlist a, .vint b => by simp [beqV]
  | .vlist a, .vbool b => by simp [beqV]
  | .vlist a, .vnone => by simp [beqV]
  | .vlist a, .vdate b => by simp [beqV]
  | .vlist a, .vlist b => by
      simp only [beqV, Value.vlist.injEq]
      exact beqVL_iff a b
  | .vlist a, .vdict b => by simp [beqV]
  | .vdict a, .vstr b => by simp [beqV]
  | .vdict a, .vint b => by simp [beqV]
  | .vdict a, .vbool b => by simp [beqV]
  | .vdict a, .vnone => by simp [beqV]
  | .vdict a, .vdate b => by simp [beqV]
  | .vdict a, .vlist b => by simp [beqV]
  | .vdict a, .vdict b => by
      simp only [beqV, Value.vdict.injEq]
      exact beqVD_iff a b

theorem beqVL_iff : ∀ a b : List Value, beqVL a b = true ↔ a = b
  | [], [] => by simp [beqVL]
  | [], b :: bs => by simp [beqVL]
  | a :: as2, [] => by simp [beqVL]
  | a :: as2, b :: bs => by
      simp only [beqVL, Bool.and_eq_true, List.cons.injEq]
      exact and_congr (beqV_iff a b) (beqVL_iff as2 bs)

theorem beqVD_iff : ∀ a b : List (String × Value), beqVD a b = true ↔ a = b
  | [], [] => by simp [beqVD]
  | [], b :: bs => by simp [beqVD]
  | a :: as2, [] => by simp [beqVD]
  | (ka, va) :: as2, (kb, vb) :: bs => by
      simp only [beqVD, Bool.and_eq_true, List.cons.injEq, Prod.mk.injEq,
        beq_iff_eq]
      rw [and_assoc]
      exact and_congr Iff.rfl
        (and_congr (beqV_iff va vb) (beqVD_iff as2 bs))

end

instance : DecidableEq Value := fun a b => decidable_of_iff _ (beqV_iff a b)

/-! ## Claim C5: idempotent hydrate -/

/-- A document whose first top-level section name starts with an
underscore and collides with the raw widget key that the evaluations
section's date seeding writes. -/
def docC5 : List (String × Value) :=
  [("_evaluation_A", .vdict [("eval_date_widget", .vstr "junk")]),
    ("evaluations", .vlist [.vdict
      [("name", .vstr "A"), ("eval_date", .vstr "20200101")]])]

/-- C5 counterexample: hydrating docC5 once into an empty store seeds the
raw widget key _evaluation_A_eval_date_widget with the parsed date (the
seed runs after the generic section wrote "junk" there, and its guard
looks only at the base and widget keys); hydrating a second time rewrites
"junk" via the generic section, and the seed-once guard now SKIPS the
date seeding, so the raw key keeps "junk" — the two stores differ, so
hydration is NOT idempotent for every document. -/
theorem C5_counterexample :
    lookupS (populate_session_state_from_json [] docC5).1
        "_evaluation_A_eval_date_widget"
      = some (.vdate ⟨2020, 1, 1⟩) ∧
    lookupS (populate_session_state_from_json
        (populate_session_state_from_json [] docC5).1 docC5).1
        "_evaluation_A_eval_date_widget"
      = some (.vstr "junk") ∧
    populate_session_state_from_json
        (populate_session_state_from_json [] docC5).1 docC5
      ≠ populate_session_state_from_json [] docC5 := by
  refine ⟨by decide, by decide, ?_⟩
  intro h
  have h2 := congrArg
    (fun r => lookupS r.1 "_evaluation_A_eval_date_widget") h
  have h3 : some (Value.vstr "junk") = some (Value.vdate ⟨2020, 1, 1⟩) :=
    h2
  simp at h3

/-- C5 amended: hydrating a document twice (into any Python-dict store,
i.e. any store with duplicate-free keys) yields exactly the same store
and the same outcome as hydrating it once, PROVIDED no top-level section
name of the document is empty or begins with an underscore (real exported
documents satisfy this; the counterexample shows the restriction is
needed).  The seed-once guard makes every date seeding a no-op in the
second run, and all other writes rewrite the values they wrote before. -/
theorem C5_amended (s : Store) (data : List (String × Value))
    (hnd : (keysOf s).Nodup)
    (hsec : ∀ kv ∈ data, kv.1.data ≠ [] ∧ undK kv.1 = false) :
    populate_session_state_from_json
        (populate_session_state_from_json s data).1 data
      = populate_session_state_from_json s data := by
  have hS : SAFE (compileDoc data).1 = true :=
    safe_compileDoc data (fun kv hm => hsec kv hm)
  show (applyWrs (applyWrs s (compileDoc data).1) (compileDoc data).1,
      (compileDoc data).2)
    = (applyWrs s (compileDoc data).1, (compileDoc data).2)
  rw [applyWrs_twice s (compileDoc data).1 hS hnd]

/-- C5 witness: the amended theorem applied to a concrete store and
document. -/
theorem C5_witness :
    populate_session_state_from_json
        (populate_session_state_from_json
          [("task", Value.vstr "Segmentation")]
          [("card_metadata", Value.vdict
            [("name", Value.vstr "x"),
              ("creation_date", Value.vstr "2024-01-15")])]).1
        [("card_metadata", Value.vdict
          [("name", Value.vstr "x"),
            ("creation_date", Value.vstr "2024-01-15")])]
      = populate_session_state_from_json
          [("task", Value.vstr "Segmentation")]
          [("card_metadata", Value.vdict
            [("name", Value.vstr "x"),
              ("creation_date", Value.vstr "2024-01-15")])] := by
  apply C5_amended
  · decide
  · intro kv hm
    rcases List.mem_singleton.mp hm with rfl
    exact ⟨by decide, by decide⟩

end MC

namespace MC

/-! ## Claim C2: hydrate failure isolation -/

theorem lookupS_append (a b : Store) (k : String) :
    lookupS (a ++ b) k =
      match lookupS a k with
      | some v => some v
      | none => lookupS b k := by
  induction a with
  | nil => rfl
  | cons hd tl ih =>
      obtain ⟨k1, v1⟩ := hd
      rw [List.cons_append]
      show (if k1 = k then some v1 else lookupS (tl ++ b) k)
        = match (if k1 = k then some v1 else lookupS tl k) with
          | some v => some v
          | none => lookupS b k
      by_cases h : k1 = k
      · rw [if_pos h, if_pos h]
      · rw [if_neg h, if_neg h, ih]

theorem find?_eq_none_of_lookupS {l : List (String × Value)} {k : String}
    (h : lookupS l k = none) :
    l.find? (fun kv => kv.1 == k) = none := by
  induction l with
  | nil => rfl
  | cons hd tl ih =>
      rw [lookupS] at h
      by_cases hh : hd.1 = k
      · rw [if_pos hh] at h
        exact Option.noConfusion h
      · rw [if_neg hh] at h
        rw [List.find?_cons_of_neg _ (by simpa using hh)]
        exact ih h

theorem compileSectionsGo_append (pre rest : List (String × Value))
    (h : (compileSectionsGo pre).2 = none) :
    compileSectionsGo (pre ++ rest)
      = ((compileSectionsGo pre).1 ++ (compileSectionsGo rest).1,
          (compileSectionsGo rest).2) := by
  induction pre with
  | nil => simp [compileSectionsGo]
  | cons kv tl ih =>
      obtain ⟨sec, content⟩ := kv
      rw [List.cons_append]
      have hred : ∀ (l : List (String × Value)),
          compileSectionsGo ((sec, content) :: l)
            = match compileSection sec content with
              | (ws, some e) => (ws, some e)
              | (ws, none) =>
                  (ws ++ (compileSectionsGo l).1, (compileSectionsGo l).2)
          := fun l => rfl
      rw [hred] at h
      rw [hred, hred]
      cases hkv : compileSection sec content with
      | mk ws err =>
          rw [hkv] at h
          cases err with
          | some e => simp at h
          | none =>
              simp only at h ⊢
              rw [ih h]
              simp

/-- A document with a malformed evaluation entry (no "name"), a section
before the evaluations and a section after them. -/
def docC2 : List (String × Value) :=
  [("card_metadata", .vdict [("name", .vstr "x")]),
    ("evaluations", .vlist [.vdict []]),
    ("other_considerations", .vdict [("o", .vstr "y")])]

/-- C2 counterexample: hydrating a document whose evaluations section has
an entry without "name" raises an uncaught KeyError (the load page checks
only that the top level is a mapping; there is no per-section error
report), and the top-level section AFTER the evaluations is NOT hydrated —
so hydration neither "reports which top-level section failed rather than
raising" nor leaves "all other top-level sections fully hydrated". -/
theorem C2_counterexample :
    (populate_session_state_from_json [] docC2).2
        = some (.keyError "name") ∧
    lookupS (populate_session_state_from_json [] docC2).1
        "other_considerations_o" = none ∧
    lookupS (populate_session_state_from_json [] docC2).1
        "card_metadata_name" = some (.vstr "x") := by
  refine ⟨by decide, by decide, by decide⟩

theorem setKey_setKey_same (s : Store) (k : String) (v : Value) :
    setKey (setKey s k v) k v = setKey s k v := by
  induction s with
  | nil =>
      show (if k = k then [(k, v)] else (k, v) :: setKey [] k v)
        = [(k, v)]
      rw [if_pos rfl]
  | cons kv tl ih =>
      obtain ⟨k1, v1⟩ := kv
      show setKey (if k1 = k then (k1, v) :: tl
          else (k1, v1) :: setKey tl k v) k v
        = (if k1 = k then (k1, v) :: tl else (k1, v1) :: setKey tl k v)
      by_cases h : k1 = k
      · rw [if_pos h]
        show (if k1 = k then (k1, v) :: tl
            else (k1, v) :: setKey tl k v) = (k1, v) :: tl
        rw [if_pos h]
      · rw [if_neg h]
        show (if k1 = k then (k1, v) :: setKey tl k v
            else (k1, v1) :: setKey (setKey tl k v) k v)
          = (k1, v1) :: setKey tl k v
        rw [if_neg h, ih]

/-- C2 amended: when a document's evaluations section contains a first
entry without a "name" key, hydration raises KeyError("name") out of
populate_session_state_from_json; the top-level task pre-pass (which runs
before the section loop and reads the document's task key wherever it
sits) and the sections BEFORE the evaluations are fully hydrated (the
store equals the store produced by the task write followed by hydrating
just them), and every section AFTER the evaluations is otherwise left
untouched.  (The name comprehension runs before any write of the
evaluations section, so no evaluation key is written either.) -/
theorem C2_amended (s : Store) (pre post es : List (String × Value))
    (evs : List Value)
    (hpre : (compileSectionsGo pre).2 = none)
    (hname : lookupS es "name" = none) :
    populate_session_state_from_json s
        (pre ++ ("evaluations", Value.vlist (Value.vdict es :: evs)) :: post)
      = ((populate_session_state_from_json
            (match lookupS (pre ++ ("evaluations",
                Value.vlist (Value.vdict es :: evs)) :: post) "task" with
              | some v => setKey s "task" v
              | none => s) pre).1,
          some (.keyError "name")) := by
  have hevals : compileSection "evaluations"
      (Value.vlist (Value.vdict es :: evs)) = ([], some (.keyError "name"))
      := by
    show compileEvaluations (Value.vlist (Value.vdict es :: evs))
      = ([], some (.keyError "name"))
    unfold compileEvaluations
    show (match namesOf (Value.vdict es :: evs) with
      | .error e => (([] : List Wr), some e)
      | .ok names =>
          (Wr.w "evaluation_forms" (Value.vlist names)
            :: (compileEvalEntries (Value.vdict es :: evs)).1,
            (compileEvalEntries (Value.vdict es :: evs)).2))
      = ([], some (.keyError "name"))
    have hsub : subscr (Value.vdict es) "name" = .error (.keyError "name")
        := by
      show (match List.find? (fun kv => kv.1 == "name") es with
        | some kv => Except.ok kv.2
        | none => Except.error (PyErr.keyError "name"))
        = Except.error (PyErr.keyError "name")
      rw [find?_eq_none_of_lookupS hname]
    unfold namesOf
    rw [hsub]
  have hrest : compileSectionsGo
      (("evaluations", Value.vlist (Value.vdict es :: evs)) :: post)
      = ([], some (.keyError "name")) := by
    unfold compileSectionsGo
    rw [hevals]
  have hsec : compileSectionsGo (pre ++ ("evaluations",
      Value.vlist (Value.vdict es :: evs)) :: post)
      = ((compileSectionsGo pre).1 ++ [], some (.keyError "name")) := by
    rw [compileSectionsGo_append _ _ hpre, hrest]
  have hrhs : ∀ s0 : Store, (populate_session_state_from_json s0 pre).1
      = applyWrs s0 ((match lookupS pre "task" with
          | some v => [Wr.w "task" v]
          | none => []) ++ (compileSectionsGo pre).1) := fun s0 => rfl
  have hlhs : populate_session_state_from_json s
      (pre ++ ("evaluations", Value.vlist (Value.vdict es :: evs)) :: post)
      = (applyWrs s ((match lookupS (pre ++ ("evaluations",
            Value.vlist (Value.vdict es :: evs)) :: post) "task" with
          | some v => [Wr.w "task" v]
          | none => []) ++ ((compileSectionsGo pre).1 ++ [])),
        some (.keyError "name")) := by
    show (applyWrs s ((match lookupS (pre ++ ("evaluations",
          Value.vlist (Value.vdict es :: evs)) :: post) "task" with
        | some v => [Wr.w "task" v]
        | none => []) ++ (compileSectionsGo (pre ++ ("evaluations",
          Value.vlist (Value.vdict es :: evs)) :: post)).1),
      (compileSectionsGo (pre ++ ("evaluations",
        Value.vlist (Value.vdict es :: evs)) :: post)).2) = _
    rw [hsec]
  rw [hlhs, List.append_nil, hrhs]
  cases htask : lookupS (pre ++ ("evaluations",
      Value.vlist (Value.vdict es :: evs)) :: post) "task" with
  | none =>
      have htaskpre : lookupS pre "task" = none := by
        rw [lookupS_append] at htask
        cases hl : lookupS pre "task" with
        | none => rfl
        | some v => rw [hl] at htask; exact Option.noConfusion htask
      rw [htaskpre]
  | some v =>
      cases hpretask : lookupS pre "task" with
      | none => rfl
      | some v2 =>
          rw [lookupS_append, hpretask] at htask
          have hv : v2 = v := Option.some.inj htask
          rw [hv]
          show (applyWrs (setKey s "task" v)
              (compileSectionsGo pre).1, some (PyErr.keyError "name"))
            = (applyWrs (setKey (setKey s "task" v) "task" v)
              (compileSectionsGo pre).1, some (PyErr.keyError "name"))
          rw [setKey_setKey_same]

/-- C2 witness: the amended theorem applied at concrete inputs — a
document whose top-level task key precedes the malformed evaluations. -/
theorem C2_amended_witness :
    populate_session_state_from_json []
        ([("task", Value.vstr "Segmentation"),
          ("card_metadata", Value.vdict [("name", Value.vstr "x")])]
          ++ ("evaluations", Value.vlist (Value.vdict [] :: []))
          :: [("other_considerations", Value.vdict
            [("o", Value.vstr "y")])])
      = ((populate_session_state_from_json
            (setKey [] "task" (Value.vstr "Segmentation"))
            [("task", Value.vstr "Segmentation"),
             ("card_metadata", Value.vdict [("name", Value.vstr "x")])]).1,
          some (.keyError "name")) :=
  C2_amended [] [("task", Value.vstr "Segmentation"),
      ("card_metadata", Value.vdict [("name", Value.vstr "x")])]
    [("other_considerations", Value.vdict [("o", Value.vstr "y")])] [] []
    (by decide) (by decide)

end MC

namespace MC

/-! ## Claim C10: underscore-shadow keys of inputs/outputs fields -/

/-- No unconditional plain write (Wr.w) targets key k in the trace. -/
def noPlainW (l : List Wr) (k : String) : Bool :=
  l.all (fun wr =>
    match wr with
    | .w k2 _ => !(k2 == k)
    | _ => true)

/-- Dict subscription in terms of lookupS. -/
theorem subscr_vdict (es : List (String × Value)) (k : String) :
    subscr (Value.vdict es) k =
      match lookupS es k with
      | some v => Except.ok v
      | none => Except.error (PyErr.keyError k) := by
  show (match es.find? (fun kv => kv.1 == k) with
    | some kv => Except.ok kv.2
    | none => Except.error (PyErr.keyError k)) = _
  induction es with
  | nil => rfl
  | cons hd tl ih =>
      obtain ⟨k1, v1⟩ := hd
      by_cases h : k1 = k
      · have hl : lookupS ((k1, v1) :: tl) k = some v1 := by
          show (if k1 = k then some v1 else lookupS tl k) = some v1
          rw [if_pos h]
        rw [List.find?_cons_of_pos _ (by simp [h]), hl]
      · have hl : lookupS ((k1, v1) :: tl) k = lookupS tl k := by
          show (if k1 = k then some v1 else lookupS tl k) = lookupS tl k
          rw [if_neg h]
        rw [List.find?_cons_of_neg _ (by simp [h]), hl]
        exact ih

/-- The common loop shape of the hydrate engine (stop at the first
exception, keep earlier writes): when the whole loop ends without an
exception, each element's own compilation ended without one and all of
its writes are in the loop's trace. -/
theorem loop_errfree_mem {α : Type} (f : α → CRes) (g : List α → CRes)
    (hcons : ∀ x rest, g (x :: rest) =
      match f x with
      | (ws, some e) => (ws, some e)
      | (ws, none) => (ws ++ (g rest).1, (g rest).2)) :
    ∀ (l : List α) (x : α), x ∈ l → (g l).2 = none →
      (f x).2 = none ∧ ∀ wr ∈ (f x).1, wr ∈ (g l).1 := by
  intro l
  induction l with
  | nil =>
      intro x hx
      exact absurd hx (List.not_mem_nil x)
  | cons y rest ih =>
      intro x hx herr
      rw [hcons] at herr
      cases hf : f y with
      | mk ws err =>
          rw [hf] at herr
          cases err with
          | some e => exact Option.noConfusion herr
          | none =>
              rcases List.mem_cons.mp hx with he | hm
              · subst he
                constructor
                · rw [hf]
                · intro wr hwr
                  rw [hcons, hf]
                  rw [hf] at hwr
                  exact List.mem_append_left _ hwr
              · obtain ⟨h1, h2⟩ := ih x hm herr
                refine ⟨h1, fun wr hwr => ?_⟩
                rw [hcons, hf]
                exact List.mem_append_right _ (h2 wr hwr)

/-- Once a key and its underscore twin are present with the same value,
the rest of a SAFE trace with no plain write to the key keeps them
present and equal: plain writes miss both keys, a pairW to the key
re-establishes the pair, and every seed guard that could touch either key
sees one of them present and skips. -/
theorem pair_preserved (l : List Wr) :
    ∀ (s : Store) (k : String) (u : Value),
    undK k = false → SAFE l = true → noPlainW l k = true →
    lookupS s k = some u → lookupS s ("_" ++ k) = some u →
    ∃ w, lookupS (applyWrs s l) k = some w ∧
         lookupS (applyWrs s l) ("_" ++ k) = some w := by
  induction l with
  | nil =>
      intro s k u _ _ _ hk huk
      exact ⟨u, hk, huk⟩
  | cons wr rest ih =>
      intro s k u hund hS hnoW hk huk
      rw [SAFE, List.all_cons, Bool.and_eq_true] at hS
      rw [noPlainW, List.all_cons, Bool.and_eq_true] at hnoW
      cases wr with
      | w k2 v =>
          have hk2 : (!(k2 == k)) = true := hnoW.1
          have hk2ne : k ≠ k2 := by
            intro e
            subst e
            simp at hk2
          have hk2und : undK k2 = false := by
            have h2 : (!undK k2) = true := hS.1
            simpa using h2
          refine ih (setKey s k2 v) k u hund hS.2 hnoW.2 ?_ ?_
          · rw [lookupS_setKey_ne s v hk2ne]
            exact hk
          · rw [lookupS_setKey_ne s v (ne_of_undK (undK_underscore k) hk2und)]
            exact huk
      | pairW k2 v =>
          have hk2und : undK k2 = false := by
            have h2 : (!undK k2) = true := hS.1
            simpa using h2
          by_cases he : k2 = k
          · refine ih (setKey (setKey s k2 v) ("_" ++ k2) v) k v hund
              hS.2 hnoW.2 ?_ ?_
            · rw [lookupS_setKey_ne _ _
                (Ne.symm (ne_of_undK (undK_underscore k2) hund))]
              rw [he, lookupS_setKey_self]
            · rw [he, lookupS_setKey_self]
          · refine ih (setKey (setKey s k2 v) ("_" ++ k2) v) k u hund
              hS.2 hnoW.2 ?_ ?_
            · rw [lookupS_setKey_ne _ _
                (Ne.symm (ne_of_undK (undK_underscore k2) hund)),
                lookupS_setKey_ne _ _ (fun e => he e.symm)]
              exact hk
            · rw [lookupS_setKey_ne _ _ (fun e => he (underscore_inj e).symm),
                lookupS_setKey_ne _ _ (ne_of_undK (undK_underscore k) hk2und)]
              exact huk
      | seed b vb vw =>
          have hck : containsKey s k = true := by
            rw [containsKey, hk]
            rfl
          have hcuk : containsKey s ("_" ++ k) = true := by
            rw [containsKey, huk]
            rfl
          by_cases hg : (containsKey s b || containsKey s (b ++ "_widget"))
              = true
          · have heq : applyOne s (Wr.seed b vb vw) = s := by
              simp only [applyOne, hg, if_true]
            show ∃ w, lookupS (applyWrs (applyOne s (Wr.seed b vb vw)) rest) k
                = some w ∧
              lookupS (applyWrs (applyOne s (Wr.seed b vb vw)) rest)
                ("_" ++ k) = some w
            rw [heq]
            exact ih s k u hund hS.2 hnoW.2 hk huk
          · have hbk : b ≠ k := by
              intro e
              exact hg (by rw [e, hck]; simp)
            have hbuk : b ≠ "_" ++ k := by
              intro e
              exact hg (by rw [e, hcuk]; simp)
            have hwk : b ++ "_widget" ≠ k := by
              intro e
              exact hg (by rw [e, hck]; simp)
            have hwuk : b ++ "_widget" ≠ "_" ++ k := by
              intro e
              exact hg (by rw [e, hcuk]; simp)
            have heq : applyOne s (Wr.seed b vb vw)
                = setKey (setKey (setKey s b vb) (b ++ "_widget") vw)
                  ("_" ++ (b ++ "_widget")) vw := by
              simp [applyOne, hg]
            show ∃ w, lookupS (applyWrs (applyOne s (Wr.seed b vb vw)) rest) k
                = some w ∧
              lookupS (applyWrs (applyOne s (Wr.seed b vb vw)) rest)
                ("_" ++ k) = some w
            rw [heq]
            refine ih _ k u hund hS.2 hnoW.2 ?_ ?_
            · rw [lookupS_setKey_ne _ _
                (Ne.symm (ne_of_undK (undK_underscore _) hund)),
                lookupS_setKey_ne _ _ (Ne.symm hwk),
                lookupS_setKey_ne _ _ (Ne.symm hbk)]
              exact hk
            · rw [lookupS_setKey_ne _ _
                (fun e => hwk (underscore_inj e).symm),
                lookupS_setKey_ne _ _ (Ne.symm hwuk),
                lookupS_setKey_ne _ _ (Ne.symm hbuk)]
              exact huk

/-- A pairW in a SAFE trace with no plain write to its key leaves the key
and its underscore twin present and equal after the whole trace runs. -/
theorem pairW_shadow (l : List Wr) (s : Store) (k : String) (v : Value)
    (hund : undK k = false) (hS : SAFE l = true)
    (hnoW : noPlainW l k = true) (hmem : Wr.pairW k v ∈ l) :
    ∃ u, lookupS (applyWrs s l) k = some u ∧
         lookupS (applyWrs s l) ("_" ++ k) = some u := by
  obtain ⟨l1, l2, rfl⟩ := List.append_of_mem hmem
  have hS2 : SAFE l2 = true := by
    rw [SAFE, List.all_append, List.all_cons] at hS
    simp only [Bool.and_eq_true] at hS
    exact hS.2.2
  have hnoW2 : noPlainW l2 k = true := by
    rw [noPlainW, List.all_append, List.all_cons] at hnoW
    simp only [Bool.and_eq_true] at hnoW
    exact hnoW.2.2
  have happ : applyWrs s (l1 ++ Wr.pairW k v :: l2)
      = applyWrs (applyOne (applyWrs s l1) (Wr.pairW k v)) l2 := by
    simp [applyWrs, List.foldl_append]
  rw [happ]
  refine pair_preserved l2 (applyOne (applyWrs s l1) (Wr.pairW k v)) k v
    hund hS2 hnoW2 ?_ ?_
  · show lookupS (setKey (setKey (applyWrs s l1) k v) ("_" ++ k) v) k
      = some v
    rw [lookupS_setKey_ne _ _ (Ne.symm (underscore_ne k)),
      lookupS_setKey_self]
  · show lookupS (setKey (setKey (applyWrs s l1) k v) ("_" ++ k) v)
      ("_" ++ k) = some v
    rw [lookupS_setKey_self]

end MC

namespace MC

/-- An inputs/outputs field of the training scope of an error-free
document compiles to its pairW in the document's trace. -/
theorem pairW_mem_training (data : List (String × Value))
    (items es : List (String × Value)) (ios : List Value)
    (entry fk : String) (srcV fv : Value)
    (hdata : ("training_data", Value.vdict items) ∈ data)
    (hlook : lookupS items "inputs_outputs_technical_specifications"
      = some (Value.vlist ios))
    (hio : Value.vdict es ∈ ios)
    (hent : lookupS es "entry" = some (Value.vstr entry))
    (hsrc : lookupS es "source" = some srcV)
    (hfk : (fk, fv) ∈ es) (hfk1 : fk ≠ "entry") (hfk2 : fk ≠ "source")
    (herr : (compileDoc data).2 = none) :
    Wr.pairW ("training_data_" ++ cleanLabel entry ++ "_" ++ pyStr srcV
      ++ "_" ++ fk) fv ∈ (compileDoc data).1 := by
  have herr2 : (compileSectionsGo data).2 = none := herr
  obtain ⟨hsecerr, hsecmem⟩ := loop_errfree_mem
    (fun kv => compileSection kv.1 kv.2) compileSectionsGo
    (fun x rest => by obtain ⟨a, b⟩ := x; rfl)
    data ("training_data", Value.vdict items) hdata herr2
  have hsecerr2 : (compileSection "training_data" (Value.vdict items)).2
      = none := hsecerr
  have hsecmem2 : ∀ wr ∈ (compileSection "training_data"
      (Value.vdict items)).1, wr ∈ (compileSectionsGo data).1 := hsecmem
  have hcsec : compileSection "training_data" (Value.vdict items)
      = compileTraining (Value.vdict items) := by
    unfold compileSection
    rw [if_pos rfl]
  have htr : compileTraining (Value.vdict items)
      = (trainingFieldWrites items
          ++ (compileIos true "training_data_" ios).1,
        (compileIos true "training_data_" ios).2) := by
    show (match iterVals (match lookupS items
          "inputs_outputs_technical_specifications" with
        | some v => v
        | none => Value.vlist []) with
      | .error e => (trainingFieldWrites items, some e)
      | .ok l =>
          (trainingFieldWrites items
            ++ (compileIos true "training_data_" l).1,
            (compileIos true "training_data_" l).2)) = _
    rw [hlook]
    rfl
  have hioserr : (compileIos true "training_data_" ios).2 = none := by
    have h2 := hsecerr2
    rw [hcsec, htr] at h2
    exact h2
  obtain ⟨hioerr, hiomem⟩ := loop_errfree_mem
    (compileIo true "training_data_") (compileIos true "training_data_")
    (fun x rest => rfl) ios (Value.vdict es) hio hioserr
  have hcio : compileIo true "training_data_" (Value.vdict es)
      = (ioFieldWrites "training_data_" (cleanLabel entry) srcV es,
          none) := by
    unfold compileIo
    rw [subscr_vdict, hent, subscr_vdict, hsrc]
    rfl
  have hWmem : Wr.pairW ("training_data_" ++ cleanLabel entry ++ "_"
      ++ pyStr srcV ++ "_" ++ fk) fv
      ∈ ioFieldWrites "training_data_" (cleanLabel entry) srcV es := by
    rw [ioFieldWrites]
    refine List.mem_flatMap.mpr ⟨(fk, fv), hfk, ?_⟩
    simp [hfk1, hfk2]
  have h3 : Wr.pairW ("training_data_" ++ cleanLabel entry ++ "_"
      ++ pyStr srcV ++ "_" ++ fk) fv
      ∈ (compileIos true "training_data_" ios).1 := by
    apply hiomem
    rw [hcio]
    exact hWmem
  have h4 : Wr.pairW ("training_data_" ++ cleanLabel entry ++ "_"
      ++ pyStr srcV ++ "_" ++ fk) fv
      ∈ (compileSectionsGo data).1 := by
    apply hsecmem2
    rw [hcsec, htr]
    exact List.mem_append_right _ h3
  exact List.mem_append_right
    (match lookupS data "task" with
      | some v => [Wr.w "task" v]
      | none => []) h4

/-- An inputs/outputs field of an evaluation scope of an error-free
document compiles to its pairW in the document's trace. -/
theorem pairW_mem_eval (data : List (String × Value))
    (entries : List Value) (es2 es : List (String × Value))
    (rawName entry fk : String) (ios : List Value) (srcV fv : Value)
    (hdata : ("evaluations", Value.vlist entries) ∈ data)
    (hentry2 : Value.vdict es2 ∈ entries)
    (hname : lookupS es2 "name" = some (Value.vstr rawName))
    (hfield : ("inputs_outputs_technical_specifications",
      Value.vlist ios) ∈ es2)
    (hio : Value.vdict es ∈ ios)
    (hent : lookupS es "entry" = some (Value.vstr entry))
    (hsrc : lookupS es "source" = some srcV)
    (hfk : (fk, fv) ∈ es) (hfk1 : fk ≠ "entry") (hfk2 : fk ≠ "source")
    (herr : (compileDoc data).2 = none) :
    Wr.pairW ("evaluation_" ++ pyReplace rawName " " "_" ++ "_"
      ++ cleanLabel entry ++ "_" ++ pyStr srcV ++ "_" ++ fk) fv
      ∈ (compileDoc data).1 := by
  have herr2 : (compileSectionsGo data).2 = none := herr
  obtain ⟨hsecerr, hsecmem⟩ := loop_errfree_mem
    (fun kv => compileSection kv.1 kv.2) compileSectionsGo
    (fun x rest => by obtain ⟨a, b⟩ := x; rfl)
    data ("evaluations", Value.vlist entries) hdata herr2
  have hsecerr2 : (compileSection "evaluations" (Value.vlist entries)).2
      = none := hsecerr
  have hsecmem2 : ∀ wr ∈ (compileSection "evaluations"
      (Value.vlist entries)).1, wr ∈ (compileSectionsGo data).1 := hsecmem
  have hcsec : compileSection "evaluations" (Value.vlist entries)
      = compileEvaluations (Value.vlist entries) := by
    unfold compileSection
    rw [if_neg (by decide), if_pos rfl]
  cases hnm : namesOf entries with
  | error e =>
      exfalso
      have h2 : compileEvaluations (Value.vlist entries)
          = ([], some e) := by
        show (match namesOf entries with
          | .error e2 => (([] : List Wr), some e2)
          | .ok names =>
              (Wr.w "evaluation_forms" (Value.vlist names)
                :: (compileEvalEntries entries).1,
                (compileEvalEntries entries).2)) = ([], some e)
        rw [hnm]
      have h3 := hsecerr2
      rw [hcsec, h2] at h3
      exact Option.noConfusion h3
  | ok names =>
      have hev : compileEvaluations (Value.vlist entries)
          = (Wr.w "evaluation_forms" (Value.vlist names)
              :: (compileEvalEntries entries).1,
              (compileEvalEntries entries).2) := by
        show (match namesOf entries with
          | .error e2 => (([] : List Wr), some e2)
          | .ok names2 =>
              (Wr.w "evaluation_forms" (Value.vlist names2)
                :: (compileEvalEntries entries).1,
                (compileEvalEntries entries).2)) = _
        rw [hnm]
      have heerr : (compileEvalEntries entries).2 = none := by
        have h2 := hsecerr2
        rw [hcsec, hev] at h2
        exact h2
      obtain ⟨hceerr, hcemem⟩ := loop_errfree_mem
        compileEvalEntry compileEvalEntries
        (fun x rest => rfl) entries (Value.vdict es2) hentry2 heerr
      have hcee : compileEvalEntry (Value.vdict es2)
          = compileEvalFieldsGo (pyReplace rawName " " "_")
              ("evaluation_" ++ pyReplace rawName " " "_" ++ "_") es2 := by
        unfold compileEvalEntry
        rw [subscr_vdict, hname]
      have hfgerr : (compileEvalFieldsGo (pyReplace rawName " " "_")
          ("evaluation_" ++ pyReplace rawName " " "_" ++ "_") es2).2
          = none := by
        have h2 := hceerr
        rw [hcee] at h2
        exact h2
      obtain ⟨hcferr, hcfmem⟩ := loop_errfree_mem
        (fun kv => compileEvalField (pyReplace rawName " " "_")
          ("evaluation_" ++ pyReplace rawName " " "_" ++ "_") kv.1 kv.2)
        (compileEvalFieldsGo (pyReplace rawName " " "_")
          ("evaluation_" ++ pyReplace rawName " " "_" ++ "_"))
        (fun x rest => by obtain ⟨a, b⟩ := x; rfl)
        es2 ("inputs_outputs_technical_specifications", Value.vlist ios)
        hfield hfgerr
      have hcferr2 : (compileEvalField (pyReplace rawName " " "_")
          ("evaluation_" ++ pyReplace rawName " " "_" ++ "_")
          "inputs_outputs_technical_specifications"
          (Value.vlist ios)).2 = none := hcferr
      have hcfmem2 : ∀ wr ∈ (compileEvalField (pyReplace rawName " " "_")
          ("evaluation_" ++ pyReplace rawName " " "_" ++ "_")
          "inputs_outputs_technical_specifications"
          (Value.vlist ios)).1,
          wr ∈ (compileEvalFieldsGo (pyReplace rawName " " "_")
            ("evaluation_" ++ pyReplace rawName " " "_" ++ "_") es2).1
          := hcfmem
      have hcef : compileEvalField (pyReplace rawName " " "_")
          ("evaluation_" ++ pyReplace rawName " " "_" ++ "_")
          "inputs_outputs_technical_specifications" (Value.vlist ios)
          = compileIos false
              ("evaluation_" ++ pyReplace rawName " " "_" ++ "_") ios := by
        unfold compileEvalField
        rw [if_pos rfl]
        rfl
      have hioserr : (compileIos false
          ("evaluation_" ++ pyReplace rawName " " "_" ++ "_") ios).2
          = none := by
        have h2 := hcferr2
        rw [hcef] at h2
        exact h2
      obtain ⟨hioerr, hiomem⟩ := loop_errfree_mem
        (compileIo false ("evaluation_" ++ pyReplace rawName " " "_" ++ "_"))
        (compileIos false ("evaluation_" ++ pyReplace rawName " " "_" ++ "_"))
        (fun x rest => rfl) ios (Value.vdict es) hio hioserr
      have hsub1 : subscr (Value.vdict es) "entry"
          = Except.ok (Value.vstr entry) := by
        rw [subscr_vdict, hent]
      have hsub2 : subscr (Value.vdict es) "source"
          = Except.ok srcV := by
        rw [subscr_vdict, hsrc]
      have hcio0 : compileIo false
          ("evaluation_" ++ pyReplace rawName " " "_" ++ "_")
          (Value.vdict es)
          = (if (false || isVStr srcV
              || es.all (fun kv =>
                  kv.1 = "entry" || kv.1 = "source")) = true then
              (ioFieldWrites
                ("evaluation_" ++ pyReplace rawName " " "_" ++ "_")
                (cleanLabel entry) srcV es, (none : Option PyErr))
            else ([], some PyErr.typeError)) := by
        unfold compileIo
        conv_lhs => rw [hsub1]
        conv_lhs => rw [hsub2]
      by_cases hg : (false || isVStr srcV
          || es.all (fun kv => kv.1 = "entry" || kv.1 = "source")) = true
      · have hcio : compileIo false
            ("evaluation_" ++ pyReplace rawName " " "_" ++ "_")
            (Value.vdict es)
            = (ioFieldWrites
                ("evaluation_" ++ pyReplace rawName " " "_" ++ "_")
                (cleanLabel entry) srcV es, none) := by
          rw [hcio0, if_pos hg]
        have hWmem : Wr.pairW ("evaluation_" ++ pyReplace rawName " " "_"
            ++ "_" ++ cleanLabel entry ++ "_" ++ pyStr srcV ++ "_" ++ fk) fv
            ∈ ioFieldWrites
              ("evaluation_" ++ pyReplace rawName " " "_" ++ "_")
              (cleanLabel entry) srcV es := by
          rw [ioFieldWrites]
          refine List.mem_flatMap.mpr ⟨(fk, fv), hfk, ?_⟩
          simp [hfk1, hfk2]
        have h3 : Wr.pairW ("evaluation_" ++ pyReplace rawName " " "_"
            ++ "_" ++ cleanLabel entry ++ "_" ++ pyStr srcV ++ "_" ++ fk) fv
            ∈ (compileIos false
              ("evaluation_" ++ pyReplace rawName " " "_" ++ "_") ios).1
            := by
          apply hiomem
          rw [hcio]
          exact hWmem
        have h4 : Wr.pairW ("evaluation_" ++ pyReplace rawName " " "_"
            ++ "_" ++ cleanLabel entry ++ "_" ++ pyStr srcV ++ "_" ++ fk) fv
            ∈ (compileEvalFieldsGo (pyReplace rawName " " "_")
              ("evaluation_" ++ pyReplace rawName " " "_" ++ "_") es2).1
            := by
          apply hcfmem2
          rw [hcef]
          exact h3
        have h5 : Wr.pairW ("evaluation_" ++ pyReplace rawName " " "_"
            ++ "_" ++ cleanLabel entry ++ "_" ++ pyStr srcV ++ "_" ++ fk) fv
            ∈ (compileEvalEntries entries).1 := by
          apply hcemem
          rw [hcee]
          exact h4
        have h6 : Wr.pairW ("evaluation_" ++ pyReplace rawName " " "_"
            ++ "_" ++ cleanLabel entry ++ "_" ++ pyStr srcV ++ "_" ++ fk) fv
            ∈ (compileSectionsGo data).1 := by
          apply hsecmem2
          rw [hcsec, hev]
          exact List.mem_cons_of_mem _ h5
        exact List.mem_append_right
          (match lookupS data "task" with
            | some v => [Wr.w "task" v]
            | none => []) h6
      · exfalso
        rw [hcio0, if_neg hg] at hioerr
        exact Option.noConfusion hioerr

end MC

namespace MC

/-- C10: hydrate writes underscore-shadow keys for inputs/outputs fields.
For every inputs/outputs technical-specification field restored by an
error-free hydration — whether the io entry sits in the training_data
scope or in an evaluation entry's scope — the hydrated store holds the
field under its plain flat key AND under the same key prefixed with an
underscore, and the two keys hold equal values.  Hypotheses: the io entry
is a dict with a string "entry" label and a "source", the field is not
entry/source, every top-level section name is nonempty and does not start
with an underscore (so the trace is SAFE), the whole document hydrates
without an exception, and no other write of the document targets the
derived plain key with a plain (non-paired) write. -/
theorem C10_io_underscore_shadow (s : Store) (data : List (String × Value))
    (P : String) (es : List (String × Value)) (entry fk : String)
    (srcV fv : Value)
    (hscope :
      (P = "training_data_" ∧ ∃ items ios,
        ("training_data", Value.vdict items) ∈ data ∧
        lookupS items "inputs_outputs_technical_specifications"
          = some (Value.vlist ios) ∧
        Value.vdict es ∈ ios)
      ∨ (∃ entries es2 rawName ios,
        P = "evaluation_" ++ pyReplace rawName " " "_" ++ "_" ∧
        ("evaluations", Value.vlist entries) ∈ data ∧
        Value.vdict es2 ∈ entries ∧
        lookupS es2 "name" = some (Value.vstr rawName) ∧
        ("inputs_outputs_technical_specifications", Value.vlist ios) ∈ es2 ∧
        Value.vdict es ∈ ios))
    (hent : lookupS es "entry" = some (Value.vstr entry))
    (hsrc : lookupS es "source" = some srcV)
    (hfk : (fk, fv) ∈ es) (hfk1 : fk ≠ "entry") (hfk2 : fk ≠ "source")
    (hsec : ∀ kv ∈ data, goodKey kv.1)
    (herr : (compileDoc data).2 = none)
    (hnoW : noPlainW (compileDoc data).1
      (P ++ cleanLabel entry ++ "_" ++ pyStr srcV ++ "_" ++ fk) = true) :
    ∃ u, lookupS (populate_session_state_from_json s data).1
          (P ++ cleanLabel entry ++ "_" ++ pyStr srcV ++ "_" ++ fk) = some u
      ∧ lookupS (populate_session_state_from_json s data).1
          ("_" ++ (P ++ cleanLabel entry ++ "_" ++ pyStr srcV ++ "_" ++ fk))
          = some u := by
  have hgood : goodKey P := by
    rcases hscope with ⟨hP, _⟩ | ⟨_, _, rawName, _, hP, _⟩
    · rw [hP]
      exact ⟨by decide, by decide⟩
    · rw [hP]
      exact goodKey_app "_"
        (goodKey_app (pyReplace rawName " " "_") ⟨by decide, by decide⟩)
  have hundk : undK (P ++ cleanLabel entry ++ "_" ++ pyStr srcV ++ "_"
      ++ fk) = false :=
    (goodKey_app fk (goodKey_app "_" (goodKey_app (pyStr srcV)
      (goodKey_app "_" (goodKey_app (cleanLabel entry) hgood))))).2
  have hmem : Wr.pairW (P ++ cleanLabel entry ++ "_" ++ pyStr srcV ++ "_"
      ++ fk) fv ∈ (compileDoc data).1 := by
    rcases hscope with ⟨hP, items, ios, h1, h2, h3⟩
      | ⟨entries, es2, rawName, ios, hP, h1, h2, h3, h4, h5⟩
    · rw [hP]
      exact pairW_mem_training data items es ios entry fk srcV fv
        h1 h2 h3 hent hsrc hfk hfk1 hfk2 herr
    · rw [hP]
      exact pairW_mem_eval data entries es2 es rawName entry fk ios srcV fv
        h1 h2 h3 h4 h5 hent hsrc hfk hfk1 hfk2 herr
  exact pairW_shadow (compileDoc data).1 s
    (P ++ cleanLabel entry ++ "_" ++ pyStr srcV ++ "_" ++ fk) fv
    hundk (safe_compileDoc data hsec) hnoW hmem

/-- A concrete document with one training-scope inputs/outputs entry. -/
def esC10 : List (String × Value) :=
  [("entry", .vstr "CT"), ("source", .vstr "dicom"),
    ("shape", .vstr "512")]

def docC10 : List (String × Value) :=
  [("training_data", .vdict
    [("inputs_outputs_technical_specifications", .vlist [.vdict esC10])])]

/-- C10 witness: the theorem applied to a concrete document. -/
theorem C10_witness :
    ∃ u, lookupS (populate_session_state_from_json [] docC10).1
          ("training_data_" ++ cleanLabel "CT" ++ "_"
            ++ pyStr (Value.vstr "dicom") ++ "_" ++ "shape") = some u
      ∧ lookupS (populate_session_state_from_json [] docC10).1
          ("_" ++ ("training_data_" ++ cleanLabel "CT" ++ "_"
            ++ pyStr (Value.vstr "dicom") ++ "_" ++ "shape")) = some u :=
  C10_io_underscore_shadow [] docC10 "training_data_" esC10 "CT" "shape"
    (Value.vstr "dicom") (Value.vstr "512")
    (Or.inl ⟨rfl,
      [("inputs_outputs_technical_specifications",
        Value.vlist [Value.vdict esC10])],
      [Value.vdict esC10], by decide, by decide, by decide⟩)
    (by decide) (by decide) (by decide) (by decide) (by decide)
    (fun kv hkv => by
      rcases List.mem_singleton.mp hkv with rfl
      exact ⟨by decide, by decide⟩)
    (by decide) (by decide)

end MC

namespace MC

/-! ## The flatten engine (app/services/serialization.py,
app/services/evaluations_extractor.py) and the validation engine
(app/services/validation.py).

Both engines read the schema and four constant tables from
app/core/model_card/constants.py, which is not part of the staged
sources; the engines below are parameterized over those tables (a Consts
value), and a concrete table modelled from the spec is used only for
witnesses. -/

/-- Lookup in an association list (Python dict read, first match). -/
def alook {α : Type} : List (String × α) → String → Option α
  | [], _ => none
  | kv :: rest, k => if kv.1 = k then some kv.2 else alook rest k

/-- Python str.removeprefix. -/
def dropPfx (s p : String) : String :=
  if startsWithS s p then String.mk (s.data.drop p.data.length) else s

/-- ASCII upper-casing of one character. -/
def upperChar (c : Char) : Char :=
  if 97 ≤ c.toNat && c.toNat ≤ 122 then Char.ofNat (c.toNat - 32) else c

def isAsciiAlpha (c : Char) : Bool :=
  (65 ≤ c.toNat && c.toNat ≤ 90) || (97 ≤ c.toNat && c.toNat ≤ 122)

/-- Python str.title() over ASCII letters: the first letter of every
cased run is upper-cased, the rest lower-cased. -/
def titleGo : Bool → List Char → List Char
  | _, [] => []
  | prevCased, c :: rest =>
      let cased := isAsciiAlpha c
      (if cased then (if prevCased then lowerChar c else upperChar c)
        else c) :: titleGo cased rest

def pyTitle (s : String) : String := String.mk (titleGo false s.data)

/-- The leading chunk of s.split(pat)[0]: the characters before the first
occurrence of pat (the whole string when pat does not occur). -/
def splitHeadL (pat : List Char) : List Char → List Char
  | [] => []
  | c :: rest =>
      if startsWithL pat (c :: rest) then []
      else c :: splitHeadL pat rest

def splitHead (s pat : String) : String :=
  String.mk (splitHeadL pat.data s.data)

/-- Python len(v) (TypeError on values with no length). -/
def pyLen : Value → Except PyErr Nat
  | .vstr t => .ok t.data.length
  | .vlist l => .ok l.length
  | .vdict d => .ok d.length
  | _ => .error .typeError

/-- Whether `task in allowed` holds for a session-state task value and a
list of allowed task names (Python == between the value and each str). -/
def taskInV (v : Value) (allowed : List String) : Bool :=
  match v with
  | .vstr t => allowed.contains t
  | _ => false

mutual
/-- Values with no datetime.date anywhere inside (json.dumps raises
TypeError exactly on such objects among our Value constructors). -/
def dateFreeV : Value → Bool
  | .vdate _ => false
  | .vlist l => dateFreeL l
  | .vdict d => dateFreeD d
  | _ => true

def dateFreeL : List Value → Bool
  | [] => true
  | v :: rest => dateFreeV v && dateFreeL rest

def dateFreeD : List (String × Value) → Bool
  | [] => true
  | kv :: rest => dateFreeV kv.2 && dateFreeD rest
end

/-- Properties of one schema field.  Modelled from the spec: the schema
constant lives in app/core/model_card/constants.py, which is not among
the staged sources; the engines only read these four properties. -/
structure FieldProps where
  label : Option String
  required : Bool
  ftype : Option String
  model_types : Option (List String)
deriving Repr, DecidableEq

/-- A schema section: a list of full flat keys, or a map of field keys to
properties.  Modelled from the spec. -/
inductive SchemaSection where
  | slist (keys : List String)
  | smap (fields : List (String × FieldProps))
deriving Repr, DecidableEq

abbrev Schema := List (String × SchemaSection)

/-- The constant tables of app/core/model_card/constants.py (not among
the staged sources): the engines are parameterized over them.  Modelled
from the spec: DATA_INPUT_OUTPUT_TS maps io field keys to labels,
EVALUATION_METRIC_FIELDS maps metric types to their field keys,
LEARNING_ARCHITECTURE maps architecture fields to default values,
TASK_METRIC_MAP maps task names to metric types, and SCHEMA is the app
schema. -/
structure Consts where
  DATA_INPUT_OUTPUT_TS : List (String × String)
  EVALUATION_METRIC_FIELDS : List (String × List String)
  LEARNING_ARCHITECTURE : List (String × Value)
  TASK_METRIC_MAP : List (String × List String)
  SCHEMA : Schema

/-- Error-propagating map. -/
def mapME {α β : Type} (f : α → Except PyErr β) :
    List α → Except PyErr (List β)
  | [] => .ok []
  | a :: rest =>
      match f a with
      | .error e => .error e
      | .ok b =>
          match mapME f rest with
          | .error e => .error e
          | .ok bs => .ok (b :: bs)

end MC

namespace MC

/-! ## app/services/serialization.py -/

/-- _get_with_fallback(key): session value with underscore fallback
(source: app/services/serialization.py lines 24-40). -/
def _get_with_fallback (s : Store) (key : String) : Value :=
  orV (getD s key .vnone) (orV (getD s ("_" ++ key) .vnone) (.vstr ""))

/-- _iter_modalities(): (modality, source) pairs from list values under
keys ending in model_inputs / model_outputs, in store order (the source
wraps each pair in a two-key dict that is consumed immediately; the pair
carries the same data)
(source: app/services/serialization.py lines 43-61). -/
def _iter_modalities (s : Store) : List (Value × String) :=
  s.flatMap (fun kv =>
    match kv.2 with
    | .vlist items =>
        if endsWithS kv.1 "model_inputs" then
          items.map (fun item => (item, "model_inputs"))
        else if endsWithS kv.1 "model_outputs" then
          items.map (fun item => (item, "model_outputs"))
        else []
    | _ => [])

/-- The model_types gate: "allowed is None or current_task in allowed"
(source: app/services/serialization.py lines 87-88). -/
def mtAllows (mt : Option (List String)) (task : Option Value) : Bool :=
  match mt with
  | none => true
  | some allowed =>
      match task with
      | some v => taskInV v allowed
      | none => false

/-- One section's raw dict (the body of the _collect_raw_sections loop,
source: app/services/serialization.py lines 79-90). -/
def collectSect (s : Store) (task : Option Value) (sec : String) :
    SchemaSection → List (String × Value)
  | .slist keys =>
      keys.foldl (fun sect full_key =>
        setKey sect (dropPfx full_key (sec ++ "_"))
          (getD s full_key (.vstr ""))) []
  | .smap fields =>
      fields.foldl (fun sect f =>
        if mtAllows f.2.model_types task then
          setKey sect f.1 (getD s (sec ++ "_" ++ f.1) (.vstr ""))
        else sect) []

/-- Python dict assignment d[k] = v for an association list of any value
type (same semantics as setKey: in-place update keeps the position, a new
key is appended). -/
def aset {α : Type} : List (String × α) → String → α → List (String × α)
  | [], k, v => [(k, v)]
  | kv :: rest, k, v =>
      if kv.1 = k then (k, v) :: rest else kv :: aset rest k v

/-- _collect_raw_sections(schema, current_task)
(source: app/services/serialization.py lines 64-91). -/
def _collect_raw_sections (s : Store) (schema : Schema)
    (task : Option Value) : List (String × List (String × Value)) :=
  schema.foldl (fun raw seckv =>
    aset raw seckv.1 (collectSect s task seckv.1 seckv.2)) []

end MC

namespace MC

/-- _build_learning_architectures()
(source: app/services/serialization.py lines 94-110): one dict per
registered form index, each LEARNING_ARCHITECTURE field read from the
indexed key with the table's default, plus id = i.  len() of a
non-sized learning_architecture_forms value raises TypeError. -/
def _build_learning_architectures (c : Consts) (s : Store) :
    Except PyErr (List (List (String × Value))) :=
  match pyLen (getD s "learning_architecture_forms" (.vdict [])) with
  | .error e => .error e
  | .ok n =>
      .ok ((List.range n).map (fun i =>
        let pfx := "learning_architecture_" ++ String.mk (natDigits i) ++ "_"
        setKey
          (c.LEARNING_ARCHITECTURE.map (fun fkv =>
            (fkv.1, getD s (pfx ++ fkv.1) fkv.2)))
          "id" (.vint i)))

/-- The leading task entry: structured["task"] = current_task when the
task is truthy (source: app/services/serialization.py lines 130-132). -/
def taskEntry (task : Option Value) : List (String × Value) :=
  match task with
  | some v => if truthy v then [("task", v)] else []
  | none => []

/-- _base_structured(raw, current_task, learning_architectures)
(source: app/services/serialization.py lines 113-152): task (when
truthy), then the three fixed sections in order; the learning
architectures are stored into the technical_specifications dict, raising
KeyError when the schema produced no such section; hw_and_sw and
training_data follow. -/
def _base_structured (raw : List (String × List (String × Value)))
    (task : Option Value) (las : List (List (String × Value))) :
    Except PyErr (List (String × Value)) :=
  let st0 : List (String × Value) := taskEntry task
  let st1 := ["card_metadata", "model_basic_information",
    "technical_specifications"].foldl (fun acc sec =>
      match alook raw sec with
      | some sect => setKey acc sec (.vdict sect)
      | none => acc) st0
  match alook raw "technical_specifications" with
  | none => .error (.keyError "technical_specifications")
  | some ts =>
      let ts2 := setKey ts "learning_architectures"
        (.vlist (las.map Value.vdict))
      let ts3 := match alook raw "hw_and_sw" with
        | some sect => setKey ts2 "hw_and_sw" (.vdict sect)
        | none => ts2
      let st2 := setKey st1 "technical_specifications" (.vdict ts3)
      let st3 := match alook raw "training_data" with
        | some sect => setKey st2 "training_data" (.vdict sect)
        | none => st2
      .ok st3

/-- One io detail dict of the flatten side: entry/source, then every
DATA_INPUT_OUTPUT_TS field from the derived key with underscore fallback;
a non-str modality raises AttributeError at .strip()
(source: app/services/serialization.py lines 169-177). -/
def ioDetail (c : Consts) (s : Store) (P : String) (modality : Value)
    (src : String) : Except PyErr (List (String × Value)) :=
  match modality with
  | .vstr m =>
      let clean := cleanLabel m
      .ok (c.DATA_INPUT_OUTPUT_TS.foldl (fun d f =>
        setKey d f.1 (_get_with_fallback s
          (P ++ clean ++ "_" ++ src ++ "_" ++ f.1)))
        [("entry", .vstr m), ("source", .vstr src)])
  | _ => .error .attributeError

/-- _inject_training_iots(raw, structured)
(source: app/services/serialization.py lines 155-190).  The structured
training_data dict is the same object as raw's (set in _base_structured),
so the io list lands in it before the insert_after splice; when raw has
no training_data the splice starts from a fresh empty dict. -/
def _inject_training_iots (c : Consts) (s : Store)
    (structured : List (String × Value)) :
    Except PyErr (List (String × Value)) :=
  match mapME (fun ms => ioDetail c s "training_data_" ms.1 ms.2)
      (_iter_modalities s) with
  | .error e => .error e
  | .ok io_details =>
      let iosV := Value.vlist (io_details.map Value.vdict)
      match lookupS structured "training_data" with
      | some (.vdict td) =>
          .ok (setKey structured "training_data"
            (.vdict (insert_after
              (setKey td "inputs_outputs_technical_specifications" iosV)
              "inputs_outputs_technical_specifications" iosV "url_info")))
      | _ =>
          .ok (setKey structured "training_data"
            (.vdict (insert_after []
              "inputs_outputs_technical_specifications" iosV "url_info")))

end MC

namespace MC

/-! ## app/services/evaluations_extractor.py -/

/-- TASK_METRIC_MAP.get(task, []): an unhashable task value (list/dict)
raises TypeError; any other non-str hashable value misses the str keys.
-/
def taskGet (c : Consts) (task : Value) : Except PyErr (List String) :=
  match task with
  | .vlist _ => .error .typeError
  | .vdict _ => .error .typeError
  | .vstr t => .ok ((alook c.TASK_METRIC_MAP t).getD [])
  | _ => .ok []

/-- The evaluation field list of the extractor: SCHEMA["evaluation_data"]
filtered by model_types against the raw task value when it is a dict,
taken as-is when it is a list, empty when absent
(source: app/services/evaluations_extractor.py lines 38-49). -/
def iterFieldsOf (c : Consts) (task : Value) : List String :=
  match alook c.SCHEMA "evaluation_data" with
  | some (.smap fields) =>
      fields.filterMap (fun f =>
        match f.2.model_types with
        | none => some f.1
        | some allowed => if taskInV task allowed then some f.1 else none)
  | some (.slist keys) => keys
  | none => []

/-- The per-evaluation field loop of the extractor, with the
same-as-approved overwrite that runs after every field write while the
flag value already stored in the evaluation dict is truthy
(source: app/services/evaluations_extractor.py lines 51-74). -/
def extractFieldsGo (s : Store) (pfx : String) :
    List (String × Value) → List String → List (String × Value)
  | ev, [] => ev
  | ev, field :: rest =>
      if startsWithS field "evaluated_by_" && containsKey ev field then
        extractFieldsGo s pfx ev rest
      else
        let ev1 := setKey ev field (getD s (pfx ++ field) (.vstr ""))
        let ev2 :=
          if truthy ((lookupS ev1 "evaluated_same_as_approved").getD
              (.vbool false)) then
            setKey (setKey (setKey ev1
              "evaluated_by_name"
              (getD s "model_basic_information_clearance_approved_by_name"
                (.vstr "")))
              "evaluated_by_institution"
              (getD s
                "model_basic_information_clearance_approved_by_institution"
                (.vstr "")))
              "evaluated_by_contact_email"
              (getD s
                "model_basic_information_clearance_approved_by_contact_email"
                (.vstr ""))
          else ev1
        extractFieldsGo s pfx ev2 rest

/-- One io detail of the extractor: triple fallback through the
underscore and double-underscore twins
(source: app/services/evaluations_extractor.py lines 93-110). -/
def ioDetail3 (c : Consts) (s : Store) (pfx : String) (modality : Value)
    (src : String) : Except PyErr (List (String × Value)) :=
  match modality with
  | .vstr m =>
      let clean := cleanLabel m
      .ok (c.DATA_INPUT_OUTPUT_TS.foldl (fun d f =>
        let k := pfx ++ clean ++ "_" ++ src ++ "_" ++ f.1
        setKey d f.1 (orV (getD s k .vnone)
          (orV (getD s ("_" ++ k) .vnone)
            (orV (getD s ("__" ++ k) .vnone) (.vstr ""))))) 
        [("entry", .vstr m), ("source", .vstr src)])
  | _ => .error .attributeError

/-- One metric entry of the extractor: name plus the metric type's fields
from the dot-prefixed keys; a metric type missing from
EVALUATION_METRIC_FIELDS raises KeyError (only reached when the metric
list is nonempty)
(source: app/services/evaluations_extractor.py lines 125-130). -/
def extractMetricEntry (c : Consts) (s : Store) (nested mk0 : String)
    (metric_name : Value) : Except PyErr (List (String × Value)) :=
  match alook c.EVALUATION_METRIC_FIELDS mk0 with
  | none => .error (.keyError mk0)
  | some emf =>
      .ok (emf.foldl (fun m field =>
        setKey m field (getD s
          (nested ++ pyStr metric_name ++ "_" ++ field) (.vstr "")))
        [("name", metric_name)])

/-- The metric_dic loop of the extractor
(source: app/services/evaluations_extractor.py lines 119-130). -/
def extractMetricsGo (c : Consts) (s : Store) (nested pfx : String)
    (acc : List (String × Value)) :
    List String → Except PyErr (List (String × Value))
  | [] => .ok acc
  | mk0 :: rest =>
      match iterVals (getD s (pfx ++ mk0 ++ "_list") (.vlist [])) with
      | .error e => .error e
      | .ok entries =>
          match mapME (extractMetricEntry c s nested mk0) entries with
          | .error e => .error e
          | .ok ems =>
              extractMetricsGo c s nested pfx
                (setKey acc mk0 (.vlist (ems.map Value.vdict))) rest

/-- One evaluation of extract_evaluations_from_state
(source: app/services/evaluations_extractor.py lines 32-138): a non-str
name raises AttributeError at .replace. -/
def extractOneEval (c : Consts) (s : Store) (task : Value)
    (iter_fields : List String) (nameV : Value) :
    Except PyErr (List (String × Value)) :=
  match nameV with
  | .vstr nm =>
      let slug := pyReplace nm " " "_"
      let pfx := "evaluation_" ++ slug ++ "_"
      let nested := "evaluation_" ++ slug ++ "."
      let ev1 := extractFieldsGo s pfx [("name", Value.vstr nm)] iter_fields
      match mapME (fun ms => ioDetail3 c s pfx ms.1 ms.2)
          (_iter_modalities s) with
      | .error e => .error e
      | .ok ds =>
          let ev2 := insert_after ev1
            "inputs_outputs_technical_specifications"
            (.vlist (ds.map Value.vdict)) "url_info"
          match taskGet c task with
          | .error e => .error e
          | .ok mts =>
              match extractMetricsGo c s nested pfx [] mts with
              | .error e => .error e
              | .ok mdic =>
                  .ok (insert_dict_after ev2 mdic
                    "additional_patient_info_ev")
  | _ => .error .attributeError

/-- extract_evaluations_from_state()
(source: app/services/evaluations_extractor.py lines 21-140). -/
def extract_evaluations_from_state (c : Consts) (s : Store) :
    Except PyErr (List (List (String × Value))) :=
  let task := getD s "task" (.vstr "Other")
  match iterVals (getD s "evaluation_forms" (.vlist [])) with
  | .error e => .error e
  | .ok names =>
      mapME (extractOneEval c s task (iterFieldsOf c task)) names

/-- One metric of _attach_metrics: name plus fields from the
underscore-separated (not dot-separated) raw-name keys with underscore
fallback (source: app/services/serialization.py lines 213-219). -/
def attachMetricEntry (c : Consts) (s : Store) (nameV : Value)
    (mt : String) (mn : Value) : Except PyErr (List (String × Value)) :=
  match alook c.EVALUATION_METRIC_FIELDS mt with
  | none => .error (.keyError mt)
  | some emf =>
      .ok (emf.foldl (fun m field =>
        setKey m field (_get_with_fallback s
          ("evaluation_" ++ pyStr nameV ++ "_" ++ pyStr mn ++ "_"
            ++ field))) [("name", mn)])

/-- The metric attachment loop over one evaluation dict
(source: app/services/serialization.py lines 208-221): the list key uses
the evaluation's raw (unslugged) name, and empty metric lists attach
nothing. -/
def attachMetricsGo (c : Consts) (s : Store) (nameV : Value) :
    List (String × Value) → List String
    → Except PyErr (List (String × Value))
  | ev, [] => .ok ev
  | ev, mt :: rest =>
      match iterVals (getD s
          ("evaluation_" ++ pyStr nameV ++ "_" ++ mt ++ "_list")
          (.vlist [])) with
      | .error e => .error e
      | .ok mnames =>
          match mapME (attachMetricEntry c s nameV mt) mnames with
          | .error e => .error e
          | .ok metrics =>
              attachMetricsGo c s nameV
                (if metrics.isEmpty then ev
                  else setKey ev mt (.vlist (metrics.map Value.vdict)))
                rest

/-- _attach_metrics(structured, current_task)
(source: app/services/serialization.py lines 193-221): extraction, then
the task-normalised metric map drives per-evaluation attachment; a truthy
non-str task raises AttributeError at .strip(). -/
def _attach_metrics (c : Consts) (s : Store)
    (structured : List (String × Value)) (task : Option Value) :
    Except PyErr (List (String × Value)) :=
  match extract_evaluations_from_state c s with
  | .error e => .error e
  | .ok evals =>
      match (match task with
        | some v =>
            if truthy v then
              (match v with
                | .vstr t => Except.ok (pyLower (pyStrip t))
                | _ => Except.error PyErr.attributeError)
            else .ok ""
        | none => .ok "") with
      | .error e => .error e
      | .ok tnorm =>
          let mts := (alook c.TASK_METRIC_MAP tnorm).getD []
          match mapME (fun ev => attachMetricsGo c s
              ((lookupS ev "name").getD (.vstr "")) ev mts) evals with
          | .error e => .error e
          | .ok evals2 =>
              .ok (setKey structured "evaluations"
                (.vlist (evals2.map Value.vdict)))

/-- parse_into_json(schema)
(source: app/services/serialization.py lines 224-245), producing the
structured document: collect, learning architectures, base, io
injection, metric attachment, other_considerations, and the json.dumps
serializability gate (dumps raises TypeError exactly when a
datetime.date remains among the values; the textual JSON rendering
itself carries no further failure and is omitted). -/
def parse_into_json (c : Consts) (schema : Schema) (s : Store) :
    Except PyErr (List (String × Value)) :=
  let task := lookupS s "task"
  let raw := _collect_raw_sections s schema task
  match _build_learning_architectures c s with
  | .error e => .error e
  | .ok las =>
      match _base_structured raw task las with
      | .error e => .error e
      | .ok st1 =>
          match _inject_training_iots c s st1 with
          | .error e => .error e
          | .ok st2 =>
              match _attach_metrics c s st2 task with
              | .error e => .error e
              | .ok st3 =>
                  let st4 := match alook raw "other_considerations" with
                    | some sect => setKey st3 "other_considerations"
                        (.vdict sect)
                    | none => st3
                  if dateFreeD st4 then .ok st4 else .error .typeError

end MC

namespace MC

/-! ## app/services/validation.py -/

abbrev MissingItem := String × String

/-- Error-propagating concat-map (the validation loops stop at the first
uncaught exception). -/
def flatMapME {α β : Type} (f : α → Except PyErr (List β)) :
    List α → Except PyErr (List β)
  | [] => .ok []
  | a :: rest =>
      match f a with
      | .error e => .error e
      | .ok l =>
          match flatMapME f rest with
          | .error e => .error e
          | .ok ls => .ok (l ++ ls)

/-- is_empty(value): membership in ("", None, [], {}) by Python equality
(source: app/services/validation.py lines 24-33). -/
def is_empty (v : Value) : Bool :=
  beqV v (.vstr "") || beqV v .vnone || beqV v (.vlist [])
    || beqV v (.vdict [])

/-- _has_required_image(full_key) against a file-existence oracle fsx
(source: app/services/validation.py lines 36-51): a non-dict
render_uploads value, or a truthy non-dict record, raises AttributeError
(uncaught); a non-str path raises TypeError inside the try and yields
False. -/
def _has_required_image (s : Store) (fsx : String → Bool)
    (full_key : String) : Except PyErr Bool :=
  match getD s "render_uploads" (.vdict []) with
  | .vdict d =>
      match alook d full_key with
      | none => .ok false
      | some rv =>
          if !truthy rv then .ok false
          else
            match rv with
            | .vdict rd =>
                (match (lookupS rd "path").getD (.vstr "") with
                  | .vstr p => .ok (fsx p)
                  | _ => .ok false)
            | _ => .error .attributeError
  | _ => .error .attributeError

/-- _label_for(props, key)
(source: app/services/validation.py lines 54-65). -/
def _label_for (props : FieldProps) (key : String) : String :=
  pyTitle (pyReplace
    (match props.label with
      | some l => if l = "" then key else l
      | none => key) "_" " ")

/-- _field_required_for_task(props, current_task)
(source: app/services/validation.py lines 68-88). -/
def _field_required_for_task (props : FieldProps) (task : Option Value) :
    Bool :=
  props.required &&
    (match props.model_types with
      | none => true
      | some allowed =>
          match task with
          | some v => truthy v && taskInV v allowed
          | none => false)

/-- One static field check (the inner loop body of validate_static_fields,
source: app/services/validation.py lines 139-160). -/
def staticFieldCheck (c : Consts) (s : Store) (fsx : String → Bool)
    (task : Option Value) (sec key : String) (props : FieldProps) :
    Except PyErr (List MissingItem) :=
  if ["input_content_rtstruct_subtype",
      "output_content_rtstruct_subtype"].contains key
    || ((c.DATA_INPUT_OUTPUT_TS.map Prod.fst).contains key
        && ["training_data",
          "evaluation_data_methodology_results_commisioning"].contains sec)
  then .ok []
  else if !(_field_required_for_task props task) then .ok []
  else
    let full_key := sec ++ "_" ++ key
    if pyLower (props.ftype.getD "") = "image" then
      match _has_required_image s fsx full_key with
      | .error e => .error e
      | .ok b => .ok (if b then [] else [(sec, _label_for props key)])
    else
      .ok (if is_empty ((lookupS s full_key).getD .vnone) then
        [(sec, _label_for props key)] else [])

/-- validate_static_fields(schema, current_task)
(source: app/services/validation.py lines 109-161). -/
def validate_static_fields (c : Consts) (schema : Schema)
    (task : Option Value) (s : Store) (fsx : String → Bool) :
    Except PyErr (List MissingItem) :=
  flatMapME (fun seckv =>
    if ["evaluation_data_methodology_results_commisioning",
        "learning_architecture", "qualitative_evaluation"].contains seckv.1
    then .ok []
    else
      match seckv.2 with
      | .slist _ => .ok []
      | .smap fields =>
          flatMapME (fun f => staticFieldCheck c s fsx task seckv.1 f.1 f.2)
            fields) schema

/-- validate_learning_architectures(schema)
(source: app/services/validation.py lines 164-193): len() of a non-sized
forms value raises TypeError; a list-valued learning_architecture schema
section raises AttributeError at .get. -/
def validate_learning_architectures (c : Consts) (schema : Schema)
    (s : Store) : Except PyErr (List MissingItem) :=
  match pyLen (getD s "learning_architecture_forms" (.vdict [])) with
  | .error e => .error e
  | .ok n =>
      match (match alook schema "learning_architecture" with
        | none => Except.ok ([] : List (String × FieldProps))
        | some (.smap fields) => Except.ok fields
        | some (.slist _) => Except.error PyErr.attributeError) with
      | .error e => .error e
      | .ok schema_fields =>
          .ok ((List.range n).flatMap (fun i =>
            c.LEARNING_ARCHITECTURE.flatMap (fun fkv =>
              match alook schema_fields fkv.1 with
              | none => []
              | some props =>
                  if !props.required then []
                  else if is_empty ((lookupS s ("learning_architecture_"
                      ++ String.mk (natDigits i) ++ "_" ++ fkv.1)).getD
                      .vnone) then
                    [("learning_architecture",
                      (match props.label with
                        | some l => l
                        | none => pyTitle (pyReplace fkv.1 "_" " "))
                      ++ " (Learning Architecture "
                      ++ String.mk (natDigits (i + 1)) ++ ")")]
                  else [])))

/-- validate_modalities_fields()
(source: app/services/validation.py lines 196-228): a non-str modality
raises AttributeError at .strip, a non-str evaluation name at .replace.
-/
def validate_modalities_fields (c : Consts) (s : Store) :
    Except PyErr (List MissingItem) :=
  flatMapME (fun ms =>
    match ms.1 with
    | .vstr m =>
        let clean := cleanLabel m
        let trainItems := c.DATA_INPUT_OUTPUT_TS.flatMap (fun fl =>
          if is_empty ((lookupS s ("training_data_" ++ clean ++ "_"
              ++ ms.2 ++ "_" ++ fl.1)).getD .vnone) then
            [("training_data", fl.2 ++ " (" ++ m ++ " - " ++ ms.2 ++ ")")]
          else [])
        match iterVals (getD s "evaluation_forms" (.vlist [])) with
        | .error e => .error e
        | .ok names =>
            match flatMapME (fun nv =>
              match nv with
              | .vstr nm =>
                  let slug := pyReplace nm " " "_"
                  Except.ok (c.DATA_INPUT_OUTPUT_TS.flatMap (fun fl =>
                    if is_empty ((lookupS s ("evaluation_" ++ slug ++ "_"
                        ++ clean ++ "_" ++ ms.2 ++ "_" ++ fl.1)).getD
                        .vnone) then
                      [("evaluation_data_methodology_results_commisioning",
                        fl.2 ++ " (" ++ m ++ " - " ++ ms.2 ++ ")(Eval: "
                        ++ nm ++ ")")]
                    else [])) 
              | _ => Except.error PyErr.attributeError) names with
            | .error e => .error e
            | .ok evalItems => .ok (trainItems ++ evalItems)
    | _ => .error .attributeError) (_iter_modalities s)

/-- One key's contribution to the static-field part of one evaluation
form's validation (the loop body, source: app/services/validation.py
lines 308-325). -/
def evalFieldItem (task : Option Value) (s : Store)
    (metric_keys skipFields : List String) (pfx nm : String)
    (approved : Bool) (kp : String × FieldProps) : List MissingItem :=
  if metric_keys.contains kp.1 || skipFields.contains kp.1 then []
  else if approved && ["evaluated_by_name", "evaluated_by_institution",
      "evaluated_by_contact_email"].contains kp.1 then []
  else if _field_required_for_task kp.2 task
      && is_empty ((lookupS s (pfx ++ kp.1)).getD .vnone) then
    [("evaluation_data_methodology_results_commisioning",
      _label_for kp.2 kp.1 ++ " (Eval: " ++ nm ++ ")")]
  else []

/-- The static-field part of one evaluation form's validation (the
key/props loop, source: app/services/validation.py lines 308-325). -/
def evalFormFieldsItems (task : Option Value) (s : Store)
    (eval_section : List (String × FieldProps))
    (metric_keys skipFields : List String) (pfx nm : String)
    (approved : Bool) : List MissingItem :=
  eval_section.flatMap (evalFieldItem task s metric_keys skipFields
    pfx nm approved)

/-- _validate_metric_group for one metric type
(source: app/services/validation.py lines 231-273): a non-str metric
name raises AttributeError at .split. -/
def validateMetricGroup (c : Consts) (s : Store)
    (eval_section : List (String × FieldProps)) (pfx slug nm : String)
    (mt : String) : Except PyErr (List MissingItem) :=
  match iterVals (getD s (pfx ++ mt ++ "_list") (.vlist [])) with
  | .error e => .error e
  | .ok entry_list =>
      flatMapME (fun mn =>
        match mn with
        | .vstr mnm =>
            let mpfx := "evaluation_" ++ slug ++ "." ++ mnm
            let short := splitHead mnm " ("
            Except.ok (((alook c.EVALUATION_METRIC_FIELDS mt).getD
                []).flatMap (fun fk =>
              match alook eval_section fk with
              | none => []
              | some props =>
                  if props.required && is_empty ((lookupS s
                      (mpfx ++ "_" ++ fk)).getD .vnone) then
                    [("evaluation_data_methodology_results_commisioning",
                      _label_for props fk ++ " (Metric: " ++ short
                      ++ ", Eval: " ++ nm ++ ")")]
                  else []))
        | _ => Except.error PyErr.attributeError) entry_list

/-- One evaluation form's validation (the per-name loop body of
validate_evaluation_forms, source: app/services/validation.py lines
301-335): a non-str name raises AttributeError at .replace. -/
def evalFormMissing (c : Consts)
    (eval_section : List (String × FieldProps)) (task : Option Value)
    (s : Store) (metric_types metric_keys : List String) (nameV : Value) :
    Except PyErr (List MissingItem) :=
  match nameV with
  | .vstr nm =>
      let slug := pyReplace nm " " "_"
      let pfx := "evaluation_" ++ slug ++ "_"
      let approved := truthy ((lookupS s
        (pfx ++ "evaluated_same_as_approved")).getD (.vbool false))
      let fieldsItems := evalFormFieldsItems task s eval_section
        metric_keys (c.DATA_INPUT_OUTPUT_TS.map Prod.fst) pfx nm approved
      match flatMapME (validateMetricGroup c s eval_section pfx slug nm)
          metric_types with
      | .error e => .error e
      | .ok metricItems => .ok (fieldsItems ++ metricItems)
  | _ => .error .attributeError

/-- validate_evaluation_forms(schema, current_task)
(source: app/services/validation.py lines 276-336). -/
def validate_evaluation_forms (c : Consts) (schema : Schema)
    (task : Option Value) (s : Store) :
    Except PyErr (List MissingItem) :=
  match (match alook schema
      "evaluation_data_methodology_results_commisioning" with
    | none => Except.ok ([] : List (String × FieldProps))
    | some (.smap fields) => Except.ok fields
    | some (.slist _) => Except.error PyErr.attributeError) with
  | .error e => .error e
  | .ok eval_section =>
      match (match task with
        | some v =>
            if truthy v then taskGet c v
            else .ok ((alook c.TASK_METRIC_MAP "").getD [])
        | none => .ok ((alook c.TASK_METRIC_MAP "").getD [])) with
      | .error e => .error e
      | .ok metric_types =>
          let metric_keys := metric_types.flatMap (fun mt =>
            (alook c.EVALUATION_METRIC_FIELDS mt).getD [])
          match iterVals (getD s "evaluation_forms" (.vlist [])) with
          | .error e => .error e
          | .ok names =>
              flatMapME (evalFormMissing c eval_section task s
                metric_types metric_keys) names

/-- validate_required_fields(schema, current_task)
(source: app/services/validation.py lines 339-358): the four passes
concatenated. -/
def validate_required_fields (c : Consts) (schema : Schema)
    (task : Option Value) (s : Store) (fsx : String → Bool) :
    Except PyErr (List MissingItem) :=
  match validate_static_fields c schema task s fsx with
  | .error e => .error e
  | .ok m1 =>
      match validate_learning_architectures c schema s with
      | .error e => .error e
      | .ok m2 =>
          match validate_modalities_fields c s with
          | .error e => .error e
          | .ok m3 =>
              match validate_evaluation_forms c schema task s with
              | .error e => .error e
              | .ok m4 => .ok (m1 ++ m2 ++ m3 ++ m4)

end MC

namespace MC

/-! ## Claim C8: task-conditional field exclusion in flatten -/

theorem alook_aset_self {α : Type} (l : List (String × α)) (k : String)
    (v : α) : alook (aset l k v) k = some v := by
  induction l with
  | nil =>
      show (if k = k then some v else none) = some v
      rw [if_pos rfl]
  | cons hd tl ih =>
      by_cases h : hd.1 = k
      · show alook (if hd.1 = k then (k, v) :: tl
            else hd :: aset tl k v) k = some v
        rw [if_pos h]
        show (if k = k then some v else alook tl k) = some v
        rw [if_pos rfl]
      · show alook (if hd.1 = k then (k, v) :: tl
            else hd :: aset tl k v) k = some v
        rw [if_neg h]
        show (if hd.1 = k then some hd.2 else alook (aset tl k v) k)
          = some v
        rw [if_neg h, ih]

theorem alook_aset_ne {α : Type} (l : List (String × α)) {k k' : String}
    (v : α) (h : k' ≠ k) : alook (aset l k v) k' = alook l k' := by
  induction l with
  | nil =>
      show (if k = k' then some v else none) = none
      rw [if_neg (Ne.symm h)]
  | cons hd tl ih =>
      by_cases h2 : hd.1 = k
      · subst h2
        show alook (if hd.1 = hd.1 then (hd.1, v) :: tl
            else hd :: aset tl hd.1 v) k' = alook (hd :: tl) k'
        rw [if_pos rfl]
        show (if hd.1 = k' then some v else alook tl k')
          = (if hd.1 = k' then some hd.2 else alook tl k')
        have h3 : ¬ hd.1 = k' := fun e => h e.symm
        rw [if_neg h3, if_neg h3]
      · show alook (if hd.1 = k then (k, v) :: tl
            else hd :: aset tl k v) k' = alook (hd :: tl) k'
        rw [if_neg h2]
        show (if hd.1 = k' then some hd.2 else alook (aset tl k v) k')
          = (if hd.1 = k' then some hd.2 else alook tl k')
        rw [ih]

theorem alook_collect_notmem (s : Store) (task : Option Value)
    (sec : String) :
    ∀ (schema : Schema), sec ∉ schema.map Prod.fst →
    ∀ acc, alook (schema.foldl (fun raw seckv =>
        aset raw seckv.1 (collectSect s task seckv.1 seckv.2)) acc) sec
      = alook acc sec := by
  intro schema
  induction schema with
  | nil =>
      intro _ acc
      rfl
  | cons hd tl ih =>
      intro h acc
      rw [List.map_cons, List.mem_cons] at h
      push_neg at h
      rw [List.foldl_cons, ih h.2, alook_aset_ne _ _ h.1]

theorem alook_collect_mem (s : Store) (task : Option Value) (sec : String)
    (ss : SchemaSection) :
    ∀ (schema : Schema), (schema.map Prod.fst).Nodup →
    (sec, ss) ∈ schema →
    alook (_collect_raw_sections s schema task) sec
      = some (collectSect s task sec ss) := by
  have hgen : ∀ (schema : Schema), (schema.map Prod.fst).Nodup →
      (sec, ss) ∈ schema →
      ∀ acc, alook (schema.foldl (fun raw seckv =>
        aset raw seckv.1 (collectSect s task seckv.1 seckv.2)) acc) sec
        = some (collectSect s task sec ss) := by
    intro schema
    induction schema with
    | nil =>
        intro _ hmem
        exact absurd hmem (List.not_mem_nil _)
    | cons hd tl ih =>
        intro hnd hmem acc
        rw [List.map_cons, List.nodup_cons] at hnd
        rw [List.foldl_cons]
        rcases List.mem_cons.mp hmem with he | hm
        · subst he
          rw [alook_collect_notmem s task sec tl hnd.1, alook_aset_self]
        · exact ih hnd.2 hm _
  intro schema hnd hmem
  exact hgen schema hnd hmem []

theorem lookup_collectSmap_notmem (s : Store) (task : Option Value)
    (sec key : String) :
    ∀ (fields : List (String × FieldProps)),
    key ∉ fields.map Prod.fst →
    ∀ acc, lookupS (fields.foldl (fun sect f =>
        if mtAllows f.2.model_types task then
          setKey sect f.1 (getD s (sec ++ "_" ++ f.1) (.vstr ""))
        else sect) acc) key = lookupS acc key := by
  intro fields
  induction fields with
  | nil =>
      intro _ acc
      rfl
  | cons hd tl ih =>
      intro h acc
      rw [List.map_cons, List.mem_cons] at h
      push_neg at h
      rw [List.foldl_cons, ih h.2]
      show lookupS (if mtAllows hd.2.model_types task then
          setKey acc hd.1 (getD s (sec ++ "_" ++ hd.1) (.vstr ""))
        else acc) key = lookupS acc key
      by_cases hg : mtAllows hd.2.model_types task = true
      · rw [if_pos hg, lookupS_setKey_ne _ _ h.1]
      · rw [if_neg hg]

theorem lookup_collectSmap_mem (s : Store) (task : Option Value)
    (sec key : String) (props : FieldProps) :
    ∀ (fields : List (String × FieldProps)),
    (fields.map Prod.fst).Nodup →
    (key, props) ∈ fields →
    lookupS (collectSect s task sec (.smap fields)) key
      = (if mtAllows props.model_types task then
          some (getD s (sec ++ "_" ++ key) (.vstr "")) else none) := by
  have hgen : ∀ (fields : List (String × FieldProps)),
      (fields.map Prod.fst).Nodup → (key, props) ∈ fields →
      ∀ acc, lookupS (fields.foldl (fun sect f =>
        if mtAllows f.2.model_types task then
          setKey sect f.1 (getD s (sec ++ "_" ++ f.1) (.vstr ""))
        else sect) acc) key
        = (if mtAllows props.model_types task then
            some (getD s (sec ++ "_" ++ key) (.vstr ""))
          else lookupS acc key) := by
    intro fields
    induction fields with
    | nil =>
        intro _ hmem
        exact absurd hmem (List.not_mem_nil _)
    | cons hd tl ih =>
        intro hnd hmem acc
        rw [List.map_cons, List.nodup_cons] at hnd
        rw [List.foldl_cons]
        rcases List.mem_cons.mp hmem with he | hm
        · subst he
          rw [lookup_collectSmap_notmem s task sec key tl hnd.1]
          show lookupS (if mtAllows props.model_types task then
              setKey acc key (getD s (sec ++ "_" ++ key) (.vstr ""))
            else acc) key = _
          by_cases hg : mtAllows props.model_types task = true
          · rw [if_pos hg, if_pos hg, lookupS_setKey_self]
          · rw [if_neg hg, if_neg hg]
        · have hne : hd.1 ≠ key := by
            intro e
            exact hnd.1 (by
              rw [e]
              exact List.mem_map.mpr ⟨(key, props), hm, rfl⟩)
          rw [ih hnd.2 hm _]
          by_cases hp : mtAllows props.model_types task = true
          · rw [if_pos hp, if_pos hp]
          · rw [if_neg hp, if_neg hp]
            show lookupS (if mtAllows hd.2.model_types task then
                setKey acc hd.1 (getD s (sec ++ "_" ++ hd.1) (.vstr ""))
              else acc) key = lookupS acc key
            by_cases hg : mtAllows hd.2.model_types task = true
            · rw [if_pos hg, lookupS_setKey_ne _ _ (Ne.symm hne)]
            · rw [if_neg hg]
  intro fields hnd hmem
  have h2 := hgen fields hnd hmem []
  show lookupS (fields.foldl (fun sect f =>
      if mtAllows f.2.model_types task then
        setKey sect f.1 (getD s (sec ++ "_" ++ f.1) (.vstr ""))
      else sect) []) key = _
  rw [h2]
  rfl

/-- C8: task-conditional field exclusion in flatten.  For every flat
store and schema with distinct section and field names: a field whose
properties carry model_types = ["Segmentation"] is ABSENT from the raw
section that _collect_raw_sections builds when the active task is
"Dose prediction", and PRESENT (with the stored value, "" when absent)
when the active task is "Segmentation"; a field with null model_types is
present for every task. -/
theorem C8_task_conditional_exclusion (s : Store) (schema : Schema)
    (sec key : String) (fields : List (String × FieldProps))
    (props : FieldProps)
    (hnd : (schema.map Prod.fst).Nodup)
    (hfnd : (fields.map Prod.fst).Nodup)
    (hsec : (sec, SchemaSection.smap fields) ∈ schema)
    (hf : (key, props) ∈ fields) :
    (props.model_types = some ["Segmentation"] →
      (∃ sect, alook (_collect_raw_sections s schema
            (some (.vstr "Dose prediction"))) sec = some sect
          ∧ lookupS sect key = none)
      ∧ (∃ sect, alook (_collect_raw_sections s schema
            (some (.vstr "Segmentation"))) sec = some sect
          ∧ lookupS sect key
            = some (getD s (sec ++ "_" ++ key) (.vstr ""))))
    ∧ (props.model_types = none →
      ∀ task, ∃ sect, alook (_collect_raw_sections s schema task) sec
          = some sect
        ∧ lookupS sect key
          = some (getD s (sec ++ "_" ++ key) (.vstr ""))) := by
  constructor
  · intro hmt
    constructor
    · refine ⟨collectSect s (some (.vstr "Dose prediction")) sec
        (.smap fields),
        alook_collect_mem s _ sec _ schema hnd hsec, ?_⟩
      rw [lookup_collectSmap_mem s _ sec key props fields hfnd hf, hmt]
      rfl
    · refine ⟨collectSect s (some (.vstr "Segmentation")) sec
        (.smap fields),
        alook_collect_mem s _ sec _ schema hnd hsec, ?_⟩
      rw [lookup_collectSmap_mem s _ sec key props fields hfnd hf, hmt]
      rfl
  · intro hmt task
    refine ⟨collectSect s task sec (.smap fields),
      alook_collect_mem s task sec _ schema hnd hsec, ?_⟩
    rw [lookup_collectSmap_mem s task sec key props fields hfnd hf, hmt]
    rfl

/-- A two-field schema for the C8 witness: one Segmentation-only field,
one unconditional field. -/
def propsC8 : FieldProps :=
  { label := none, required := false, ftype := none,
    model_types := some ["Segmentation"] }

def fieldsC8 : List (String × FieldProps) :=
  [("seg_field", propsC8),
    ("always",
      { label := none, required := false, ftype := none,
        model_types := none })]

def schemaC8 : Schema := [("card_metadata", .smap fieldsC8)]

/-- C8 witness: the theorem applied to the concrete two-field schema. -/
theorem C8_witness :
    ∃ sect, alook (_collect_raw_sections [] schemaC8
        (some (.vstr "Dose prediction"))) "card_metadata" = some sect
      ∧ lookupS sect "seg_field" = none :=
  ((C8_task_conditional_exclusion [] schemaC8 "card_metadata" "seg_field"
    fieldsC8 propsC8 (by decide) (by decide) (by decide)
    (by decide)).1 rfl).1

end MC

namespace MC

/-! ## Claim C9: validation suppression of evaluator-identity fields -/

/-- Whether a key is NOT one of the three evaluator-identity fields. -/
def notEvalIdKey (k : String) : Bool :=
  !(["evaluated_by_name", "evaluated_by_institution",
    "evaluated_by_contact_email"].contains k)

theorem flatMap_congr_mem {α β : Type} {l : List α} {f g : α → List β}
    (h : ∀ a ∈ l, f a = g a) : l.flatMap f = l.flatMap g := by
  induction l with
  | nil => rfl
  | cons a tl ih =>
      rw [List.flatMap_cons, List.flatMap_cons,
        h a (List.mem_cons_self _ _), ih (fun b hb =>
          h b (List.mem_cons_of_mem _ hb))]

theorem flatMapME_congr_mem {α β : Type} {l : List α}
    {f g : α → Except PyErr (List β)} (h : ∀ a ∈ l, f a = g a) :
    flatMapME f l = flatMapME g l := by
  induction l with
  | nil => rfl
  | cons a tl ih =>
      show (match f a with
        | Except.error e => Except.error e
        | Except.ok l2 =>
            match flatMapME f tl with
            | Except.error e => Except.error e
            | Except.ok ls => Except.ok (l2 ++ ls))
        = (match g a with
        | Except.error e => Except.error e
        | Except.ok l2 =>
            match flatMapME g tl with
            | Except.error e => Except.error e
            | Except.ok ls => Except.ok (l2 ++ ls))
      rw [h a (List.mem_cons_self _ _), ih (fun b hb =>
        h b (List.mem_cons_of_mem _ hb))]

theorem alook_filter_of_keep {α : Type} (p : String × α → Bool)
    (k : String) (hk : ∀ v, p (k, v) = true) :
    ∀ (l : List (String × α)), alook (l.filter p) k = alook l k := by
  intro l
  induction l with
  | nil => rfl
  | cons kv tl ih =>
      obtain ⟨k1, v1⟩ := kv
      by_cases he : k1 = k
      · subst he
        rw [List.filter_cons_of_pos (hk v1)]
        show (if k1 = k1 then some v1 else alook (tl.filter p) k1)
          = (if k1 = k1 then some v1 else alook tl k1)
        rw [if_pos rfl, if_pos rfl]
      · by_cases hp : p (k1, v1) = true
        · rw [List.filter_cons_of_pos hp]
          show (if k1 = k then some v1 else alook (tl.filter p) k)
            = (if k1 = k then some v1 else alook tl k)
          rw [if_neg he, if_neg he, ih]
        · rw [List.filter_cons_of_neg (by simpa using hp)]
          show alook (tl.filter p) k
            = (if k1 = k then some v1 else alook tl k)
          rw [if_neg he, ih]

/-- A key among the three evaluator-identity fields contributes nothing
once the same-as-approved flag is set. -/
theorem evalFieldItem_three (task : Option Value) (s : Store)
    (metric_keys skipF : List String) (pfx nm : String)
    (kp : String × FieldProps)
    (h3 : notEvalIdKey kp.1 = false) :
    evalFieldItem task s metric_keys skipF pfx nm true kp = [] := by
  have h4 : (["evaluated_by_name", "evaluated_by_institution",
      "evaluated_by_contact_email"].contains kp.1) = true := by
    rw [notEvalIdKey] at h3
    cases hc : (["evaluated_by_name", "evaluated_by_institution",
        "evaluated_by_contact_email"].contains kp.1) with
    | true => rfl
    | false =>
        rw [hc] at h3
        exact Bool.noConfusion h3
  unfold evalFieldItem
  by_cases h1 : (metric_keys.contains kp.1 || skipF.contains kp.1) = true
  · rw [if_pos h1]
  · rw [if_neg h1, if_pos (by rw [h4]; rfl)]

/-- Removing the three evaluator-identity keys from the schema section
does not change the per-field pass of one evaluation form once the
same-as-approved flag is set. -/
theorem fieldsItems_filter_three (task : Option Value) (s : Store)
    (metric_keys skipF : List String) (pfx nm : String) :
    ∀ (eval_section : List (String × FieldProps)),
    evalFormFieldsItems task s eval_section metric_keys skipF pfx nm true
      = evalFormFieldsItems task s
        (eval_section.filter (fun kp => notEvalIdKey kp.1))
        metric_keys skipF pfx nm true := by
  intro eval_section
  induction eval_section with
  | nil => rfl
  | cons kp tl ih =>
      rw [evalFormFieldsItems, evalFormFieldsItems] at ih
      rw [evalFormFieldsItems, evalFormFieldsItems]
      cases h3 : notEvalIdKey kp.1 with
      | false =>
          rw [List.filter_cons_of_neg (by simp [h3]), List.flatMap_cons,
            evalFieldItem_three task s metric_keys skipF pfx nm kp h3,
            List.nil_append, ih]
      | true =>
          rw [List.filter_cons_of_pos (by simp [h3]),
            List.flatMap_cons, List.flatMap_cons, ih]

/-- Removing the three evaluator-identity keys does not change one
metric group's pass when no metric field is one of them. -/
theorem metricGroup_filter_three (c : Consts) (s : Store)
    (eval_section : List (String × FieldProps)) (pfx slug nm mt : String)
    (hmf : ∀ fk ∈ (alook c.EVALUATION_METRIC_FIELDS mt).getD [],
      notEvalIdKey fk = true) :
    validateMetricGroup c s eval_section pfx slug nm mt
      = validateMetricGroup c s
        (eval_section.filter (fun kp => notEvalIdKey kp.1))
        pfx slug nm mt := by
  unfold validateMetricGroup
  cases iterVals (getD s (pfx ++ mt ++ "_list") (.vlist [])) with
  | error e => rfl
  | ok entry_list =>
      refine flatMapME_congr_mem (fun mn _ => ?_)
      cases mn with
      | vstr mnm =>
          show Except.ok _ = Except.ok _
          refine congrArg Except.ok (flatMap_congr_mem (fun fk hfk => ?_))
          rw [alook_filter_of_keep _ fk (fun v => hmf fk hfk)]
      | vint n => rfl
      | vbool b => rfl
      | vnone => rfl
      | vdate d => rfl
      | vlist l => rfl
      | vdict d => rfl

/-- C9: validation suppression.  For every evaluation form whose
evaluated_same_as_approved flag is truthy in the flat store, the
per-evaluation validation pass (the loop body of
validate_evaluation_forms, which flat-maps evalFormMissing over the
registered forms) is unchanged when the three evaluator-identity keys
(evaluated_by_name, evaluated_by_institution, evaluated_by_contact_email)
are removed from the schema section — so no report of that pass stems
from those keys, even when their store values are empty or absent.  The
only hypothesis besides the flag is that no metric field of the active
metric types is itself one of the three keys. -/
theorem C9_validation_suppression (c : Consts)
    (eval_section : List (String × FieldProps)) (task : Option Value)
    (s : Store) (metric_types metric_keys : List String) (nm : String)
    (happ : truthy ((lookupS s ("evaluation_" ++ pyReplace nm " " "_"
      ++ "_" ++ "evaluated_same_as_approved")).getD (.vbool false))
      = true)
    (hmf : ∀ mt ∈ metric_types,
      ∀ fk ∈ (alook c.EVALUATION_METRIC_FIELDS mt).getD [],
      notEvalIdKey fk = true) :
    evalFormMissing c eval_section task s metric_types metric_keys
      (.vstr nm)
      = evalFormMissing c
        (eval_section.filter (fun kp => notEvalIdKey kp.1))
        task s metric_types metric_keys (.vstr nm) := by
  have hm : flatMapME (validateMetricGroup c s eval_section
      ("evaluation_" ++ pyReplace nm " " "_" ++ "_")
      (pyReplace nm " " "_") nm) metric_types
      = flatMapME (validateMetricGroup c s
        (eval_section.filter (fun kp => notEvalIdKey kp.1))
        ("evaluation_" ++ pyReplace nm " " "_" ++ "_")
        (pyReplace nm " " "_") nm) metric_types :=
    flatMapME_congr_mem (fun mt hmt =>
      metricGroup_filter_three c s eval_section
        ("evaluation_" ++ pyReplace nm " " "_" ++ "_")
        (pyReplace nm " " "_") nm mt (hmf mt hmt))
  have hf := fieldsItems_filter_three task s metric_keys
    (c.DATA_INPUT_OUTPUT_TS.map Prod.fst)
    ("evaluation_" ++ pyReplace nm " " "_" ++ "_") nm eval_section
  show (match flatMapME (validateMetricGroup c s eval_section
      ("evaluation_" ++ pyReplace nm " " "_" ++ "_")
      (pyReplace nm " " "_") nm) metric_types with
    | Except.error e => Except.error e
    | Except.ok metricItems => Except.ok
        (evalFormFieldsItems task s eval_section metric_keys
          (c.DATA_INPUT_OUTPUT_TS.map Prod.fst)
          ("evaluation_" ++ pyReplace nm " " "_" ++ "_") nm
          (truthy ((lookupS s ("evaluation_" ++ pyReplace nm " " "_"
            ++ "_" ++ "evaluated_same_as_approved")).getD (.vbool false)))
          ++ metricItems))
    = (match flatMapME (validateMetricGroup c s
        (eval_section.filter (fun kp => notEvalIdKey kp.1))
      ("evaluation_" ++ pyReplace nm " " "_" ++ "_")
      (pyReplace nm " " "_") nm) metric_types with
    | Except.error e => Except.error e
    | Except.ok metricItems => Except.ok
        (evalFormFieldsItems task s
          (eval_section.filter (fun kp => notEvalIdKey kp.1))
          metric_keys (c.DATA_INPUT_OUTPUT_TS.map Prod.fst)
          ("evaluation_" ++ pyReplace nm " " "_" ++ "_") nm
          (truthy ((lookupS s ("evaluation_" ++ pyReplace nm " " "_"
            ++ "_" ++ "evaluated_same_as_approved")).getD (.vbool false)))
          ++ metricItems))
  rw [happ, hm, hf]

end MC

namespace MC

/-- A minimal constants instance for closed witnesses of the
consts-parameterized engines. -/
def constsMin : Consts :=
  { DATA_INPUT_OUTPUT_TS := [], EVALUATION_METRIC_FIELDS := [],
    LEARNING_ARCHITECTURE := [], TASK_METRIC_MAP := [], SCHEMA := [] }

/-- The evaluation schema section of the C9 witness: the evaluator name
field, required. -/
def evalSectC9 : List (String × FieldProps) :=
  [("evaluated_by_name",
    { label := none, required := true, ftype := none,
      model_types := none })]

/-- C9 witness: the theorem applied to a store where the flag is set and
evaluated_by_name is absent. -/
theorem C9_witness :
    evalFormMissing constsMin evalSectC9 none
        [("evaluation_E_evaluated_same_as_approved", Value.vbool true)]
        [] [] (.vstr "E")
      = evalFormMissing constsMin
        (evalSectC9.filter (fun kp => notEvalIdKey kp.1)) none
        [("evaluation_E_evaluated_same_as_approved", Value.vbool true)]
        [] [] (.vstr "E") :=
  C9_validation_suppression constsMin evalSectC9 none
    [("evaluation_E_evaluated_same_as_approved", Value.vbool true)]
    [] [] "E" (by decide) (by decide)

end MC

namespace MC

/-! ## Claim C3: totality of flatten and validation -/

/-- Well-formedness of a flat store for the flatten/validation engines:
the task is a str when present; evaluation_forms is a list of str when
present; list values under modality keys hold strs; values under keys
ending in _list are lists of strs; learning_architecture_forms is sized;
render_uploads is a dict whose truthy records are dicts; and no value
holds a datetime.date (which json.dumps cannot serialize). -/
def wfStore (s : Store) : Bool :=
  (match lookupS s "task" with
    | some v => isVStr v
    | none => true) &&
  (match lookupS s "evaluation_forms" with
    | some (.vlist l) => l.all isVStr
    | some _ => false
    | none => true) &&
  s.all (fun kv =>
    if endsWithS kv.1 "model_inputs" || endsWithS kv.1 "model_outputs" then
      (match kv.2 with
        | .vlist l => l.all isVStr
        | _ => true)
    else true) &&
  s.all (fun kv =>
    if endsWithS kv.1 "_list" then
      (match kv.2 with
        | .vlist l => l.all isVStr
        | _ => false)
    else true) &&
  (match lookupS s "learning_architecture_forms" with
    | some (.vstr _) => true
    | some (.vlist _) => true
    | some (.vdict _) => true
    | some _ => false
    | none => true) &&
  (match lookupS s "render_uploads" with
    | some (.vdict d) => d.all (fun kv =>
        !truthy kv.2 || (match kv.2 with
          | .vdict _ => true
          | _ => false))
    | some _ => false
    | none => true) &&
  s.all (fun kv => dateFreeV kv.2)

/-- Well-formedness of the constant tables: every metric type reachable
through TASK_METRIC_MAP has its field list, and the learning-architecture
defaults are serializable. -/
def wfConsts (c : Consts) : Bool :=
  c.TASK_METRIC_MAP.all (fun tm => tm.2.all (fun mt =>
    (alook c.EVALUATION_METRIC_FIELDS mt).isSome)) &&
  c.LEARNING_ARCHITECTURE.all (fun kv => dateFreeV kv.2)

/-- Well-formedness of a schema for the engines: the
technical_specifications section exists, and the two sections whose
field maps are read with .get/.items are not lists. -/
def wfSchema (schema : Schema) : Bool :=
  (schema.map Prod.fst).contains "technical_specifications" &&
  (match alook schema "learning_architecture" with
    | some (.slist _) => false
    | _ => true) &&
  (match alook schema "evaluation_data_methodology_results_commisioning"
      with
    | some (.slist _) => false
    | _ => true)

theorem dateFreeD_iff (d : List (String × Value)) :
    dateFreeD d = true ↔ ∀ kv ∈ d, dateFreeV kv.2 = true := by
  induction d with
  | nil => simp [dateFreeD]
  | cons kv tl ih =>
      rw [dateFreeD, Bool.and_eq_true, ih]
      constructor
      · rintro ⟨h1, h2⟩ x hx
        rcases List.mem_cons.mp hx with rfl | hm
        · exact h1
        · exact h2 x hm
      · intro h
        exact ⟨h kv (List.mem_cons_self _ _),
          fun x hx => h x (List.mem_cons_of_mem _ hx)⟩

theorem dateFreeL_iff (l : List Value) :
    dateFreeL l = true ↔ ∀ x ∈ l, dateFreeV x = true := by
  induction l with
  | nil => simp [dateFreeL]
  | cons v tl ih =>
      rw [dateFreeL, Bool.and_eq_true, ih]
      constructor
      · rintro ⟨h1, h2⟩ x hx
        rcases List.mem_cons.mp hx with rfl | hm
        · exact h1
        · exact h2 x hm
      · intro h
        exact ⟨h v (List.mem_cons_self _ _),
          fun x hx => h x (List.mem_cons_of_mem _ hx)⟩

theorem dateFree_lookup {s : Store} {k : String} {v : Value}
    (hs : s.all (fun kv => dateFreeV kv.2) = true)
    (h : lookupS s k = some v) : dateFreeV v = true := by
  induction s with
  | nil => exact Option.noConfusion h
  | cons kv tl ih =>
      rw [List.all_cons, Bool.and_eq_true] at hs
      obtain ⟨k1, v1⟩ := kv
      by_cases he : k1 = k
      · have h2 : some v1 = some v := by
          rw [← h]
          show _ = (if k1 = k then some v1 else lookupS tl k)
          rw [if_pos he]
        cases h2
        exact hs.1
      · have h2 : lookupS tl k = some v := by
          rw [← h]
          show _ = (if k1 = k then some v1 else lookupS tl k)
          rw [if_neg he]
        exact ih hs.2 h2

theorem dateFree_getD {s : Store} {k : String} {d : Value}
    (hs : s.all (fun kv => dateFreeV kv.2) = true)
    (hd : dateFreeV d = true) : dateFreeV (getD s k d) = true := by
  rw [getD]
  cases h : lookupS s k with
  | none => exact hd
  | some v => exact dateFree_lookup hs h

theorem dateFree_orV {a b : Value} (ha : dateFreeV a = true)
    (hb : dateFreeV b = true) : dateFreeV (orV a b) = true := by
  rw [orV]
  by_cases h : truthy a = true
  · rw [if_pos h]; exact ha
  · rw [if_neg h]; exact hb

theorem dateFree_gwf {s : Store} (k : String)
    (hs : s.all (fun kv => dateFreeV kv.2) = true) :
    dateFreeV (_get_with_fallback s k) = true :=
  dateFree_orV (dateFree_getD hs rfl)
    (dateFree_orV (dateFree_getD hs rfl) rfl)

theorem dateFreeD_setKey {d : List (String × Value)} {k : String}
    {v : Value} (hd : dateFreeD d = true) (hv : dateFreeV v = true) :
    dateFreeD (setKey d k v) = true := by
  rw [dateFreeD_iff] at hd ⊢
  intro kv hkv
  induction d with
  | nil =>
      rcases List.mem_singleton.mp hkv with rfl
      exact hv
  | cons hd0 tl ih =>
      obtain ⟨k1, v1⟩ := hd0
      by_cases he : k1 = k
      · rw [show setKey ((k1, v1) :: tl) k v
            = (if k1 = k then (k1, v) :: tl
              else (k1, v1) :: setKey tl k v) from rfl, if_pos he] at hkv
        rcases List.mem_cons.mp hkv with rfl | hm
        · exact hv
        · exact hd _ (List.mem_cons_of_mem _ hm)
      · rw [show setKey ((k1, v1) :: tl) k v
            = (if k1 = k then (k1, v) :: tl
              else (k1, v1) :: setKey tl k v) from rfl, if_neg he] at hkv
        rcases List.mem_cons.mp hkv with rfl | hm
        · exact hd _ (List.mem_cons_self _ _)
        · exact ih (fun kv2 hm2 => hd kv2 (List.mem_cons_of_mem _ hm2)) hm

/-- dateFree of a write-loop: a foldl of setKeys whose written values are
all date-free preserves date-freedom of the accumulator. -/
theorem dateFreeD_foldl_write {α : Type} (wf : α → String)
    (wv : α → Value) :
    ∀ (l : List α), (∀ a ∈ l, dateFreeV (wv a) = true) →
    ∀ acc, dateFreeD acc = true →
    dateFreeD (l.foldl (fun d a => setKey d (wf a) (wv a)) acc) = true := by
  intro l
  induction l with
  | nil =>
      intro _ acc hacc
      exact hacc
  | cons a tl ih =>
      intro h acc hacc
      rw [List.foldl_cons]
      exact ih (fun b hb => h b (List.mem_cons_of_mem _ hb)) _
        (dateFreeD_setKey hacc (h a (List.mem_cons_self _ _)))

theorem dateFreeD_odFrom {l : List (String × Value)}
    (h : ∀ kv ∈ l, dateFreeV kv.2 = true) : dateFreeD (odFrom l) = true := by
  rw [odFrom]
  exact dateFreeD_foldl_write Prod.fst Prod.snd l h [] rfl

theorem dateFreeD_insert_after {d : List (String × Value)} {nk ak : String}
    {nv : Value} (hd : dateFreeD d = true) (hv : dateFreeV nv = true) :
    dateFreeD (insert_after d nk nv ak) = true := by
  rw [insert_after]
  by_cases he : d.isEmpty = true
  · rw [if_pos he]
    rw [dateFreeD_iff]
    intro kv hkv
    rcases List.mem_singleton.mp hkv with rfl
    exact hv
  · rw [if_neg he]
    refine dateFreeD_odFrom (fun kv hkv => ?_)
    rcases List.mem_flatMap.mp hkv with ⟨kv0, hkv0, hin⟩
    rcases List.mem_cons.mp hin with rfl | hm
    · exact (dateFreeD_iff d).mp hd _ hkv0
    · by_cases hc : kv0.1 = ak
      · rw [if_pos hc] at hm
        rcases List.mem_singleton.mp hm with rfl
        exact hv
      · rw [if_neg hc] at hm
        exact absurd hm (List.not_mem_nil _)

theorem dateFreeD_insert_dict_after {d ins : List (String × Value)}
    {ak : String} (hd : dateFreeD d = true)
    (hins : dateFreeD ins = true) :
    dateFreeD (insert_dict_after d ins ak) = true := by
  rw [insert_dict_after]
  refine dateFreeD_odFrom (fun kv hkv => ?_)
  rcases List.mem_flatMap.mp hkv with ⟨kv0, hkv0, hin⟩
  rcases List.mem_cons.mp hin with rfl | hm
  · exact (dateFreeD_iff d).mp hd _ hkv0
  · by_cases hc : kv0.1 = ak
    · rw [if_pos hc] at hm
      exact (dateFreeD_iff ins).mp hins kv hm
    · rw [if_neg hc] at hm
      exact absurd hm (List.not_mem_nil _)

end MC

namespace MC

theorem wfStore_parts {s : Store} (hs : wfStore s = true) :
    (match lookupS s "task" with
      | some v => isVStr v
      | none => true) = true
  ∧ (match lookupS s "evaluation_forms" with
      | some (.vlist l) => l.all isVStr
      | some _ => false
      | none => true) = true
  ∧ s.all (fun kv =>
      if endsWithS kv.1 "model_inputs"
          || endsWithS kv.1 "model_outputs" then
        (match kv.2 with
          | .vlist l => l.all isVStr
          | _ => true)
      else true) = true
  ∧ s.all (fun kv =>
      if endsWithS kv.1 "_list" then
        (match kv.2 with
          | .vlist l => l.all isVStr
          | _ => false)
      else true) = true
  ∧ (match lookupS s "learning_architecture_forms" with
      | some (.vstr _) => true
      | some (.vlist _) => true
      | some (.vdict _) => true
      | some _ => false
      | none => true) = true
  ∧ (match lookupS s "render_uploads" with
      | some (.vdict d) => d.all (fun kv =>
          !truthy kv.2 || (match kv.2 with
            | .vdict _ => true
            | _ => false))
      | some _ => false
      | none => true) = true
  ∧ s.all (fun kv => dateFreeV kv.2) = true := by
  rw [wfStore] at hs
  simp only [Bool.and_eq_true] at hs
  exact ⟨hs.1.1.1.1.1.1, hs.1.1.1.1.1.2, hs.1.1.1.1.2, hs.1.1.1.2,
    hs.1.1.2, hs.1.2, hs.2⟩

theorem lookupS_mem {s : Store} {k : String} {v : Value}
    (h : lookupS s k = some v) : (k, v) ∈ s := by
  induction s with
  | nil => exact Option.noConfusion h
  | cons kv tl ih =>
      obtain ⟨k1, v1⟩ := kv
      by_cases he : k1 = k
      · have h2 : some v1 = some v := by
          rw [← h]
          show _ = (if k1 = k then some v1 else lookupS tl k)
          rw [if_pos he]
        cases h2
        subst he
        exact List.mem_cons_self _ _
      · have h2 : lookupS tl k = some v := by
          rw [← h]
          show _ = (if k1 = k then some v1 else lookupS tl k)
          rw [if_neg he]
        exact List.mem_cons_of_mem _ (ih h2)

theorem alook_mem {α : Type} {l : List (String × α)} {k : String} {v : α}
    (h : alook l k = some v) : (k, v) ∈ l := by
  induction l with
  | nil => exact Option.noConfusion h
  | cons kv tl ih =>
      by_cases he : kv.1 = k
      · have h2 : some kv.2 = some v := by
          rw [← h]
          show _ = (if kv.1 = k then some kv.2 else alook tl k)
          rw [if_pos he]
        cases h2
        have h3 : kv = (k, kv.2) := by
          rw [← he]
        rw [← h3]
        exact List.mem_cons_self _ _
      · have h2 : alook tl k = some v := by
          rw [← h]
          show _ = (if kv.1 = k then some kv.2 else alook tl k)
          rw [if_neg he]
        exact List.mem_cons_of_mem _ (ih h2)

theorem startsWithL_append_self (p x : List Char) :
    startsWithL p (p ++ x) = true := by
  induction p with
  | nil => rfl
  | cons c ps ih =>
      show (c == c && startsWithL ps (ps ++ x)) = true
      rw [ih]
      simp

theorem endsWithS_append (a b : String) : endsWithS (a ++ b) b = true := by
  rw [endsWithS, String.data_append, List.reverse_append]
  exact startsWithL_append_self _ _

theorem isVStr_elim {v : Value} (h : isVStr v = true) :
    ∃ t, v = Value.vstr t := by
  cases v with
  | vstr t => exact ⟨t, rfl⟩
  | vint n => exact Bool.noConfusion h
  | vbool b => exact Bool.noConfusion h
  | vnone => exact Bool.noConfusion h
  | vdate d => exact Bool.noConfusion h
  | vlist l => exact Bool.noConfusion h
  | vdict d => exact Bool.noConfusion h

/-- mapME with a result predicate: pointwise success gives loop success.
-/
theorem mapME_ok {α β : Type} {f : α → Except PyErr β} {P : β → Prop} :
    ∀ {l : List α}, (∀ a ∈ l, ∃ b, f a = .ok b ∧ P b) →
    ∃ bs, mapME f l = .ok bs ∧ ∀ b ∈ bs, P b := by
  intro l
  induction l with
  | nil => exact fun _ => ⟨[], rfl, fun b hb => absurd hb
      (List.not_mem_nil _)⟩
  | cons a tl ih =>
      intro h
      obtain ⟨b, hb, hPb⟩ := h a (List.mem_cons_self _ _)
      obtain ⟨bs, hbs, hPs⟩ := ih (fun x hx =>
        h x (List.mem_cons_of_mem _ hx))
      refine ⟨b :: bs, ?_, fun x hx => ?_⟩
      · show (match f a with
          | Except.error e => Except.error e
          | Except.ok b2 =>
              match mapME f tl with
              | Except.error e => Except.error e
              | Except.ok bs2 => Except.ok (b2 :: bs2))
          = Except.ok (b :: bs)
        rw [hb, hbs]
      · rcases List.mem_cons.mp hx with rfl | hm
        · exact hPb
        · exact hPs x hm

theorem flatMapME_ok {α β : Type} {f : α → Except PyErr (List β)} :
    ∀ {l : List α}, (∀ a ∈ l, ∃ bs, f a = .ok bs) →
    ∃ out, flatMapME f l = .ok out := by
  intro l
  induction l with
  | nil => exact fun _ => ⟨[], rfl⟩
  | cons a tl ih =>
      intro h
      obtain ⟨bs, hb⟩ := h a (List.mem_cons_self _ _)
      obtain ⟨out, hout⟩ := ih (fun x hx =>
        h x (List.mem_cons_of_mem _ hx))
      refine ⟨bs ++ out, ?_⟩
      show (match f a with
        | Except.error e => Except.error e
        | Except.ok l2 =>
            match flatMapME f tl with
            | Except.error e => Except.error e
            | Except.ok ls => Except.ok (l2 ++ ls))
        = Except.ok (bs ++ out)
      rw [hb, hout]

/-- Every modality discovered in a well-formed store is a str. -/
theorem iterMod_vstr {s : Store}
    (h3 : s.all (fun kv =>
      if endsWithS kv.1 "model_inputs"
          || endsWithS kv.1 "model_outputs" then
        (match kv.2 with
          | .vlist l => l.all isVStr
          | _ => true)
      else true) = true) :
    ∀ ms ∈ _iter_modalities s, ∃ m, ms.1 = Value.vstr m := by
  intro ms hms
  rcases List.mem_flatMap.mp hms with ⟨kv, hkv, hin⟩
  have hwf := List.all_eq_true.mp h3 kv hkv
  cases hv : kv.2 with
  | vlist items =>
      rw [hv] at hin
      have hin2 : ms ∈ (if endsWithS kv.1 "model_inputs" then
          items.map (fun item => (item, "model_inputs"))
        else if endsWithS kv.1 "model_outputs" then
          items.map (fun item => (item, "model_outputs"))
        else []) := hin
      clear hin
      rename' hin2 => hin
      by_cases h1 : endsWithS kv.1 "model_inputs" = true
      · rw [if_pos h1] at hin
        rcases List.mem_map.mp hin with ⟨item, hitem, rfl⟩
        have h2 : (if endsWithS kv.1 "model_inputs"
            || endsWithS kv.1 "model_outputs" then
            (match kv.2 with
              | .vlist l => l.all isVStr
              | _ => true)
          else true) = true := hwf
        rw [if_pos (by rw [h1]; rfl), hv] at h2
        obtain ⟨m, hm⟩ := isVStr_elim (List.all_eq_true.mp h2 item hitem)
        exact ⟨m, hm⟩
      · rw [if_neg h1] at hin
        by_cases h2 : endsWithS kv.1 "model_outputs" = true
        · rw [if_pos h2] at hin
          rcases List.mem_map.mp hin with ⟨item, hitem, rfl⟩
          have h4 : (if endsWithS kv.1 "model_inputs"
              || endsWithS kv.1 "model_outputs" then
              (match kv.2 with
                | .vlist l => l.all isVStr
                | _ => true)
            else true) = true := hwf
          rw [if_pos (by rw [h2]; simp), hv] at h4
          obtain ⟨m, hm⟩ := isVStr_elim (List.all_eq_true.mp h4 item hitem)
          exact ⟨m, hm⟩
        · rw [if_neg h2] at hin
          exact absurd hin (List.not_mem_nil _)
  | vstr t => rw [hv] at hin; exact absurd hin (List.not_mem_nil _)
  | vint n => rw [hv] at hin; exact absurd hin (List.not_mem_nil _)
  | vbool b => rw [hv] at hin; exact absurd hin (List.not_mem_nil _)
  | vnone => rw [hv] at hin; exact absurd hin (List.not_mem_nil _)
  | vdate d => rw [hv] at hin; exact absurd hin (List.not_mem_nil _)
  | vdict d => rw [hv] at hin; exact absurd hin (List.not_mem_nil _)

/-- Reading a _list-suffixed key of a well-formed store (default [])
gives a list of strs. -/
theorem listKey_wf {s : Store} {k : String}
    (h4 : s.all (fun kv =>
      if endsWithS kv.1 "_list" then
        (match kv.2 with
          | .vlist l => l.all isVStr
          | _ => false)
      else true) = true)
    (hk : endsWithS k "_list" = true) :
    ∃ l, getD s k (.vlist []) = .vlist l ∧ l.all isVStr = true := by
  rw [getD]
  cases hl : lookupS s k with
  | none => exact ⟨[], rfl, rfl⟩
  | some v =>
      have hwf := List.all_eq_true.mp h4 (k, v) (lookupS_mem hl)
      rw [if_pos (by exact hk)] at hwf
      cases v with
      | vlist l => exact ⟨l, rfl, hwf⟩
      | vstr t => exact Bool.noConfusion hwf
      | vint n => exact Bool.noConfusion hwf
      | vbool b => exact Bool.noConfusion hwf
      | vnone => exact Bool.noConfusion hwf
      | vdate d => exact Bool.noConfusion hwf
      | vdict d => exact Bool.noConfusion hwf

/-- Every metric type reachable through TASK_METRIC_MAP of a well-formed
constants table has its field list. -/
theorem tmm_fields_ok {c : Consts} (hc : wfConsts c = true) (t : String) :
    ∀ mt ∈ (alook c.TASK_METRIC_MAP t).getD [],
      (alook c.EVALUATION_METRIC_FIELDS mt).isSome = true := by
  rw [wfConsts, Bool.and_eq_true] at hc
  intro mt hmt
  cases hl : alook c.TASK_METRIC_MAP t with
  | none =>
      rw [hl] at hmt
      exact absurd hmt (List.not_mem_nil _)
  | some mts =>
      rw [hl] at hmt
      have h2 := List.all_eq_true.mp hc.1 (t, mts) (alook_mem hl)
      exact List.all_eq_true.mp h2 mt hmt

end MC

namespace MC

theorem extractMetricEntry_ok {c : Consts} {s : Store}
    (nested mk0 : String) (mn : Value)
    (hdf : s.all (fun kv => dateFreeV kv.2) = true)
    (hemf : (alook c.EVALUATION_METRIC_FIELDS mk0).isSome = true)
    (hmn : dateFreeV mn = true) :
    ∃ em, extractMetricEntry c s nested mk0 mn = .ok em
      ∧ dateFreeD em = true := by
  unfold extractMetricEntry
  cases he : alook c.EVALUATION_METRIC_FIELDS mk0 with
  | none =>
      rw [he] at hemf
      exact Bool.noConfusion hemf
  | some emf =>
      refine ⟨_, rfl, ?_⟩
      refine @dateFreeD_foldl_write String (fun field => field)
        (fun field => getD s (nested ++ pyStr mn ++ "_" ++ field)
          (.vstr ""))
        emf (fun a _ => dateFree_getD hdf rfl) [("name", mn)] ?_
      show (dateFreeV mn && dateFreeD []) = true
      rw [hmn]
      rfl

theorem extractFieldsGo_df {s : Store} (pfx : String)
    (hdf : s.all (fun kv => dateFreeV kv.2) = true) :
    ∀ (fields : List String) (ev : List (String × Value)),
    dateFreeD ev = true →
    dateFreeD (extractFieldsGo s pfx ev fields) = true := by
  intro fields
  induction fields with
  | nil =>
      intro ev h
      exact h
  | cons field rest ih =>
      intro ev h
      show dateFreeD (
        if startsWithS field "evaluated_by_" && containsKey ev field then
          extractFieldsGo s pfx ev rest
        else
          extractFieldsGo s pfx
            (if truthy ((lookupS (setKey ev field
                (getD s (pfx ++ field) (.vstr "")))
                "evaluated_same_as_approved").getD (.vbool false)) then
              setKey (setKey (setKey (setKey ev field
                (getD s (pfx ++ field) (.vstr "")))
                "evaluated_by_name"
                (getD s "model_basic_information_clearance_approved_by_name"
                  (.vstr "")))
                "evaluated_by_institution"
                (getD s
                  "model_basic_information_clearance_approved_by_institution"
                  (.vstr "")))
                "evaluated_by_contact_email"
                (getD s
                  "model_basic_information_clearance_approved_by_contact_email"
                  (.vstr ""))
            else setKey ev field (getD s (pfx ++ field) (.vstr "")))
            rest) = true
      by_cases hc : (startsWithS field "evaluated_by_"
          && containsKey ev field) = true
      · rw [if_pos hc]
        exact ih ev h
      · rw [if_neg hc]
        by_cases ht : truthy ((lookupS (setKey ev field
            (getD s (pfx ++ field) (.vstr "")))
            "evaluated_same_as_approved").getD (.vbool false)) = true
        · rw [if_pos ht]
          exact ih _ (dateFreeD_setKey (dateFreeD_setKey
            (dateFreeD_setKey (dateFreeD_setKey h (dateFree_getD hdf rfl))
              (dateFree_getD hdf rfl)) (dateFree_getD hdf rfl))
            (dateFree_getD hdf rfl))
        · rw [if_neg ht]
          exact ih _ (dateFreeD_setKey h (dateFree_getD hdf rfl))

theorem ioDetail_ok {c : Consts} {s : Store} (P src : String)
    (m : String)
    (hdf : s.all (fun kv => dateFreeV kv.2) = true) :
    ∃ d, ioDetail c s P (.vstr m) src = .ok d ∧ dateFreeD d = true := by
  refine ⟨_, rfl, ?_⟩
  exact @dateFreeD_foldl_write (String × String) Prod.fst
    (fun f => _get_with_fallback s
      (P ++ cleanLabel m ++ "_" ++ src ++ "_" ++ f.1))
    c.DATA_INPUT_OUTPUT_TS (fun a _ => dateFree_gwf _ hdf)
    [("entry", .vstr m), ("source", .vstr src)] rfl

theorem ioDetail3_ok {c : Consts} {s : Store} (pfx src : String)
    (m : String)
    (hdf : s.all (fun kv => dateFreeV kv.2) = true) :
    ∃ d, ioDetail3 c s pfx (.vstr m) src = .ok d ∧ dateFreeD d = true := by
  refine ⟨_, rfl, ?_⟩
  exact @dateFreeD_foldl_write (String × String) Prod.fst
    (fun f => orV (getD s
        (pfx ++ cleanLabel m ++ "_" ++ src ++ "_" ++ f.1) .vnone)
      (orV (getD s
          ("_" ++ (pfx ++ cleanLabel m ++ "_" ++ src ++ "_" ++ f.1)) .vnone)
        (orV (getD s
          ("__" ++ (pfx ++ cleanLabel m ++ "_" ++ src ++ "_" ++ f.1))
          .vnone) (.vstr ""))))
    c.DATA_INPUT_OUTPUT_TS
    (fun a _ => dateFree_orV (dateFree_getD hdf rfl)
      (dateFree_orV (dateFree_getD hdf rfl)
        (dateFree_orV (dateFree_getD hdf rfl) rfl)))
    [("entry", .vstr m), ("source", .vstr src)] rfl

theorem extractMetricsGo_ok {c : Consts} {s : Store} (nested pfx : String)
    (h4 : s.all (fun kv =>
      if endsWithS kv.1 "_list" then
        (match kv.2 with
          | .vlist l => l.all isVStr
          | _ => false)
      else true) = true)
    (hdf : s.all (fun kv => dateFreeV kv.2) = true) :
    ∀ (mts : List String),
    (∀ mt ∈ mts, (alook c.EVALUATION_METRIC_FIELDS mt).isSome = true) →
    ∀ acc, dateFreeD acc = true →
    ∃ mdic, extractMetricsGo c s nested pfx acc mts = .ok mdic
      ∧ dateFreeD mdic = true := by
  intro mts
  induction mts with
  | nil =>
      intro _ acc hacc
      exact ⟨acc, rfl, hacc⟩
  | cons mt rest ih =>
      intro hmem acc hacc
      obtain ⟨l, hl, hall⟩ := listKey_wf h4
        (endsWithS_append (pfx ++ mt) "_list")
      have hents : ∀ mn ∈ l, ∃ em,
          extractMetricEntry c s nested mt mn = .ok em
          ∧ dateFreeD em = true := by
        intro mn hmn
        obtain ⟨tmn, rfl⟩ := isVStr_elim (List.all_eq_true.mp hall mn hmn)
        exact extractMetricEntry_ok nested mt _ hdf
          (hmem mt (List.mem_cons_self _ _)) rfl
      obtain ⟨ems, hems, hPems⟩ :=
        mapME_ok (P := fun em => dateFreeD em = true) hents
      have hstep : extractMetricsGo c s nested pfx acc (mt :: rest)
          = extractMetricsGo c s nested pfx
            (setKey acc mt (.vlist (ems.map Value.vdict))) rest := by
        show (match iterVals (getD s (pfx ++ mt ++ "_list") (.vlist []))
            with
          | Except.error e => Except.error e
          | Except.ok entries =>
              match mapME (extractMetricEntry c s nested mt) entries with
              | Except.error e => Except.error e
              | Except.ok ems2 => extractMetricsGo c s nested pfx
                  (setKey acc mt (Value.vlist (ems2.map Value.vdict)))
                  rest) = _
        rw [hl]
        show (match mapME (extractMetricEntry c s nested mt) l with
          | Except.error e => Except.error e
          | Except.ok ems2 => extractMetricsGo c s nested pfx
              (setKey acc mt (Value.vlist (ems2.map Value.vdict))) rest)
          = _
        rw [hems]
      have hdacc : dateFreeD (setKey acc mt
          (.vlist (ems.map Value.vdict))) = true := by
        refine dateFreeD_setKey hacc ?_
        show dateFreeL (ems.map Value.vdict) = true
        rw [dateFreeL_iff]
        intro x hx
        rcases List.mem_map.mp hx with ⟨em, hem, rfl⟩
        exact hPems em hem
      obtain ⟨mdic, hm, hdm⟩ := ih
        (fun mt2 h2 => hmem mt2 (List.mem_cons_of_mem _ h2)) _ hdacc
      refine ⟨mdic, ?_, hdm⟩
      rw [hstep]
      exact hm

end MC

namespace MC

theorem extractOneEval_ok {c : Consts} {s : Store} (t : String)
    (iter_fields : List String) (nm : String)
    (hc : wfConsts c = true)
    (h3 : s.all (fun kv =>
      if endsWithS kv.1 "model_inputs"
          || endsWithS kv.1 "model_outputs" then
        (match kv.2 with
          | .vlist l => l.all isVStr
          | _ => true)
      else true) = true)
    (h4 : s.all (fun kv =>
      if endsWithS kv.1 "_list" then
        (match kv.2 with
          | .vlist l => l.all isVStr
          | _ => false)
      else true) = true)
    (hdf : s.all (fun kv => dateFreeV kv.2) = true) :
    ∃ ev, extractOneEval c s (.vstr t) iter_fields (.vstr nm) = .ok ev
      ∧ dateFreeD ev = true := by
  obtain ⟨ds, hds, hPds⟩ := mapME_ok (P := fun d => dateFreeD d = true)
    (l := _iter_modalities s)
    (fun ms hms => by
      obtain ⟨m, hm⟩ := iterMod_vstr h3 ms hms
      show ∃ d, ioDetail3 c s
        ("evaluation_" ++ pyReplace nm " " "_" ++ "_") ms.1 ms.2
        = Except.ok d ∧ dateFreeD d = true
      rw [hm]
      exact ioDetail3_ok _ ms.2 m hdf)
  obtain ⟨mdic, hmdic, hdm⟩ := extractMetricsGo_ok
    ("evaluation_" ++ pyReplace nm " " "_" ++ ".")
    ("evaluation_" ++ pyReplace nm " " "_" ++ "_") h4 hdf
    ((alook c.TASK_METRIC_MAP t).getD []) (tmm_fields_ok hc t) [] rfl
  refine ⟨insert_dict_after
      (insert_after (extractFieldsGo s
          ("evaluation_" ++ pyReplace nm " " "_" ++ "_")
          [("name", Value.vstr nm)] iter_fields)
        "inputs_outputs_technical_specifications"
        (.vlist (ds.map Value.vdict)) "url_info")
      mdic "additional_patient_info_ev", ?_, ?_⟩
  · show (match mapME (fun ms => ioDetail3 c s
        ("evaluation_" ++ pyReplace nm " " "_" ++ "_") ms.1 ms.2)
        (_iter_modalities s) with
      | Except.error e => Except.error e
      | Except.ok ds2 =>
          match taskGet c (.vstr t) with
          | Except.error e => Except.error e
          | Except.ok mts =>
              match extractMetricsGo c s
                ("evaluation_" ++ pyReplace nm " " "_" ++ ".")
                ("evaluation_" ++ pyReplace nm " " "_" ++ "_") [] mts with
              | Except.error e => Except.error e
              | Except.ok mdic2 => Except.ok (insert_dict_after
                  (insert_after (extractFieldsGo s
                      ("evaluation_" ++ pyReplace nm " " "_" ++ "_")
                      [("name", Value.vstr nm)] iter_fields)
                    "inputs_outputs_technical_specifications"
                    (.vlist (ds2.map Value.vdict)) "url_info")
                  mdic2 "additional_patient_info_ev")) = _
    rw [hds]
    show (match extractMetricsGo c s
        ("evaluation_" ++ pyReplace nm " " "_" ++ ".")
        ("evaluation_" ++ pyReplace nm " " "_" ++ "_") []
        ((alook c.TASK_METRIC_MAP t).getD []) with
      | Except.error e => Except.error e
      | Except.ok mdic2 => Except.ok (insert_dict_after
          (insert_after (extractFieldsGo s
              ("evaluation_" ++ pyReplace nm " " "_" ++ "_")
              [("name", Value.vstr nm)] iter_fields)
            "inputs_outputs_technical_specifications"
            (.vlist (ds.map Value.vdict)) "url_info")
          mdic2 "additional_patient_info_ev")) = _
    rw [hmdic]
  · refine dateFreeD_insert_dict_after (dateFreeD_insert_after
      (extractFieldsGo_df _ hdf iter_fields _ rfl) ?_) hdm
    show dateFreeL (ds.map Value.vdict) = true
    rw [dateFreeL_iff]
    intro x hx
    rcases List.mem_map.mp hx with ⟨d, hd, rfl⟩
    exact hPds d hd

theorem extract_evaluations_ok {c : Consts} {s : Store}
    (hs : wfStore s = true) (hc : wfConsts c = true) :
    ∃ evals, extract_evaluations_from_state c s = .ok evals
      ∧ ∀ ev ∈ evals, dateFreeD ev = true := by
  obtain ⟨h1, h2, h3, h4, _, _, h7⟩ := wfStore_parts hs
  have htask : ∃ t, getD s "task" (.vstr "Other") = .vstr t := by
    rw [getD]
    cases hl : lookupS s "task" with
    | none => exact ⟨"Other", rfl⟩
    | some v =>
        rw [hl] at h1
        obtain ⟨t, rfl⟩ := isVStr_elim h1
        exact ⟨t, rfl⟩
  obtain ⟨t, ht⟩ := htask
  have hforms : ∃ names,
      iterVals (getD s "evaluation_forms" (.vlist [])) = .ok names
      ∧ ∀ x ∈ names, ∃ t2, x = Value.vstr t2 := by
    rw [getD]
    cases hl : lookupS s "evaluation_forms" with
    | none => exact ⟨[], rfl, fun x hx => absurd hx (List.not_mem_nil _)⟩
    | some v =>
        rw [hl] at h2
        cases v with
        | vlist l =>
            exact ⟨l, rfl, fun x hx =>
              isVStr_elim (List.all_eq_true.mp h2 x hx)⟩
        | vstr t2 => exact Bool.noConfusion h2
        | vint n => exact Bool.noConfusion h2
        | vbool b => exact Bool.noConfusion h2
        | vnone => exact Bool.noConfusion h2
        | vdate d => exact Bool.noConfusion h2
        | vdict d => exact Bool.noConfusion h2
  obtain ⟨names, hnames, hstr⟩ := hforms
  obtain ⟨evals, hevals, hP⟩ := mapME_ok
    (P := fun ev => dateFreeD ev = true) (l := names)
    (fun nv hnv => by
      obtain ⟨nm, rfl⟩ := hstr nv hnv
      exact extractOneEval_ok t (iterFieldsOf c (.vstr t)) nm hc h3 h4 h7)
  refine ⟨evals, ?_, hP⟩
  show (match iterVals (getD s "evaluation_forms" (.vlist [])) with
    | Except.error e => Except.error e
    | Except.ok names2 => mapME (extractOneEval c s
        (getD s "task" (.vstr "Other"))
        (iterFieldsOf c (getD s "task" (.vstr "Other")))) names2)
    = Except.ok evals
  rw [ht, hnames]
  show mapME (extractOneEval c s (Value.vstr t)
    (iterFieldsOf c (Value.vstr t))) names = Except.ok evals
  exact hevals

end MC

namespace MC

theorem attachMetricEntry_ok {c : Consts} {s : Store} (nameV : Value)
    (mt : String) (mn : Value)
    (hdf : s.all (fun kv => dateFreeV kv.2) = true)
    (hemf : (alook c.EVALUATION_METRIC_FIELDS mt).isSome = true)
    (hmn : dateFreeV mn = true) :
    ∃ m, attachMetricEntry c s nameV mt mn = .ok m
      ∧ dateFreeD m = true := by
  unfold attachMetricEntry
  cases he : alook c.EVALUATION_METRIC_FIELDS mt with
  | none =>
      rw [he] at hemf
      exact Bool.noConfusion hemf
  | some emf =>
      refine ⟨_, rfl, ?_⟩
      refine @dateFreeD_foldl_write String (fun field => field)
        (fun field => _get_with_fallback s
          ("evaluation_" ++ pyStr nameV ++ "_" ++ pyStr mn ++ "_"
            ++ field))
        emf (fun a _ => dateFree_gwf _ hdf) [("name", mn)] ?_
      show (dateFreeV mn && dateFreeD []) = true
      rw [hmn]
      rfl

theorem attachMetricsGo_ok {c : Consts} {s : Store} (nameV : Value)
    (h4 : s.all (fun kv =>
      if endsWithS kv.1 "_list" then
        (match kv.2 with
          | .vlist l => l.all isVStr
          | _ => false)
      else true) = true)
    (hdf : s.all (fun kv => dateFreeV kv.2) = true) :
    ∀ (mts : List String),
    (∀ mt ∈ mts, (alook c.EVALUATION_METRIC_FIELDS mt).isSome = true) →
    ∀ ev, dateFreeD ev = true →
    ∃ ev2, attachMetricsGo c s nameV ev mts = .ok ev2
      ∧ dateFreeD ev2 = true := by
  intro mts
  induction mts with
  | nil =>
      intro _ ev hev
      exact ⟨ev, rfl, hev⟩
  | cons mt rest ih =>
      intro hmem ev hev
      obtain ⟨l, hl, hall⟩ := listKey_wf h4
        (endsWithS_append ("evaluation_" ++ pyStr nameV ++ "_" ++ mt)
          "_list")
      obtain ⟨metrics, hmet, hPmet⟩ :=
        mapME_ok (P := fun m => dateFreeD m = true) (l := l)
        (fun mn hmn => by
          obtain ⟨tmn, rfl⟩ := isVStr_elim
            (List.all_eq_true.mp hall mn hmn)
          exact attachMetricEntry_ok nameV mt _ hdf
            (hmem mt (List.mem_cons_self _ _)) rfl)
      have hev2 : dateFreeD (if metrics.isEmpty then ev
          else setKey ev mt (.vlist (metrics.map Value.vdict))) = true := by
        by_cases hmp : metrics.isEmpty = true
        · rw [if_pos hmp]
          exact hev
        · rw [if_neg hmp]
          refine dateFreeD_setKey hev ?_
          show dateFreeL (metrics.map Value.vdict) = true
          rw [dateFreeL_iff]
          intro x hx
          rcases List.mem_map.mp hx with ⟨m, hm, rfl⟩
          exact hPmet m hm
      obtain ⟨ev2, hgo, hdev2⟩ := ih
        (fun mt2 h2 => hmem mt2 (List.mem_cons_of_mem _ h2)) _ hev2
      refine ⟨ev2, ?_, hdev2⟩
      show (match iterVals (getD s
          ("evaluation_" ++ pyStr nameV ++ "_" ++ mt ++ "_list")
          (.vlist [])) with
        | Except.error e => Except.error e
        | Except.ok mnames =>
            match mapME (attachMetricEntry c s nameV mt) mnames with
            | Except.error e => Except.error e
            | Except.ok metrics2 =>
                attachMetricsGo c s nameV
                  (if metrics2.isEmpty then ev
                    else setKey ev mt (.vlist (metrics2.map Value.vdict)))
                  rest) = Except.ok ev2
      rw [hl]
      show (match mapME (attachMetricEntry c s nameV mt) l with
        | Except.error e => Except.error e
        | Except.ok metrics2 =>
            attachMetricsGo c s nameV
              (if metrics2.isEmpty then ev
                else setKey ev mt (.vlist (metrics2.map Value.vdict)))
              rest) = Except.ok ev2
      rw [hmet]
      exact hgo

theorem attach_metrics_ok {c : Consts} {s : Store}
    (structured : List (String × Value))
    (hs : wfStore s = true) (hc : wfConsts c = true)
    (hstd : dateFreeD structured = true) :
    ∃ st2, _attach_metrics c s structured (lookupS s "task") = .ok st2
      ∧ dateFreeD st2 = true := by
  obtain ⟨h1, _, _, h4, _, _, h7⟩ := wfStore_parts hs
  obtain ⟨evals, hev, hPev⟩ := extract_evaluations_ok hs hc
  have htn : ∃ tn, (match lookupS s "task" with
      | some v =>
          if truthy v then
            (match v with
              | Value.vstr t => Except.ok (pyLower (pyStrip t))
              | _ => Except.error PyErr.attributeError)
          else Except.ok ""
      | none => Except.ok "") = Except.ok tn := by
    cases hl : lookupS s "task" with
    | none => exact ⟨"", rfl⟩
    | some v =>
        rw [hl] at h1
        obtain ⟨t, rfl⟩ := isVStr_elim h1
        show ∃ tn, (if truthy (Value.vstr t) then
            (match Value.vstr t with
              | Value.vstr t2 => Except.ok (pyLower (pyStrip t2))
              | _ => Except.error PyErr.attributeError)
          else Except.ok "") = Except.ok tn
        by_cases htr : truthy (Value.vstr t) = true
        · rw [if_pos htr]
          exact ⟨pyLower (pyStrip t), rfl⟩
        · rw [if_neg htr]
          exact ⟨"", rfl⟩
  obtain ⟨tn, htn2⟩ := htn
  obtain ⟨evals2, hev2, hPev2⟩ :=
    mapME_ok (P := fun ev => dateFreeD ev = true) (l := evals)
    (fun ev hevm => by
      show ∃ ev2, attachMetricsGo c s
        ((lookupS ev "name").getD (.vstr "")) ev
        ((alook c.TASK_METRIC_MAP tn).getD []) = Except.ok ev2
        ∧ dateFreeD ev2 = true
      exact attachMetricsGo_ok _ h4 h7 _ (tmm_fields_ok hc tn) ev
        (hPev ev hevm))
  refine ⟨setKey structured "evaluations"
    (.vlist (evals2.map Value.vdict)), ?_, ?_⟩
  · unfold _attach_metrics
    rw [hev, htn2]
    show (match mapME (fun ev => attachMetricsGo c s
        ((lookupS ev "name").getD (.vstr "")) ev
        ((alook c.TASK_METRIC_MAP tn).getD [])) evals with
      | Except.error e => Except.error e
      | Except.ok evals3 =>
          Except.ok (setKey structured "evaluations"
            (.vlist (evals3.map Value.vdict))))
      = Except.ok (setKey structured "evaluations"
          (.vlist (evals2.map Value.vdict)))
    rw [hev2]
  · refine dateFreeD_setKey hstd ?_
    show dateFreeL (evals2.map Value.vdict) = true
    rw [dateFreeL_iff]
    intro x hx
    rcases List.mem_map.mp hx with ⟨ev, hevm, rfl⟩
    exact hPev2 ev hevm

end MC

namespace MC

/-- dateFree of a conditional write-loop. -/
theorem dateFreeD_foldl_writeC {α : Type} (cond : α → Bool)
    (wf : α → String) (wv : α → Value) :
    ∀ (l : List α), (∀ a ∈ l, dateFreeV (wv a) = true) →
    ∀ acc, dateFreeD acc = true →
    dateFreeD (l.foldl (fun d a =>
      if cond a then setKey d (wf a) (wv a) else d) acc) = true := by
  intro l
  induction l with
  | nil =>
      intro _ acc hacc
      exact hacc
  | cons a tl ih =>
      intro h acc hacc
      rw [List.foldl_cons]
      refine ih (fun b hb => h b (List.mem_cons_of_mem _ hb)) _ ?_
      show dateFreeD (if cond a then setKey acc (wf a) (wv a) else acc)
        = true
      by_cases hg : cond a = true
      · rw [if_pos hg]
        exact dateFreeD_setKey hacc (h a (List.mem_cons_self _ _))
      · rw [if_neg hg]
        exact hacc

theorem collectSect_df {s : Store} (task : Option Value) (sec : String)
    (ss : SchemaSection)
    (hdf : s.all (fun kv => dateFreeV kv.2) = true) :
    dateFreeD (collectSect s task sec ss) = true := by
  cases ss with
  | slist keys =>
      exact @dateFreeD_foldl_write String
        (fun fk => dropPfx fk (sec ++ "_"))
        (fun fk => getD s fk (.vstr "")) keys
        (fun a _ => dateFree_getD hdf rfl) [] rfl
  | smap fields =>
      exact @dateFreeD_foldl_writeC (String × FieldProps)
        (fun f => mtAllows f.2.model_types task) (fun f => f.1)
        (fun f => getD s (sec ++ "_" ++ f.1) (.vstr "")) fields
        (fun a _ => dateFree_getD hdf rfl) [] rfl

theorem alook_collect_df {s : Store} {schema : Schema}
    {task : Option Value}
    (hdf : s.all (fun kv => dateFreeV kv.2) = true) :
    ∀ sec sect, alook (_collect_raw_sections s schema task) sec
      = some sect → dateFreeD sect = true := by
  have hgen : ∀ (sch : Schema)
      (acc : List (String × List (String × Value))),
      (∀ sec sect, alook acc sec = some sect → dateFreeD sect = true) →
      ∀ sec sect, alook (sch.foldl (fun raw seckv =>
        aset raw seckv.1 (collectSect s task seckv.1 seckv.2)) acc) sec
        = some sect → dateFreeD sect = true := by
    intro sch
    induction sch with
    | nil =>
        intro acc hacc
        exact hacc
    | cons hd tl ih =>
        intro acc hacc
        rw [List.foldl_cons]
        refine ih _ (fun sec sect hsect => ?_)
        by_cases he : sec = hd.1
        · subst he
          rw [alook_aset_self] at hsect
          cases hsect
          exact collectSect_df task _ hd.2 hdf
        · rw [alook_aset_ne _ _ he] at hsect
          exact hacc sec sect hsect
  exact hgen schema [] (fun sec sect h => Option.noConfusion h)

theorem alook_collect_isSome {s : Store} {schema : Schema}
    {task : Option Value} {sec : String}
    (hmem : sec ∈ schema.map Prod.fst) :
    (alook (_collect_raw_sections s schema task) sec).isSome = true := by
  have hgen : ∀ (sch : Schema)
      (acc : List (String × List (String × Value))),
      (sec ∈ sch.map Prod.fst ∨ (alook acc sec).isSome = true) →
      (alook (sch.foldl (fun raw seckv =>
        aset raw seckv.1 (collectSect s task seckv.1 seckv.2)) acc)
        sec).isSome = true := by
    intro sch
    induction sch with
    | nil =>
        intro acc hacc
        rcases hacc with h | h
        · exact absurd h (List.not_mem_nil _)
        · exact h
    | cons hd tl ih =>
        intro acc hacc
        rw [List.foldl_cons]
        refine ih _ ?_
        rcases hacc with h | h
        · rw [List.map_cons, List.mem_cons] at h
          rcases h with he | hm
          · right
            rw [he, alook_aset_self]
            rfl
          · left
            exact hm
        · right
          by_cases he : sec = hd.1
          · rw [he, alook_aset_self]
            rfl
          · rw [alook_aset_ne _ _ he]
            exact h
  exact hgen schema [] (Or.inl hmem)

theorem buildLAs_ok {c : Consts} {s : Store}
    (h5 : (match lookupS s "learning_architecture_forms" with
      | some (.vstr _) => true
      | some (.vlist _) => true
      | some (.vdict _) => true
      | some _ => false
      | none => true) = true)
    (hdf : s.all (fun kv => dateFreeV kv.2) = true)
    (hcla : c.LEARNING_ARCHITECTURE.all (fun kv => dateFreeV kv.2)
      = true) :
    ∃ las, _build_learning_architectures c s = .ok las
      ∧ ∀ a ∈ las, dateFreeD a = true := by
  have hlen : ∃ n, pyLen (getD s "learning_architecture_forms"
      (.vdict [])) = .ok n := by
    rw [getD]
    cases hl : lookupS s "learning_architecture_forms" with
    | none => exact ⟨0, rfl⟩
    | some v =>
        rw [hl] at h5
        cases v with
        | vstr t => exact ⟨t.data.length, rfl⟩
        | vlist l => exact ⟨l.length, rfl⟩
        | vdict d => exact ⟨d.length, rfl⟩
        | vint n => exact Bool.noConfusion h5
        | vbool b => exact Bool.noConfusion h5
        | vnone => exact Bool.noConfusion h5
        | vdate d => exact Bool.noConfusion h5
  obtain ⟨n, hn⟩ := hlen
  refine ⟨(List.range n).map (fun i =>
      setKey
        (c.LEARNING_ARCHITECTURE.map (fun fkv =>
          (fkv.1, getD s ("learning_architecture_"
            ++ String.mk (natDigits i) ++ "_" ++ fkv.1) fkv.2)))
        "id" (.vint i)), ?_, ?_⟩
  · show (match pyLen (getD s "learning_architecture_forms" (.vdict []))
        with
      | Except.error e => Except.error e
      | Except.ok n2 =>
          Except.ok ((List.range n2).map (fun i =>
            setKey
              (c.LEARNING_ARCHITECTURE.map (fun fkv =>
                (fkv.1, getD s ("learning_architecture_"
                  ++ String.mk (natDigits i) ++ "_" ++ fkv.1) fkv.2)))
              "id" (.vint i))))
      = Except.ok ((List.range n).map (fun i =>
          setKey
            (c.LEARNING_ARCHITECTURE.map (fun fkv =>
              (fkv.1, getD s ("learning_architecture_"
                ++ String.mk (natDigits i) ++ "_" ++ fkv.1) fkv.2)))
            "id" (.vint i)))
    rw [hn]
  · intro a ha
    rcases List.mem_map.mp ha with ⟨i, _, rfl⟩
    refine dateFreeD_setKey ?_ rfl
    rw [dateFreeD_iff]
    intro kv hkv
    rcases List.mem_map.mp hkv with ⟨fkv, hfkv, rfl⟩
    exact dateFree_getD hdf (List.all_eq_true.mp hcla fkv hfkv)

theorem base_ok {raw : List (String × List (String × Value))}
    {task : Option Value} {las : List (List (String × Value))}
    (hraw : ∀ sec sect, alook raw sec = some sect →
      dateFreeD sect = true)
    (htaskdf : ∀ v, task = some v → dateFreeV v = true)
    (hlas : ∀ a ∈ las, dateFreeD a = true)
    (htech : (alook raw "technical_specifications").isSome = true) :
    ∃ st1, _base_structured raw task las = .ok st1
      ∧ dateFreeD st1 = true := by
  cases ht : alook raw "technical_specifications" with
  | none =>
      rw [ht] at htech
      exact Bool.noConfusion htech
  | some ts =>
      have hst0 : dateFreeD (taskEntry task) = true := by
        cases task with
        | none => rfl
        | some v =>
            show dateFreeD (if truthy v then [("task", v)] else [])
              = true
            by_cases htr : truthy v = true
            · rw [if_pos htr]
              show (dateFreeV v && dateFreeD []) = true
              rw [htaskdf v rfl]
              rfl
            · rw [if_neg htr]
              rfl
      have hsecfold : ∀ (secs : List String) acc,
          dateFreeD acc = true →
          dateFreeD (secs.foldl (fun acc2 sec =>
            match alook raw sec with
            | some sect => setKey acc2 sec (.vdict sect)
            | none => acc2) acc) = true := by
        intro secs
        induction secs with
        | nil =>
            intro acc hacc
            exact hacc
        | cons sec rest ih =>
            intro acc hacc
            rw [List.foldl_cons]
            refine ih _ ?_
            show dateFreeD (match alook raw sec with
              | some sect => setKey acc sec (.vdict sect)
              | none => acc) = true
            cases hal : alook raw sec with
            | none => exact hacc
            | some sect =>
                exact dateFreeD_setKey hacc
                  (show dateFreeD sect = true from hraw sec sect hal)
      have hts2 : dateFreeD (setKey ts "learning_architectures"
          (.vlist (las.map Value.vdict))) = true := by
        refine dateFreeD_setKey (hraw _ ts ht) ?_
        show dateFreeL (las.map Value.vdict) = true
        rw [dateFreeL_iff]
        intro x hx
        rcases List.mem_map.mp hx with ⟨a, ha, rfl⟩
        exact hlas a ha
      have hts3 : dateFreeD (match alook raw "hw_and_sw" with
          | some sect => setKey (setKey ts "learning_architectures"
              (.vlist (las.map Value.vdict))) "hw_and_sw" (.vdict sect)
          | none => setKey ts "learning_architectures"
              (.vlist (las.map Value.vdict))) = true := by
        cases hal : alook raw "hw_and_sw" with
        | none => exact hts2
        | some sect =>
            exact dateFreeD_setKey hts2 (hraw _ sect hal)
      have heq : _base_structured raw task las
          = Except.ok (match alook raw "training_data" with
            | some sect => setKey
                (setKey (["card_metadata", "model_basic_information",
                  "technical_specifications"].foldl (fun acc sec =>
                    match alook raw sec with
                    | some sect2 => setKey acc sec (.vdict sect2)
                    | none => acc)
                  (taskEntry task))
                  "technical_specifications"
                  (.vdict (match alook raw "hw_and_sw" with
                    | some sect3 => setKey (setKey ts
                        "learning_architectures"
                        (.vlist (las.map Value.vdict))) "hw_and_sw"
                        (.vdict sect3)
                    | none => setKey ts "learning_architectures"
                        (.vlist (las.map Value.vdict)))))
                "training_data" (.vdict sect)
            | none => setKey
                (["card_metadata", "model_basic_information",
                  "technical_specifications"].foldl (fun acc sec =>
                    match alook raw sec with
                    | some sect2 => setKey acc sec (.vdict sect2)
                    | none => acc)
                  (taskEntry task))
                "technical_specifications"
                (.vdict (match alook raw "hw_and_sw" with
                  | some sect3 => setKey (setKey ts
                      "learning_architectures"
                      (.vlist (las.map Value.vdict))) "hw_and_sw"
                      (.vdict sect3)
                  | none => setKey ts "learning_architectures"
                      (.vlist (las.map Value.vdict))))) := by
        show (match alook raw "technical_specifications" with
          | none => Except.error (PyErr.keyError
              "technical_specifications")
          | some ts2 =>
              Except.ok (match alook raw "training_data" with
                | some sect => setKey
                    (setKey (["card_metadata", "model_basic_information",
                      "technical_specifications"].foldl (fun acc sec =>
                        match alook raw sec with
                        | some sect2 => setKey acc sec (.vdict sect2)
                        | none => acc)
                      (taskEntry task))
                      "technical_specifications"
                      (.vdict (match alook raw "hw_and_sw" with
                        | some sect3 => setKey (setKey ts2
                            "learning_architectures"
                            (.vlist (las.map Value.vdict))) "hw_and_sw"
                            (.vdict sect3)
                        | none => setKey ts2 "learning_architectures"
                            (.vlist (las.map Value.vdict)))))
                    "training_data" (.vdict sect)
                | none => setKey
                    (["card_metadata", "model_basic_information",
                      "technical_specifications"].foldl (fun acc sec =>
                        match alook raw sec with
                        | some sect2 => setKey acc sec (.vdict sect2)
                        | none => acc)
                      (taskEntry task))
                    "technical_specifications"
                    (.vdict (match alook raw "hw_and_sw" with
                      | some sect3 => setKey (setKey ts2
                          "learning_architectures"
                          (.vlist (las.map Value.vdict))) "hw_and_sw"
                          (.vdict sect3)
                      | none => setKey ts2 "learning_architectures"
                          (.vlist (las.map Value.vdict))))))
          = _
        rw [ht]
      refine ⟨_, heq, ?_⟩
      cases hal : alook raw "training_data" with
      | none =>
          exact dateFreeD_setKey (hsecfold _ _ hst0) hts3
      | some sect =>
          exact dateFreeD_setKey
            (dateFreeD_setKey (hsecfold _ _ hst0) hts3)
            (hraw _ sect hal)

theorem inject_ok {c : Consts} {s : Store}
    {structured : List (String × Value)}
    (h3 : s.all (fun kv =>
      if endsWithS kv.1 "model_inputs"
          || endsWithS kv.1 "model_outputs" then
        (match kv.2 with
          | .vlist l => l.all isVStr
          | _ => true)
      else true) = true)
    (hdf : s.all (fun kv => dateFreeV kv.2) = true)
    (hst : dateFreeD structured = true) :
    ∃ st2, _inject_training_iots c s structured = .ok st2
      ∧ dateFreeD st2 = true := by
  have hios : ∀ ms ∈ _iter_modalities s, ∃ d,
      ioDetail c s "training_data_" ms.1 ms.2 = .ok d
      ∧ dateFreeD d = true := by
    intro ms hms
    obtain ⟨m, hm⟩ := iterMod_vstr h3 ms hms
    rw [hm]
    exact ioDetail_ok "training_data_" ms.2 m hdf
  obtain ⟨ds, hds, hdsP⟩ := mapME_ok hios
  have hiosdf : dateFreeV (Value.vlist (ds.map Value.vdict)) = true := by
    show dateFreeL (ds.map Value.vdict) = true
    rw [dateFreeL_iff]
    intro x hx
    rcases List.mem_map.mp hx with ⟨d, hd, rfl⟩
    exact hdsP d hd
  unfold _inject_training_iots
  rw [hds]
  cases htd : lookupS structured "training_data" with
  | none =>
      exact ⟨_, rfl, dateFreeD_setKey hst
        (dateFreeD_insert_after rfl hiosdf)⟩
  | some v =>
      cases v with
      | vdict td =>
          refine ⟨_, rfl, dateFreeD_setKey hst ?_⟩
          show dateFreeD (insert_after
            (setKey td "inputs_outputs_technical_specifications"
              (.vlist (ds.map Value.vdict)))
            "inputs_outputs_technical_specifications"
            (.vlist (ds.map Value.vdict)) "url_info") = true
          exact dateFreeD_insert_after
            (dateFreeD_setKey
              (show dateFreeD td = true from
                (dateFreeD_iff structured).mp hst _ (lookupS_mem htd))
              hiosdf)
            hiosdf
      | vstr t =>
          exact ⟨_, rfl, dateFreeD_setKey hst
            (dateFreeD_insert_after rfl hiosdf)⟩
      | vint n =>
          exact ⟨_, rfl, dateFreeD_setKey hst
            (dateFreeD_insert_after rfl hiosdf)⟩
      | vbool b =>
          exact ⟨_, rfl, dateFreeD_setKey hst
            (dateFreeD_insert_after rfl hiosdf)⟩
      | vnone =>
          exact ⟨_, rfl, dateFreeD_setKey hst
            (dateFreeD_insert_after rfl hiosdf)⟩
      | vdate d =>
          exact ⟨_, rfl, dateFreeD_setKey hst
            (dateFreeD_insert_after rfl hiosdf)⟩
      | vlist l =>
          exact ⟨_, rfl, dateFreeD_setKey hst
            (dateFreeD_insert_after rfl hiosdf)⟩

/-- Totality of the flatten engine over well-formed inputs: parse_into_json
returns a (date-free, hence json-serializable) structured document. -/
theorem parse_ok {c : Consts} {schema : Schema} {s : Store}
    (hs : wfStore s = true) (hc : wfConsts c = true)
    (hsc : wfSchema schema = true) :
    ∃ doc, parse_into_json c schema s = .ok doc
      ∧ dateFreeD doc = true := by
  obtain ⟨h1, h2, h3, h4, h5, h6, h7⟩ := wfStore_parts hs
  have hc2 := hc
  rw [wfConsts, Bool.and_eq_true] at hc2
  have hcla := hc2.2
  have hsc2 := hsc
  rw [wfSchema, Bool.and_eq_true, Bool.and_eq_true] at hsc2
  have hmem : "technical_specifications" ∈ schema.map Prod.fst := by
    have hcont := hsc2.1.1
    exact List.mem_of_elem_eq_true hcont
  obtain ⟨las, hlas, hlasP⟩ := buildLAs_ok h5 h7 hcla
  obtain ⟨st1, hst1, hst1df⟩ := base_ok (alook_collect_df h7)
    (fun v hv => dateFree_lookup h7 hv) hlasP
    (alook_collect_isSome hmem)
  obtain ⟨st2, hst2, hst2df⟩ := inject_ok h3 h7 hst1df
  obtain ⟨st3, hst3, hst3df⟩ := attach_metrics_ok st2 hs hc hst2df
  have hst4df : dateFreeD (match alook
      (_collect_raw_sections s schema (lookupS s "task"))
      "other_considerations" with
    | some sect => setKey st3 "other_considerations" (.vdict sect)
    | none => st3) = true := by
    cases ho : alook (_collect_raw_sections s schema (lookupS s "task"))
        "other_considerations" with
    | none => exact hst3df
    | some sect =>
        exact dateFreeD_setKey hst3df (alook_collect_df h7 _ sect ho)
  refine ⟨_, ?_, hst4df⟩
  unfold parse_into_json
  rw [hlas]
  show (match _base_structured
      (_collect_raw_sections s schema (lookupS s "task"))
      (lookupS s "task") las with
    | Except.error e => Except.error e
    | Except.ok stx =>
        match _inject_training_iots c s stx with
        | Except.error e => Except.error e
        | Except.ok sty =>
            match _attach_metrics c s sty (lookupS s "task") with
            | Except.error e => Except.error e
            | Except.ok stz =>
                let st4 := match alook
                    (_collect_raw_sections s schema (lookupS s "task"))
                    "other_considerations" with
                  | some sect => setKey stz "other_considerations"
                      (.vdict sect)
                  | none => stz
                if dateFreeD st4 then Except.ok st4
                else Except.error PyErr.typeError)
    = Except.ok _
  rw [hst1]
  show (match _inject_training_iots c s st1 with
    | Except.error e => Except.error e
    | Except.ok sty =>
        match _attach_metrics c s sty (lookupS s "task") with
        | Except.error e => Except.error e
        | Except.ok stz =>
            let st4 := match alook
                (_collect_raw_sections s schema (lookupS s "task"))
                "other_considerations" with
              | some sect => setKey stz "other_considerations"
                  (.vdict sect)
              | none => stz
            if dateFreeD st4 then Except.ok st4
            else Except.error PyErr.typeError)
    = Except.ok _
  rw [hst2]
  show (match _attach_metrics c s st2 (lookupS s "task") with
    | Except.error e => Except.error e
    | Except.ok stz =>
        let st4 := match alook
            (_collect_raw_sections s schema (lookupS s "task"))
            "other_considerations" with
          | some sect => setKey stz "other_considerations"
              (.vdict sect)
          | none => stz
        if dateFreeD st4 then Except.ok st4
        else Except.error PyErr.typeError)
    = Except.ok _
  rw [hst3]
  show (if dateFreeD (match alook
        (_collect_raw_sections s schema (lookupS s "task"))
        "other_considerations" with
      | some sect => setKey st3 "other_considerations" (.vdict sect)
      | none => st3) then
      Except.ok (match alook
          (_collect_raw_sections s schema (lookupS s "task"))
          "other_considerations" with
        | some sect => setKey st3 "other_considerations" (.vdict sect)
        | none => st3)
    else Except.error PyErr.typeError)
    = Except.ok (match alook
        (_collect_raw_sections s schema (lookupS s "task"))
        "other_considerations" with
      | some sect => setKey st3 "other_considerations" (.vdict sect)
      | none => st3)
  rw [if_pos hst4df]

/-- _has_required_image never raises when render_uploads is well-formed.
-/
theorem hri_ok {s : Store} (fsx : String → Bool) (full_key : String)
    (h6 : (match lookupS s "render_uploads" with
      | some (.vdict d) => d.all (fun kv =>
          !truthy kv.2 || (match kv.2 with
            | .vdict _ => true
            | _ => false))
      | some _ => false
      | none => true) = true) :
    ∃ b, _has_required_image s fsx full_key = .ok b := by
  unfold _has_required_image
  rw [getD]
  cases hl : lookupS s "render_uploads" with
  | none => exact ⟨false, rfl⟩
  | some v =>
      rw [hl] at h6
      cases v with
      | vdict d =>
          show ∃ b, (match alook d full_key with
            | none => Except.ok false
            | some rv =>
                if !truthy rv then Except.ok false
                else
                  match rv with
                  | .vdict rd =>
                      (match (lookupS rd "path").getD (.vstr "") with
                        | .vstr p => Except.ok (fsx p)
                        | _ => Except.ok false)
                  | _ => Except.error PyErr.attributeError)
            = Except.ok b
          cases ha : alook d full_key with
          | none => exact ⟨false, rfl⟩
          | some rv =>
              have hwf := List.all_eq_true.mp h6 (full_key, rv)
                (alook_mem ha)
              show ∃ b, (if !truthy rv then Except.ok false
                else
                  match rv with
                  | .vdict rd =>
                      (match (lookupS rd "path").getD (.vstr "") with
                        | .vstr p => Except.ok (fsx p)
                        | _ => Except.ok false)
                  | _ => Except.error PyErr.attributeError)
                = Except.ok b
              cases htr : truthy rv with
              | false => exact ⟨false, rfl⟩
              | true =>
                  cases rv with
                  | vdict rd =>
                      show ∃ b, (match (lookupS rd "path").getD (.vstr "")
                          with
                        | .vstr p => Except.ok (fsx p)
                        | _ => Except.ok false) = Except.ok b
                      cases hp : (lookupS rd "path").getD (.vstr "") with
                      | vstr p => exact ⟨fsx p, rfl⟩
                      | vint n => exact ⟨false, rfl⟩
                      | vbool b => exact ⟨false, rfl⟩
                      | vnone => exact ⟨false, rfl⟩
                      | vdate d2 => exact ⟨false, rfl⟩
                      | vlist l => exact ⟨false, rfl⟩
                      | vdict d2 => exact ⟨false, rfl⟩
                  | vstr t =>
                      have hwf2 : (!truthy (Value.vstr t) || false)
                          = true := hwf
                      rw [htr] at hwf2
                      exact absurd hwf2 (by decide)
                  | vint n =>
                      have hwf2 : (!truthy (Value.vint n) || false)
                          = true := hwf
                      rw [htr] at hwf2
                      exact absurd hwf2 (by decide)
                  | vbool b =>
                      have hwf2 : (!truthy (Value.vbool b) || false)
                          = true := hwf
                      rw [htr] at hwf2
                      exact absurd hwf2 (by decide)
                  | vnone =>
                      have hwf2 : (!truthy Value.vnone || false)
                          = true := hwf
                      rw [htr] at hwf2
                      exact absurd hwf2 (by decide)
                  | vdate d2 =>
                      have hwf2 : (!truthy (Value.vdate d2) || false)
                          = true := hwf
                      rw [htr] at hwf2
                      exact absurd hwf2 (by decide)
                  | vlist l =>
                      have hwf2 : (!truthy (Value.vlist l) || false)
                          = true := hwf
                      rw [htr] at hwf2
                      exact absurd hwf2 (by decide)
      | vstr t => exact Bool.noConfusion (show false = true from h6)
      | vint n => exact Bool.noConfusion (show false = true from h6)
      | vbool b => exact Bool.noConfusion (show false = true from h6)
      | vnone => exact Bool.noConfusion (show false = true from h6)
      | vdate d2 => exact Bool.noConfusion (show false = true from h6)
      | vlist l => exact Bool.noConfusion (show false = true from h6)

/-- One static field check never raises. -/
theorem staticFieldCheck_ok {c : Consts} {s : Store} (fsx : String → Bool)
    (task : Option Value) (sec key : String) (props : FieldProps)
    (h6 : (match lookupS s "render_uploads" with
      | some (.vdict d) => d.all (fun kv =>
          !truthy kv.2 || (match kv.2 with
            | .vdict _ => true
            | _ => false))
      | some _ => false
      | none => true) = true) :
    ∃ m, staticFieldCheck c s fsx task sec key props = .ok m := by
  unfold staticFieldCheck
  by_cases hg : (["input_content_rtstruct_subtype",
      "output_content_rtstruct_subtype"].contains key
    || ((c.DATA_INPUT_OUTPUT_TS.map Prod.fst).contains key
        && ["training_data",
          "evaluation_data_methodology_results_commisioning"].contains
            sec)) = true
  · rw [if_pos hg]
    exact ⟨[], rfl⟩
  · rw [if_neg hg]
    by_cases hr : (!(_field_required_for_task props task)) = true
    · rw [if_pos hr]
      exact ⟨[], rfl⟩
    · rw [if_neg hr]
      by_cases hi : pyLower (props.ftype.getD "") = "image"
      · rw [if_pos hi]
        obtain ⟨b, hb⟩ := hri_ok fsx (sec ++ "_" ++ key) h6
        show ∃ m, (match _has_required_image s fsx (sec ++ "_" ++ key)
            with
          | Except.error e => Except.error e
          | Except.ok b2 => Except.ok (if b2 then []
              else [(sec, _label_for props key)])) = Except.ok m
        rw [hb]
        exact ⟨_, rfl⟩
      · rw [if_neg hi]
        exact ⟨_, rfl⟩

/-- validate_static_fields never raises over a well-formed store. -/
theorem vsf_ok {c : Consts} {schema : Schema} {s : Store}
    (task : Option Value) (fsx : String → Bool)
    (h6 : (match lookupS s "render_uploads" with
      | some (.vdict d) => d.all (fun kv =>
          !truthy kv.2 || (match kv.2 with
            | .vdict _ => true
            | _ => false))
      | some _ => false
      | none => true) = true) :
    ∃ m, validate_static_fields c schema task s fsx = .ok m := by
  show ∃ m, flatMapME (fun seckv =>
    if ["evaluation_data_methodology_results_commisioning",
        "learning_architecture", "qualitative_evaluation"].contains seckv.1
    then .ok []
    else
      match seckv.2 with
      | .slist _ => .ok []
      | .smap fields =>
          flatMapME (fun f => staticFieldCheck c s fsx task seckv.1 f.1
              f.2)
            fields) schema = Except.ok m
  refine flatMapME_ok (fun seckv _ => ?_)
  obtain ⟨sec, ss⟩ := seckv
  by_cases hg : ["evaluation_data_methodology_results_commisioning",
      "learning_architecture", "qualitative_evaluation"].contains sec
      = true
  · show ∃ bs, (if ["evaluation_data_methodology_results_commisioning",
        "learning_architecture", "qualitative_evaluation"].contains sec
      then Except.ok ([] : List MissingItem)
      else
        match ss with
        | .slist _ => Except.ok []
        | .smap fields =>
            flatMapME (fun f => staticFieldCheck c s fsx task sec f.1 f.2)
              fields) = Except.ok bs
    rw [if_pos hg]
    exact ⟨[], rfl⟩
  · show ∃ bs, (if ["evaluation_data_methodology_results_commisioning",
        "learning_architecture", "qualitative_evaluation"].contains sec
      then Except.ok ([] : List MissingItem)
      else
        match ss with
        | .slist _ => Except.ok []
        | .smap fields =>
            flatMapME (fun f => staticFieldCheck c s fsx task sec f.1 f.2)
              fields) = Except.ok bs
    rw [if_neg hg]
    cases ss with
    | slist keys => exact ⟨[], rfl⟩
    | smap fields =>
        exact flatMapME_ok (fun f _ =>
          staticFieldCheck_ok fsx task sec f.1 f.2 h6)

/-- validate_learning_architectures never raises when the forms value is
sized and the learning_architecture schema section is not a list. -/
theorem vla_ok {c : Consts} {schema : Schema} {s : Store}
    (h5 : (match lookupS s "learning_architecture_forms" with
      | some (.vstr _) => true
      | some (.vlist _) => true
      | some (.vdict _) => true
      | some _ => false
      | none => true) = true)
    (hla : (match alook schema "learning_architecture" with
      | some (.slist _) => false
      | _ => true) = true) :
    ∃ m, validate_learning_architectures c schema s = .ok m := by
  have hlen : ∃ n, pyLen (getD s "learning_architecture_forms"
      (.vdict [])) = .ok n := by
    rw [getD]
    cases hl : lookupS s "learning_architecture_forms" with
    | none => exact ⟨0, rfl⟩
    | some v =>
        rw [hl] at h5
        cases v with
        | vstr t => exact ⟨t.data.length, rfl⟩
        | vlist l => exact ⟨l.length, rfl⟩
        | vdict d => exact ⟨d.length, rfl⟩
        | vint n => exact Bool.noConfusion h5
        | vbool b => exact Bool.noConfusion h5
        | vnone => exact Bool.noConfusion h5
        | vdate d => exact Bool.noConfusion h5
  obtain ⟨n, hn⟩ := hlen
  have hsf : ∃ sf, (match alook schema "learning_architecture" with
      | none => Except.ok ([] : List (String × FieldProps))
      | some (.smap fields) => Except.ok fields
      | some (.slist _) => Except.error PyErr.attributeError)
      = Except.ok sf := by
    cases hal : alook schema "learning_architecture" with
    | none => exact ⟨[], rfl⟩
    | some ss =>
        cases ss with
        | smap fields => exact ⟨fields, rfl⟩
        | slist keys =>
            rw [hal] at hla
            exact Bool.noConfusion (show false = true from hla)
  obtain ⟨sf, hsf2⟩ := hsf
  have heq : validate_learning_architectures c schema s
      = Except.ok ((List.range n).flatMap (fun i =>
        c.LEARNING_ARCHITECTURE.flatMap (fun fkv =>
          match alook sf fkv.1 with
          | none => []
          | some props =>
              if !props.required then []
              else if is_empty ((lookupS s ("learning_architecture_"
                  ++ String.mk (natDigits i) ++ "_" ++ fkv.1)).getD
                  .vnone) then
                [("learning_architecture",
                  (match props.label with
                    | some l => l
                    | none => pyTitle (pyReplace fkv.1 "_" " "))
                  ++ " (Learning Architecture "
                  ++ String.mk (natDigits (i + 1)) ++ ")")]
              else []))) := by
    unfold validate_learning_architectures
    rw [hn]
    show (match (match alook schema "learning_architecture" with
      | none => Except.ok ([] : List (String × FieldProps))
      | some (.smap fields) => Except.ok fields
      | some (.slist _) => Except.error PyErr.attributeError) with
    | Except.error e => Except.error e
    | Except.ok schema_fields =>
        Except.ok ((List.range n).flatMap (fun i =>
          c.LEARNING_ARCHITECTURE.flatMap (fun fkv =>
            match alook schema_fields fkv.1 with
            | none => []
            | some props =>
                if !props.required then []
                else if is_empty ((lookupS s ("learning_architecture_"
                    ++ String.mk (natDigits i) ++ "_" ++ fkv.1)).getD
                    .vnone) then
                  [("learning_architecture",
                    (match props.label with
                      | some l => l
                      | none => pyTitle (pyReplace fkv.1 "_" " "))
                    ++ " (Learning Architecture "
                    ++ String.mk (natDigits (i + 1)) ++ ")")]
                else []))))
    = Except.ok ((List.range n).flatMap (fun i =>
        c.LEARNING_ARCHITECTURE.flatMap (fun fkv =>
          match alook sf fkv.1 with
          | none => []
          | some props =>
              if !props.required then []
              else if is_empty ((lookupS s ("learning_architecture_"
                  ++ String.mk (natDigits i) ++ "_" ++ fkv.1)).getD
                  .vnone) then
                [("learning_architecture",
                  (match props.label with
                    | some l => l
                    | none => pyTitle (pyReplace fkv.1 "_" " "))
                  ++ " (Learning Architecture "
                  ++ String.mk (natDigits (i + 1)) ++ ")")]
              else [])))
    rw [hsf2]
  exact ⟨_, heq⟩

/-- validate_modalities_fields never raises over a well-formed store. -/
theorem vmf_ok {c : Consts} {s : Store}
    (h2 : (match lookupS s "evaluation_forms" with
      | some (.vlist l) => l.all isVStr
      | some _ => false
      | none => true) = true)
    (h3 : s.all (fun kv =>
      if endsWithS kv.1 "model_inputs"
          || endsWithS kv.1 "model_outputs" then
        (match kv.2 with
          | .vlist l => l.all isVStr
          | _ => true)
      else true) = true) :
    ∃ m, validate_modalities_fields c s = .ok m := by
  have hforms : ∃ names,
      iterVals (getD s "evaluation_forms" (.vlist [])) = .ok names
      ∧ ∀ x ∈ names, ∃ t2, x = Value.vstr t2 := by
    rw [getD]
    cases hl : lookupS s "evaluation_forms" with
    | none => exact ⟨[], rfl, fun x hx => absurd hx (List.not_mem_nil _)⟩
    | some v =>
        rw [hl] at h2
        cases v with
        | vlist l =>
            exact ⟨l, rfl, fun x hx =>
              isVStr_elim (List.all_eq_true.mp h2 x hx)⟩
        | vstr t2 => exact Bool.noConfusion h2
        | vint n => exact Bool.noConfusion h2
        | vbool b => exact Bool.noConfusion h2
        | vnone => exact Bool.noConfusion h2
        | vdate d => exact Bool.noConfusion h2
        | vdict d => exact Bool.noConfusion h2
  obtain ⟨names, hnames, hstr⟩ := hforms
  show ∃ m, flatMapME (fun ms =>
    match ms.1 with
    | .vstr m =>
        let clean := cleanLabel m
        let trainItems := c.DATA_INPUT_OUTPUT_TS.flatMap (fun fl =>
          if is_empty ((lookupS s ("training_data_" ++ clean ++ "_"
              ++ ms.2 ++ "_" ++ fl.1)).getD .vnone) then
            [("training_data", fl.2 ++ " (" ++ m ++ " - " ++ ms.2 ++ ")")]
          else [])
        match iterVals (getD s "evaluation_forms" (.vlist [])) with
        | .error e => .error e
        | .ok names2 =>
            match flatMapME (fun nv =>
              match nv with
              | .vstr nm =>
                  let slug := pyReplace nm " " "_"
                  Except.ok (c.DATA_INPUT_OUTPUT_TS.flatMap (fun fl =>
                    if is_empty ((lookupS s ("evaluation_" ++ slug ++ "_"
                        ++ clean ++ "_" ++ ms.2 ++ "_" ++ fl.1)).getD
                        .vnone) then
                      [("evaluation_data_methodology_results_commisioning",
                        fl.2 ++ " (" ++ m ++ " - " ++ ms.2 ++ ")(Eval: "
                        ++ nm ++ ")")]
                    else [])) 
              | _ => Except.error PyErr.attributeError) names2 with
            | .error e => .error e
            | .ok evalItems => .ok (trainItems ++ evalItems)
    | _ => .error .attributeError) (_iter_modalities s) = Except.ok m
  refine flatMapME_ok (fun ms hms => ?_)
  obtain ⟨mv, msrc⟩ := ms
  obtain ⟨m, hm⟩ := iterMod_vstr h3 (mv, msrc) hms
  have hm2 : mv = Value.vstr m := hm
  subst hm2
  show ∃ bs, (match iterVals (getD s "evaluation_forms" (.vlist [])) with
    | Except.error e => Except.error e
    | Except.ok names2 =>
        match flatMapME (fun nv =>
          match nv with
          | Value.vstr nm =>
              Except.ok (c.DATA_INPUT_OUTPUT_TS.flatMap (fun fl =>
                if is_empty ((lookupS s ("evaluation_"
                    ++ pyReplace nm " " "_" ++ "_"
                    ++ cleanLabel m ++ "_" ++ msrc ++ "_" ++ fl.1)).getD
                    .vnone) then
                  [("evaluation_data_methodology_results_commisioning",
                    fl.2 ++ " (" ++ m ++ " - " ++ msrc ++ ")(Eval: "
                    ++ nm ++ ")")]
                else [])) 
          | _ => Except.error PyErr.attributeError) names2 with
        | Except.error e => Except.error e
        | Except.ok evalItems =>
            Except.ok (c.DATA_INPUT_OUTPUT_TS.flatMap (fun fl =>
              if is_empty ((lookupS s ("training_data_" ++ cleanLabel m
                  ++ "_" ++ msrc ++ "_" ++ fl.1)).getD .vnone) then
                [("training_data", fl.2 ++ " (" ++ m ++ " - " ++ msrc
                  ++ ")")]
              else [])
              ++ evalItems))
    = Except.ok bs
  rw [hnames]
  obtain ⟨evs, hevs⟩ := @flatMapME_ok Value MissingItem (fun nv =>
    match nv with
    | Value.vstr nm =>
        Except.ok (c.DATA_INPUT_OUTPUT_TS.flatMap (fun fl =>
          if is_empty ((lookupS s ("evaluation_"
              ++ pyReplace nm " " "_" ++ "_"
              ++ cleanLabel m ++ "_" ++ msrc ++ "_" ++ fl.1)).getD
              .vnone) then
            [("evaluation_data_methodology_results_commisioning",
              fl.2 ++ " (" ++ m ++ " - " ++ msrc ++ ")(Eval: "
              ++ nm ++ ")")]
          else [])) 
    | _ => Except.error PyErr.attributeError) names
    (fun nv hnv => by
      obtain ⟨nm, rfl⟩ := hstr nv hnv
      exact ⟨_, rfl⟩)
  show ∃ bs, (match flatMapME (fun nv =>
      match nv with
      | Value.vstr nm =>
          Except.ok (c.DATA_INPUT_OUTPUT_TS.flatMap (fun fl =>
            if is_empty ((lookupS s ("evaluation_"
                ++ pyReplace nm " " "_" ++ "_"
                ++ cleanLabel m ++ "_" ++ msrc ++ "_" ++ fl.1)).getD
                .vnone) then
              [("evaluation_data_methodology_results_commisioning",
                fl.2 ++ " (" ++ m ++ " - " ++ msrc ++ ")(Eval: "
                ++ nm ++ ")")]
            else [])) 
      | _ => Except.error PyErr.attributeError) names with
    | Except.error e => Except.error e
    | Except.ok evalItems =>
        Except.ok (c.DATA_INPUT_OUTPUT_TS.flatMap (fun fl =>
          if is_empty ((lookupS s ("training_data_" ++ cleanLabel m
              ++ "_" ++ msrc ++ "_" ++ fl.1)).getD .vnone) then
            [("training_data", fl.2 ++ " (" ++ m ++ " - " ++ msrc
              ++ ")")]
          else [])
          ++ evalItems))
    = Except.ok bs
  rw [hevs]
  exact ⟨_, rfl⟩

/-- _validate_metric_group never raises over a well-formed store. -/
theorem vmg_ok {c : Consts} {s : Store}
    (eval_section : List (String × FieldProps)) (pfx slug nm : String)
    (mt : String)
    (h4 : s.all (fun kv =>
      if endsWithS kv.1 "_list" then
        (match kv.2 with
          | .vlist l => l.all isVStr
          | _ => false)
      else true) = true) :
    ∃ m, validateMetricGroup c s eval_section pfx slug nm mt = .ok m := by
  obtain ⟨l, hl, hall⟩ := listKey_wf h4
    (endsWithS_append (pfx ++ mt) "_list")
  unfold validateMetricGroup
  rw [hl]
  show ∃ m, flatMapME (fun mn =>
    match mn with
    | Value.vstr mnm =>
        Except.ok (((alook c.EVALUATION_METRIC_FIELDS mt).getD
            []).flatMap (fun fk =>
          match alook eval_section fk with
          | none => []
          | some props =>
              if props.required && is_empty ((lookupS s
                  ("evaluation_" ++ slug ++ "." ++ mnm ++ "_"
                    ++ fk)).getD .vnone) then
                [("evaluation_data_methodology_results_commisioning",
                  _label_for props fk ++ " (Metric: "
                  ++ splitHead mnm " ("
                  ++ ", Eval: " ++ nm ++ ")")]
              else []))
    | _ => Except.error PyErr.attributeError) l = Except.ok m
  refine flatMapME_ok (fun mn hmn => ?_)
  obtain ⟨mnm, rfl⟩ := isVStr_elim (List.all_eq_true.mp hall mn hmn)
  exact ⟨_, rfl⟩

/-- One evaluation form's validation never raises for a str name over a
well-formed store. -/
theorem evalFormMissing_ok {c : Consts} {s : Store}
    (eval_section : List (String × FieldProps)) (task : Option Value)
    (metric_types metric_keys : List String) (nm : String)
    (h4 : s.all (fun kv =>
      if endsWithS kv.1 "_list" then
        (match kv.2 with
          | .vlist l => l.all isVStr
          | _ => false)
      else true) = true) :
    ∃ m, evalFormMissing c eval_section task s metric_types metric_keys
      (.vstr nm) = .ok m := by
  obtain ⟨ms2, hms2⟩ := flatMapME_ok (l := metric_types) (fun mt _ =>
    vmg_ok eval_section ("evaluation_" ++ pyReplace nm " " "_" ++ "_")
      (pyReplace nm " " "_") nm mt h4)
  have heq : evalFormMissing c eval_section task s metric_types
      metric_keys (.vstr nm)
      = Except.ok (evalFormFieldsItems task s eval_section metric_keys
          (c.DATA_INPUT_OUTPUT_TS.map Prod.fst)
          ("evaluation_" ++ pyReplace nm " " "_" ++ "_") nm
          (truthy ((lookupS s ("evaluation_" ++ pyReplace nm " " "_"
            ++ "_" ++ "evaluated_same_as_approved")).getD (.vbool false)))
        ++ ms2) := by
    show (match flatMapME (validateMetricGroup c s eval_section
        ("evaluation_" ++ pyReplace nm " " "_" ++ "_")
        (pyReplace nm " " "_") nm) metric_types with
      | Except.error e => Except.error e
      | Except.ok metricItems =>
          Except.ok (evalFormFieldsItems task s eval_section metric_keys
            (c.DATA_INPUT_OUTPUT_TS.map Prod.fst)
            ("evaluation_" ++ pyReplace nm " " "_" ++ "_") nm
            (truthy ((lookupS s ("evaluation_" ++ pyReplace nm " " "_"
              ++ "_" ++ "evaluated_same_as_approved")).getD
              (.vbool false)))
            ++ metricItems))
      = _
    rw [hms2]
  exact ⟨_, heq⟩

/-- validate_evaluation_forms never raises over a well-formed store and
schema. -/
theorem vef_ok {c : Consts} {schema : Schema} {s : Store}
    (h1 : (match lookupS s "task" with
      | some v => isVStr v
      | none => true) = true)
    (h2 : (match lookupS s "evaluation_forms" with
      | some (.vlist l) => l.all isVStr
      | some _ => false
      | none => true) = true)
    (h4 : s.all (fun kv =>
      if endsWithS kv.1 "_list" then
        (match kv.2 with
          | .vlist l => l.all isVStr
          | _ => false)
      else true) = true)
    (hed : (match alook schema
        "evaluation_data_methodology_results_commisioning" with
      | some (.slist _) => false
      | _ => true) = true) :
    ∃ m, validate_evaluation_forms c schema (lookupS s "task") s
      = .ok m := by
  have hes : ∃ es, (match alook schema
      "evaluation_data_methodology_results_commisioning" with
    | none => Except.ok ([] : List (String × FieldProps))
    | some (.smap fields) => Except.ok fields
    | some (.slist _) => Except.error PyErr.attributeError)
      = Except.ok es := by
    cases hal : alook schema
        "evaluation_data_methodology_results_commisioning" with
    | none => exact ⟨[], rfl⟩
    | some ss =>
        cases ss with
        | smap fields => exact ⟨fields, rfl⟩
        | slist keys =>
            rw [hal] at hed
            exact Bool.noConfusion (show false = true from hed)
  obtain ⟨es, hes2⟩ := hes
  have hmt : ∃ mts, (match lookupS s "task" with
      | some v =>
          if truthy v then taskGet c v
          else Except.ok ((alook c.TASK_METRIC_MAP "").getD [])
      | none => Except.ok ((alook c.TASK_METRIC_MAP "").getD []))
      = Except.ok mts := by
    cases hl : lookupS s "task" with
    | none => exact ⟨_, rfl⟩
    | some v =>
        rw [hl] at h1
        obtain ⟨t, rfl⟩ := isVStr_elim h1
        show ∃ mts, (if truthy (Value.vstr t) then
            taskGet c (Value.vstr t)
          else Except.ok ((alook c.TASK_METRIC_MAP "").getD []))
          = Except.ok mts
        by_cases htr : truthy (Value.vstr t) = true
        · rw [if_pos htr]
          exact ⟨_, rfl⟩
        · rw [if_neg htr]
          exact ⟨_, rfl⟩
  obtain ⟨mts, hmt2⟩ := hmt
  have hforms : ∃ names,
      iterVals (getD s "evaluation_forms" (.vlist [])) = .ok names
      ∧ ∀ x ∈ names, ∃ t2, x = Value.vstr t2 := by
    rw [getD]
    cases hl : lookupS s "evaluation_forms" with
    | none => exact ⟨[], rfl, fun x hx => absurd hx (List.not_mem_nil _)⟩
    | some v =>
        rw [hl] at h2
        cases v with
        | vlist l =>
            exact ⟨l, rfl, fun x hx =>
              isVStr_elim (List.all_eq_true.mp h2 x hx)⟩
        | vstr t2 => exact Bool.noConfusion h2
        | vint n => exact Bool.noConfusion h2
        | vbool b => exact Bool.noConfusion h2
        | vnone => exact Bool.noConfusion h2
        | vdate d => exact Bool.noConfusion h2
        | vdict d => exact Bool.noConfusion h2
  obtain ⟨names, hnames, hstr⟩ := hforms
  obtain ⟨out, hout⟩ := flatMapME_ok (l := names) (fun nv hnv => by
    obtain ⟨nm, rfl⟩ := hstr nv hnv
    exact evalFormMissing_ok (c := c) es (lookupS s "task") mts
      (mts.flatMap (fun mt => (alook c.EVALUATION_METRIC_FIELDS mt).getD
        [])) nm h4)
  refine ⟨out, ?_⟩
  unfold validate_evaluation_forms
  rw [hes2]
  show (match (match lookupS s "task" with
      | some v =>
          if truthy v then taskGet c v
          else Except.ok ((alook c.TASK_METRIC_MAP "").getD [])
      | none => Except.ok ((alook c.TASK_METRIC_MAP "").getD [])) with
    | Except.error e => Except.error e
    | Except.ok metric_types =>
        match iterVals (getD s "evaluation_forms" (.vlist [])) with
        | Except.error e => Except.error e
        | Except.ok names2 =>
            flatMapME (evalFormMissing c es (lookupS s "task") s
              metric_types (metric_types.flatMap (fun mt =>
                (alook c.EVALUATION_METRIC_FIELDS mt).getD []))) names2)
    = Except.ok out
  rw [hmt2]
  show (match iterVals (getD s "evaluation_forms" (.vlist [])) with
    | Except.error e => Except.error e
    | Except.ok names2 =>
        flatMapME (evalFormMissing c es (lookupS s "task") s
          mts (mts.flatMap (fun mt =>
            (alook c.EVALUATION_METRIC_FIELDS mt).getD []))) names2)
    = Except.ok out
  rw [hnames]
  exact hout

/-- Totality of the validation engine over well-formed inputs. -/
theorem vrf_ok {c : Consts} {schema : Schema} {s : Store}
    (fsx : String → Bool)
    (hs : wfStore s = true) (hsc : wfSchema schema = true) :
    ∃ miss, validate_required_fields c schema (lookupS s "task") s fsx
      = .ok miss := by
  obtain ⟨h1, h2, h3, h4, h5, h6, _⟩ := wfStore_parts hs
  have hsc2 := hsc
  rw [wfSchema, Bool.and_eq_true, Bool.and_eq_true] at hsc2
  obtain ⟨m1, hm1⟩ := @vsf_ok c schema s (lookupS s "task") fsx h6
  obtain ⟨m2, hm2⟩ := vla_ok (c := c) h5 hsc2.1.2
  obtain ⟨m3, hm3⟩ := vmf_ok (c := c) h2 h3
  obtain ⟨m4, hm4⟩ := @vef_ok c schema s h1 h2 h4 hsc2.2
  refine ⟨m1 ++ m2 ++ m3 ++ m4, ?_⟩
  unfold validate_required_fields
  rw [hm1]
  show (match validate_learning_architectures c schema s with
    | Except.error e => Except.error e
    | Except.ok m2b =>
        match validate_modalities_fields c s with
        | Except.error e => Except.error e
        | Except.ok m3b =>
            match validate_evaluation_forms c schema (lookupS s "task")
                s with
            | Except.error e => Except.error e
            | Except.ok m4b => Except.ok (m1 ++ m2b ++ m3b ++ m4b))
    = Except.ok (m1 ++ m2 ++ m3 ++ m4)
  rw [hm2]
  show (match validate_modalities_fields c s with
    | Except.error e => Except.error e
    | Except.ok m3b =>
        match validate_evaluation_forms c schema (lookupS s "task")
            s with
        | Except.error e => Except.error e
        | Except.ok m4b => Except.ok (m1 ++ m2 ++ m3b ++ m4b))
    = Except.ok (m1 ++ m2 ++ m3 ++ m4)
  rw [hm3]
  show (match validate_evaluation_forms c schema (lookupS s "task")
      s with
    | Except.error e => Except.error e
    | Except.ok m4b => Except.ok (m1 ++ m2 ++ m3 ++ m4b))
    = Except.ok (m1 ++ m2 ++ m3 ++ m4)
  rw [hm4]

/-- C3 counterexample: the totality claim as stated fails — the Flatten
Engine is not total over every flat store, schema and task: on a schema
without a technical_specifications section (here the empty schema, with
the empty — certainly structurally valid — flat store), parse_into_json
raises an uncaught KeyError("technical_specifications") from
_base_structured instead of degrading the missing key to an empty value.
-/
theorem C3_counterexample :
    parse_into_json constsMin [] []
      = .error (.keyError "technical_specifications") := by rfl

/-- C3: totality of flatten and validation, amended with the
well-formedness provisos under which it holds: for every flat store whose
task is a str when present, whose evaluation_forms is a list of strs,
whose modality lists and _list-suffixed keys hold lists of strs, whose
learning_architecture_forms value is sized, whose render_uploads is a
mapping of mappings, and which holds no datetime.date value (wfStore);
every constants table whose TASK_METRIC_MAP metric types all have field
lists (wfConsts); and every schema that has a technical_specifications
section and whose learning_architecture and evaluation-data sections are
field maps rather than lists (wfSchema), parse_into_json and
validate_required_fields both return normally — every absent key degrades
to an empty string/list or a missing-field entry, never an exception. -/
theorem C3_amended (c : Consts) (schema : Schema) (s : Store)
    (fsx : String → Bool)
    (hs : wfStore s = true) (hc : wfConsts c = true)
    (hsc : wfSchema schema = true) :
    (∃ doc, parse_into_json c schema s = .ok doc)
    ∧ (∃ miss, validate_required_fields c schema (lookupS s "task") s fsx
        = .ok miss) := by
  obtain ⟨doc, hdoc, _⟩ := parse_ok hs hc hsc
  obtain ⟨miss, hmiss⟩ := vrf_ok fsx hs hsc
  exact ⟨⟨doc, hdoc⟩, ⟨miss, hmiss⟩⟩

/-- C3 witness: the amended theorem applied at concrete inputs. -/
theorem C3_witness :
    (∃ doc, parse_into_json constsMin
      [("technical_specifications", SchemaSection.smap [])] []
      = .ok doc)
    ∧ (∃ miss, validate_required_fields constsMin
      [("technical_specifications", SchemaSection.smap [])]
      (lookupS [] "task") [] (fun _ => false) = .ok miss) :=
  C3_amended constsMin
    [("technical_specifications", SchemaSection.smap [])]
    [] (fun _ => false) (by decide) (by decide) (by decide)

/-- Modelled from the spec: the fragment of SCHEMA
(app/core/model_card/constants.py, not among the staged sources) that the
round-trip counterexample needs — a card_metadata field map holding the
required date field card_creation_date, and the technical_specifications
section the flatten engine requires. -/
def schemaC1 : Schema :=
  [("card_metadata", .smap [("card_creation_date",
      { label := some "Card creation date", required := true,
        ftype := some "date", model_types := none })]),
   ("technical_specifications", .smap [])]

/-- The first flatten's output: the unset date field comes out as the
empty string (serialization.py reads absent keys with .get(key, "")). -/
def d1C1 : List (String × Value) :=
  [("card_metadata", .vdict [("card_creation_date", .vstr "")]),
   ("technical_specifications", .vdict
     [("learning_architectures", .vlist [])]),
   ("training_data", .vdict
     [("inputs_outputs_technical_specifications", .vlist [])]),
   ("evaluations", .vlist [])]

/-- The second flatten's output: hydration passed the empty string
through _normalize_to_yyyymmdd/set_safe_date_field, which stored None
under the base key, so the field now serializes as null. -/
def d2C1 : List (String × Value) :=
  [("card_metadata", .vdict [("card_creation_date", .vnone)]),
   ("technical_specifications", .vdict
     [("learning_architectures", .vlist [])]),
   ("training_data", .vdict
     [("inputs_outputs_technical_specifications", .vlist [])]),
   ("evaluations", .vlist [])]

/-- C1: the round trip fails — a code bug, not a spec slip.  Take the
well-formed document d0 = {"evaluations": []}: hydrating it into the
empty store and flattening yields d1, whose card_metadata holds
card_creation_date = "" (flatten reads every absent schema key as "").
Hydrating d1 into a fresh empty store raises nothing, but the
creation_date seed path normalizes "" to None and set_safe_date_field
stores None under the base key, so flattening again yields d2 with
card_creation_date = null ≠ "": flatten(hydrate(emptyStore, d1)) ≠ d1
although d1 = flatten(hydrate(emptyStore, d0)) for a well-formed d0. -/
theorem C1_roundtrip_failure :
    parse_into_json constsMin schemaC1
        (populate_session_state_from_json []
          [("evaluations", Value.vlist [])]).1 = .ok d1C1
    ∧ (populate_session_state_from_json []
        [("evaluations", Value.vlist [])]).2 = none
    ∧ populate_session_state_from_json [] d1C1
        = ([("card_metadata_card_creation_date", .vnone),
            ("card_metadata_card_creation_date_widget", .vnone),
            ("_card_metadata_card_creation_date_widget", .vnone),
            ("learning_architecture_forms", .vdict []),
            ("training_data_inputs_outputs_technical_specifications",
              .vlist []),
            ("training_data_inputs_outputs_technical_specifications_list",
              .vlist []),
            ("evaluation_forms", .vlist [])], none)
    ∧ parse_into_json constsMin schemaC1
        (populate_session_state_from_json [] d1C1).1 = .ok d2C1
    ∧ d2C1 ≠ d1C1 := by
  refine ⟨rfl, rfl, rfl, rfl, ?_⟩
  intro h
  rw [d1C1, d2C1] at h
  simp at h

end MC
